import Mathlib

/-!
A shallow embedding of `main.go` of docker-network-graph-go.

The development follows the source file top to bottom: the colour allocator
(`COLORS`, `getUniqueColor`), the topology model builder (`getNetworks`,
`getContainers`), the graph assembly (`drawNetwork`, `drawContainer`,
`drawLink` and the loops of `generateGraph`) and the rendering stage of
`generateGraph`.

Conventions of the embedding.

* A Go `string` is a sequence of bytes.  It is embedded as `GoString`, a list
  of byte values, so that `len`, `s[:n]` and `s[n:]` are the list operations.
  ASCII literals of the source are written `str "..."`.
* A Go `map[string]V` is embedded as an association list with pairwise
  distinct keys (`GoMap`); `m[k] = v` is `GoMap.set`, `m[k]` is `GoMap.get`.
  A `for ... range` over a map visits the entries in an order Go leaves
  unspecified; the embedding visits them in list order, and every statement
  is proved for every list, hence for every order.
* The process-wide cursor `i` and the pseudo-random source behind
  `rand.Intn` are threaded explicitly as an `Alloc` state; the value of the
  k-th draw is given by an oracle `rnd : Nat → Nat`.
* A run-time panic (index or slice out of range) is the result `none`.
* Output to the terminal under `verbose` does not affect any returned value
  and is left out.
* In a string literal the braces `{` and `}` are written `\x7b` and `\x7d`.
-/

namespace DockerNetworkGraph

/-! ## Strings -/

/-- A Go string: its bytes, in order. -/
abbrev GoString := List Nat

/-- The Go string whose bytes are the characters of an ASCII literal. -/
def str (s : String) : GoString := s.toList.map Char.toNat

/-- Go `s[:n]`: the first `n` bytes; a slice bound beyond `len(s)` panics. -/
def sliceTo (s : GoString) (n : Nat) : Option GoString :=
  if n ≤ s.length then some (s.take n) else none

/-- Go `s[n:]`: all bytes from index `n` on; a bound beyond `len(s)` panics. -/
def sliceFrom (s : GoString) (n : Nat) : Option GoString :=
  if n ≤ s.length then some (s.drop n) else none

/-- The byte of the lower-case hexadecimal digit `d`. -/
def hexDigit (d : Nat) : Nat := if d < 10 then 48 + d else 87 + d

/-- The digits of `n` in base 16, most significant first, as `fmt` prints them
for the verb `%x`: no leading zero, and the single digit `0` for zero.  The
first argument bounds the number of digits produced. -/
def hexDigits : Nat → Nat → List Nat
  | 0, _ => []
  | fuel + 1, n => if n < 16 then [hexDigit n] else hexDigits fuel (n / 16) ++ [hexDigit (n % 16)]

/-- The effect of `fmt.Sprintf("%0wx", n)` for a non-negative `n`: the hexadecimal digits of `n`,
padded on the left with `0` up to the width `w`. -/
def sprintfHex (w n : Nat) : GoString :=
  let ds := hexDigits (n + 1) n
  List.replicate (w - ds.length) 48 ++ ds

/-! ## Maps -/

/-- A Go `map[string]V`: the entries, with pairwise distinct keys. -/
abbrev GoMap (V : Type) := List (GoString × V)

namespace GoMap

variable {V : Type}

/-- Go `m[k] = v`: replaces the value stored under `k`, or adds the entry. -/
def set : GoMap V → GoString → V → GoMap V
  | [], k, v => [(k, v)]
  | (k', v') :: rest, k, v => if k' = k then (k, v) :: rest else (k', v') :: set rest k v

/-- Go `v, ok := m[k]`. -/
def get? (m : GoMap V) (k : GoString) : Option V := m.lookup k

/-- Go `m[k]`: the value stored under `k`, the zero value when there is none. -/
def get [Inhabited V] (m : GoMap V) (k : GoString) : V := (m.lookup k).getD default

/-- The keys of the map. -/
def keys (m : GoMap V) : List GoString := m.map Prod.fst

end GoMap

/-! ## The colour allocator -/

/-- The palette `COLORS` of network colours (lines 19-23). -/
def COLORS : List GoString :=
  [str "#1f78b4", str "#33a02c", str "#e31a1c", str "#ff7f00", str "#6a3d9a", str "#b15928",
   str "#a6cee3", str "#b2df8a", str "#fdbf6f", str "#cab2d6", str "#90f530", str "#0d8bad",
   str "#e98420", str "#0e9997", str "#6a5164", str "#afa277", str "#149ead", str "#a54a56"]

/-- The mutable state behind `getUniqueColor`: the global cursor `i` and the
number of values drawn so far from the pseudo-random source. -/
structure Alloc where
  i : Nat
  draws : Nat
  deriving DecidableEq, Repr

/-- The function `getUniqueColor` (lines 63-70).  `rnd k` is the value `rand.Intn(0xFFFFFF)` returns at the k-th draw. -/
def getUniqueColor (rnd : Nat → Nat) (s : Alloc) : GoString × Alloc :=
  if h : s.i < COLORS.length then
    (COLORS.get ⟨s.i, h⟩, ⟨s.i + 1, s.draws⟩)
  else
    (str "#" ++ sprintfHex 6 (rnd s.draws), ⟨s.i, s.draws + 1⟩)

/-! ## The data model (`main.go`, lines 27-61) -/

/-- Type `Network`: a Docker network of the model. -/
structure Network where
  Name : GoString
  Gateway : GoString
  Internal : Bool
  Isolated : Bool
  Color : GoString
  deriving DecidableEq, Repr

/-- The zero value of `Network`, which `networks[k]` yields for an absent key. -/
instance : Inhabited Network := ⟨⟨[], [], false, false, []⟩⟩

/-- Type `Interface`: one attachment of a container to a network. -/
structure Interface where
  EndpointID : GoString
  Address : GoString
  Aliases : List GoString
  deriving DecidableEq, Repr

set_option linter.dupNamespace false in
/-- Type `Port`: a port of a container. -/
structure Port where
  Port : GoString
  deriving DecidableEq, Repr

/-- Type `Container`: a Docker container of the model. -/
structure Container where
  ContainerID : GoString
  Name : GoString
  Interfaces : List Interface
  Ports : List Port
  deriving DecidableEq, Repr

/-- Type `Link`: the attachment of a container to a network. -/
structure Link where
  ContainerID : GoString
  EndpointID : GoString
  NetworkName : GoString
  deriving DecidableEq, Repr

/-! ## The records of the Docker client

Only the fields `main.go` reads are kept. -/

/-- An error value returned by a collaborator. -/
structure Error where
  msg : GoString
  deriving DecidableEq, Repr

/-- Type `network.IPAMConfig`. -/
structure IPAMConfig where
  Subnet : GoString
  deriving DecidableEq, Repr

/-- Type `network.IPAM`. -/
structure IPAM where
  Config : List IPAMConfig
  deriving DecidableEq, Repr

/-- Type `types.NetworkResource`: one record of `NetworkList`. -/
structure NetworkResource where
  Name : GoString
  IPAM : IPAM
  Internal : Bool
  Options : GoMap GoString
  deriving DecidableEq, Repr

/-- Type `types.Container`: one record of `ContainerList`. -/
structure ContainerSummary where
  ID : GoString
  Names : List GoString
  deriving DecidableEq, Repr

/-- Type `network.EndpointSettings`: one network attachment of an inspected container. -/
structure EndpointSettings where
  Aliases : List GoString
  EndpointID : GoString
  IPAddress : GoString
  deriving DecidableEq, Repr

/-- Type `nat.PortBinding`. -/
structure PortBinding where
  HostIP : GoString
  HostPort : GoString
  deriving DecidableEq, Repr

/-- Type `types.NetworkSettings`: `Ports` is keyed by `nat.Port` values such as
`8080/tcp`, `Networks` by network name. -/
structure NetworkSettings where
  Ports : GoMap (List PortBinding)
  Networks : GoMap EndpointSettings
  deriving DecidableEq, Repr

/-- Type `types.ContainerJSON`: the answer of `ContainerInspect`. -/
structure ContainerJSON where
  NetworkSettings : NetworkSettings
  deriving DecidableEq, Repr

/-- The Docker client `cli`, as the answers it gives to the three queries of `main.go`. -/
structure Client where
  NetworkList : Except Error (List NetworkResource)
  ContainerList : Except Error (List ContainerSummary)
  ContainerInspect : GoString → Except Error ContainerJSON

/-- Method `nat.Port.Port()`: the port number of a `port/proto` value, that is the
bytes before the first `/` (byte 47). -/
def natPortPort (p : GoString) : GoString := p.takeWhile (fun b => b != 47)

/-! ## The topology model builder: networks (`main.go`, lines 72-110) -/

/-- The option that disables inter-container communication on a bridge. -/
def enableIccKey : GoString := str "com.docker.network.bridge.enable_icc"

/-- Lines 82-85: `gateway`, the first configured subnet, or `""` when the
network has no IPAM configuration. -/
def gatewayOf (net : NetworkResource) : GoString :=
  match net.IPAM.Config with
  | [] => []
  | c :: _ => c.Subnet

/-- Lines 92-95: `isolated`. -/
def isolatedOf (net : NetworkResource) : Bool :=
  match net.Options.get? enableIccKey with
  | some val => val == str "false"
  | none => false

/-- The synthetic network inserted at line 108. -/
def hostNetwork : Network := ⟨str "host", str "0.0.0.0", false, false, str "#808080"⟩

/-- The loop of lines 81-106 over `netList`, on the map `networks` and the
state of the colour allocator. -/
def getNetworksLoop (rnd : Nat → Nat) :
    List NetworkResource → GoMap Network → Alloc → GoMap Network × Alloc
  | [], networks, s => (networks, s)
  | net :: rest, networks, s =>
    let gateway := gatewayOf net
    if gateway = [] then
      getNetworksLoop rnd rest networks s
    else
      let internal := net.Internal
      let isolated := isolatedOf net
      let cs := getUniqueColor rnd s
      getNetworksLoop rnd rest
        (networks.set net.Name ⟨net.Name, gateway, internal, isolated, cs.1⟩) cs.2

/-- The function `getNetworks`: the returned pair `(map, error)` is an `Except`, next to
the state of the colour allocator after the call. -/
def getNetworks (rnd : Nat → Nat) (cli : Client) (s : Alloc) :
    Except Error (GoMap Network) × Alloc :=
  match cli.NetworkList with
  | .error err => (.error err, s)
  | .ok netList =>
    let r := getNetworksLoop rnd netList [] s
    (.ok (r.1.set (str "host") hostNetwork), r.2)

/-! ## The topology model builder: containers (`main.go`, lines 112-169) -/

/-- The expression `cont.Names[0][1:]`; `none` when it panics. -/
def displayName (cont : ContainerSummary) : Option GoString :=
  match cont.Names with
  | [] => none
  | n :: _ => sliceFrom n 1

/-- The loop of lines 137-141 over `netInfo.Aliases`, on the slice
`aliases`.  The operands of `&&` are evaluated left to right, the second
one only when the first comparison holds. -/
def filterAliases (cont : ContainerSummary) :
    List GoString → List GoString → Option (List GoString)
  | [], aliases => some aliases
  | al :: rest, aliases =>
    match sliceTo cont.ID 12 with
    | none => none
    | some short =>
      if al ≠ short then
        match displayName cont with
        | none => none
        | some name =>
          if al ≠ name then filterAliases cont rest (aliases ++ [al])
          else filterAliases cont rest aliases
      else filterAliases cont rest aliases

/-- The loop of lines 135-154 over the attachments of one container, on the
slices `interfaces` and `links`. -/
def attachmentsLoop (cont : ContainerSummary) :
    List (GoString × EndpointSettings) → List Interface → List Link →
      Option (List Interface × List Link)
  | [], interfaces, links => some (interfaces, links)
  | (netName, netInfo) :: rest, interfaces, links =>
    match filterAliases cont netInfo.Aliases [] with
    | none => none
    | some aliases =>
      attachmentsLoop cont rest
        (interfaces ++ [⟨netInfo.EndpointID, netInfo.IPAddress, aliases⟩])
        (links ++ [⟨cont.ID, netInfo.EndpointID, netName⟩])

/-- The loop of lines 122-166 over `contList`, on the slices `containers`
and `links`. -/
def getContainersLoop (cli : Client) :
    List ContainerSummary → List Container → List Link →
      Option (Except Error (List Container × List Link))
  | [], containers, links => some (.ok (containers, links))
  | cont :: rest, containers, links =>
    match cli.ContainerInspect cont.ID with
    | .error err => some (.error err)
    | .ok contInspect =>
      let ports := contInspect.NetworkSettings.Ports.map (fun p => Port.mk (natPortPort p.1))
      match attachmentsLoop cont contInspect.NetworkSettings.Networks [] links with
      | none => none
      | some (interfaces, links') =>
        match displayName cont with
        | none => none
        | some name =>
          getContainersLoop cli rest (containers ++ [⟨cont.ID, name, interfaces, ports⟩]) links'

/-- The function `getContainers`: `none` is a run-time panic, `some (.error err)` the
return `nil, nil, err`, `some (.ok (containers, links))` the normal return. -/
def getContainers (cli : Client) : Option (Except Error (List Container × List Link)) :=
  match cli.ContainerList with
  | .error err => some (.error err)
  | .ok contList => getContainersLoop cli contList [] []

/-! ## The graph of the rendering collaborator

`cgraph` of go-graphviz is not part of the repository.  It is embedded as the
interface section 6 of the specification asks of the rendering sink, with the
identity of nodes and edges that the library keeps: a graph holds named nodes
and a sequence of directed edges, each with its attributes; an attribute that
was never set is `none`.  A node is identified by its name, an edge by its
name and its two end nodes: `CreateNodeByName` and `CreateEdgeByName` return
the node or edge there is when the graph has it already, and add one only
otherwise.  A node handle `*cgraph.Node` is the name of the node, or `none`
for the nil handle; an edge handle is the position of the edge in the
sequence. -/

/-- Type `cgraph.EdgeStyle`, a string type. -/
abbrev EdgeStyle := GoString

/-- Constant `cgraph.SolidEdgeStyle`. -/
def SolidEdgeStyle : EdgeStyle := str "solid"

/-- Constant `cgraph.DashedEdgeStyle`. -/
def DashedEdgeStyle : EdgeStyle := str "dashed"

/-- Constant `cgraph.BoldEdgeStyle`. -/
def BoldEdgeStyle : EdgeStyle := str "bold"

/-- Modelled from the spec: `cgraph.Node` of go-graphviz, which is not in the
repository; a node with the attributes `main.go` sets. -/
structure Node where
  name : GoString
  shape : Option GoString
  label : Option GoString
  color : Option GoString
  style : Option GoString
  fillcolor : Option GoString
  deriving DecidableEq, Repr

/-- Modelled from the spec: `cgraph.Edge` of go-graphviz, which is not in the
repository; its name, the nodes at its tail and head, the port of the tail
node it is anchored at, and the attributes `main.go` sets. -/
structure Edge where
  name : GoString
  tail : GoString
  head : GoString
  tailport : Option GoString
  color : Option GoString
  style : Option EdgeStyle
  deriving DecidableEq, Repr

/-- Modelled from the spec: `cgraph.Graph` of go-graphviz, which is not in the
repository; the nodes and the edges in the order of their creation. -/
structure Graph where
  nodes : List Node
  edges : List Edge
  deriving DecidableEq, Repr

/-- The answer of the library to the creation of an edge at a nil node
handle: a parameter of the embedding, see `Graph.CreateEdgeByName`.  It is an
error or a graph with the handle of an edge; every statement below on drawn
links assumes the two nodes of the link, so that none depends on it. -/
abbrev NilEdge := Graph → GoString → Option GoString → Option GoString →
  Except Error (Graph × Nat)

/-- Applies `f` to the element at position `n`, if there is one. -/
def modifyAt {α : Type} (f : α → α) : List α → Nat → List α
  | [], _ => []
  | x :: xs, 0 => f x :: xs
  | x :: xs, n + 1 => x :: modifyAt f xs n

namespace Graph

/-- Whether the graph has a node of that name. -/
def hasNode (g : Graph) (name : GoString) : Bool := g.nodes.any (fun n => n.name == name)

/-- Modelled from the spec: `graph.NodeByName(name)` of go-graphviz, the handle
of the node of that name.  For a name without a node the library returns the
nil handle and no error. -/
def NodeByName (g : Graph) (name : GoString) : Except Error (Option GoString) :=
  .ok (if g.hasNode name then some name else none)

/-- The position of the first edge of that name from `n` to `m`, if there is one. -/
def edgeIndex (name n m : GoString) : List Edge → Option Nat
  | [] => none
  | e :: rest =>
    if e.name = name ∧ e.tail = n ∧ e.head = m then some 0
    else (edgeIndex name n m rest).map (fun i => i + 1)

/-- Modelled from the spec: `graph.CreateEdgeByName(name, n, m)` of go-graphviz.
When the graph has an edge of that name from `n` to `m` already, the handle of
that edge is returned and nothing is added; otherwise an edge with no
attribute set is added at the end.  What the library does when `n` or `m` is
the nil handle is not determined by the repository: it is the parameter
`lib`. -/
def CreateEdgeByName (lib : NilEdge) (g : Graph) (name : GoString) (n m : Option GoString) :
    Except Error (Graph × Nat) :=
  match n, m with
  | some t, some h =>
    match edgeIndex name t h g.edges with
    | some e => .ok (g, e)
    | none => .ok (⟨g.nodes, g.edges ++ [⟨name, t, h, none, none, none⟩]⟩, g.edges.length)
  | _, _ => lib g name n m

/-- Method `e.SetColor(color)` on the edge with handle `e`. -/
def SetEdgeColor (g : Graph) (e : Nat) (color : GoString) : Graph :=
  ⟨g.nodes, modifyAt (fun x => ⟨x.name, x.tail, x.head, x.tailport, some color, x.style⟩) g.edges e⟩

/-- Method `e.SetStyle(style)` on the edge with handle `e`. -/
def SetEdgeStyle (g : Graph) (e : Nat) (style : EdgeStyle) : Graph :=
  ⟨g.nodes, modifyAt (fun x => ⟨x.name, x.tail, x.head, x.tailport, x.color, some style⟩) g.edges e⟩

end Graph

/-! ## Graph assembly: links (`main.go`, lines 226-252 and 295-301) -/

/-- The function `drawLink` (lines 226-252). -/
def drawLink (lib : NilEdge) (graph : Graph) (networks : GoMap Network) (link : Link) :
    Except Error Graph :=
  let style :=
    if (networks.get link.NetworkName).Isolated then DashedEdgeStyle
    else if (networks.get link.NetworkName).Name = str "host" then BoldEdgeStyle
    else SolidEdgeStyle
  match graph.NodeByName link.ContainerID with
  | .error err => .error err
  | .ok n =>
    match graph.NodeByName link.NetworkName with
    | .error err => .error err
    | .ok m =>
      match graph.CreateEdgeByName lib [] n m with
      | .error err => .error err
      | .ok (graph1, e) =>
        .ok ((graph1.SetEdgeColor e (networks.get link.NetworkName).Color).SetEdgeStyle e style)

/-- The loop of lines 295-301 of `generateGraph` over `links`. -/
def drawLinksLoop (lib : NilEdge) (networks : GoMap Network) :
    List Link → Graph → Except Error Graph
  | [], graph => .ok graph
  | link :: rest, graph =>
    if link.NetworkName ≠ str "none" then
      match drawLink lib graph networks link with
      | .error err => .error err
      | .ok graph1 => drawLinksLoop lib networks rest graph1
    else
      drawLinksLoop lib networks rest graph

/-! ## Graph assembly: nodes (`main.go`, lines 171-224) -/

/-- Constant `cgraph.BoxShape`. -/
def BoxShape : GoString := str "box"

namespace Graph

/-- Modelled from the spec: `graph.CreateNodeByName(name)` of go-graphviz, the
handle of the node of that name, which is added with no attribute set when the
graph does not have it yet. -/
def CreateNodeByName (g : Graph) (name : GoString) : Except Error (Graph × GoString) :=
  if g.hasNode name then .ok (g, name)
  else .ok (⟨g.nodes ++ [⟨name, none, none, none, none, none⟩], g.edges⟩, name)

/-- Applies `f` to the node with handle `n`. -/
def modifyNode (g : Graph) (n : GoString) (f : Node → Node) : Graph :=
  ⟨g.nodes.map (fun x => if x.name = n then f x else x), g.edges⟩

/-- Method `n.SetShape(shape)`. -/
def SetNodeShape (g : Graph) (n : GoString) (shape : GoString) : Graph :=
  g.modifyNode n (fun x => ⟨x.name, some shape, x.label, x.color, x.style, x.fillcolor⟩)

/-- Method `n.SetLabel(label)`. -/
def SetNodeLabel (g : Graph) (n : GoString) (label : GoString) : Graph :=
  g.modifyNode n (fun x => ⟨x.name, x.shape, some label, x.color, x.style, x.fillcolor⟩)

/-- Method `n.SetColor(color)`. -/
def SetNodeColor (g : Graph) (n : GoString) (color : GoString) : Graph :=
  g.modifyNode n (fun x => ⟨x.name, x.shape, x.label, some color, x.style, x.fillcolor⟩)

/-- Method `n.SetStyle(style)`. -/
def SetNodeStyle (g : Graph) (n : GoString) (style : GoString) : Graph :=
  g.modifyNode n (fun x => ⟨x.name, x.shape, x.label, x.color, some style, x.fillcolor⟩)

/-- Method `n.SetFillColor(color)`. -/
def SetNodeFillColor (g : Graph) (n : GoString) (color : GoString) : Graph :=
  g.modifyNode n (fun x => ⟨x.name, x.shape, x.label, x.color, x.style, some color⟩)

/-- The node of that name, if the graph has one. -/
def node? (g : Graph) (name : GoString) : Option Node := g.nodes.find? (fun n => n.name == name)

end Graph

/-- Lines 172-179 of `drawNetwork`: the label of a network node, from
`fmt.Sprintf("{%s", net.Name)` to the closing `"}"`. -/
def networkLabel (net : Network) : GoString :=
  let label := str "\x7b" ++ net.Name
  let label := if net.Internal then label ++ str " | Internal" else label
  let label := if net.Isolated then label ++ str " | Containers isolated" else label
  label ++ str "\x7d"

/-- The function `drawNetwork` (lines 171-190). -/
def drawNetwork (graph : Graph) (net : Network) : Except Error Graph :=
  let label := networkLabel net
  match graph.CreateNodeByName net.Name with
  | .error err => .error err
  | .ok (graph1, n) =>
    .ok ((((graph1.SetNodeShape n BoxShape).SetNodeLabel n label).SetNodeColor n
      (net.Color ++ str "60")).SetNodeStyle n (str "rounded"))

/-- Function `strings.Join(elems, sep)`. -/
def stringsJoin : List GoString → GoString → GoString
  | [], _ => []
  | [x], _ => x
  | x :: y :: rest, sep => x ++ sep ++ stringsJoin (y :: rest) sep

/-- Line 197 of `drawContainer`: `fmt.Sprintf("{%s}}", port.Port)`.  The verbs
of `fmt` start with `%`; every brace of the format is copied as it is. -/
def portLabel (port : Port) : GoString := str "\x7b" ++ port.Port ++ str "\x7d\x7d"

/-- Lines 201-205 of `drawContainer`: the sub-label of one interface, which
starts as `"{"`, takes `fmt.Sprintf(" %s |", alias)` for every alias and ends
with `fmt.Sprintf("<%s> %s }}", iface.EndpointID, iface.Address)`. -/
def ifaceLabel (iface : Interface) : GoString :=
  let ifaceLabel := iface.Aliases.foldl (fun acc al => acc ++ (str " " ++ al ++ str " |")) (str "\x7b")
  ifaceLabel ++ (str "<" ++ iface.EndpointID ++ str "> " ++ iface.Address ++ str " \x7d\x7d")

/-- Lines 193-213 of `drawContainer`: the label of a container node, with the
formats `"{{ %s "` for the name, `"| {{ %s }} "` for the port labels when
there is one, and `"| {{ %s }} }}"` for the interface sub-labels. -/
def containerLabel (c : Container) : GoString :=
  let portLabels := c.Ports.map portLabel
  let ifaceLabels := c.Interfaces.map ifaceLabel
  let label := str "\x7b\x7b " ++ c.Name ++ str " "
  let label :=
    if portLabels.length > 0 then
      label ++ (str "| \x7b\x7b " ++ stringsJoin portLabels (str " | ") ++ str " \x7d\x7d ")
    else label
  label ++ (str "| \x7b\x7b " ++ stringsJoin ifaceLabels (str " | ") ++ str " \x7d\x7d \x7d\x7d")

/-- The function `drawContainer` (lines 192-224). -/
def drawContainer (graph : Graph) (c : Container) : Except Error Graph :=
  let label := containerLabel c
  match graph.CreateNodeByName c.ContainerID with
  | .error err => .error err
  | .ok (graph1, n) =>
    .ok ((((graph1.SetNodeShape n BoxShape).SetNodeLabel n label).SetNodeFillColor n
      (str "#cdcdcd")).SetNodeStyle n (str "filled"))

/-! ## Graph assembly and rendering: `generateGraph` (`main.go`, lines 254-336) -/

/-- The loop of lines 283-287 over the entries of `networks`. -/
def drawNetworksLoop : List (GoString × Network) → Graph → Except Error Graph
  | [], graph => .ok graph
  | (_, network) :: rest, graph =>
    match drawNetwork graph network with
    | .error err => .error err
    | .ok graph1 => drawNetworksLoop rest graph1

/-- The loop of lines 289-293 over `containers`. -/
def drawContainersLoop : List Container → Graph → Except Error Graph
  | [], graph => .ok graph
  | container :: rest, graph =>
    match drawContainer graph container with
    | .error err => .error err
    | .ok graph1 => drawContainersLoop rest graph1

/-- Lines 305-318: the body of the loop over `networks` for a network that
is neither internal nor named `host`. -/
def drawExposure (lib : NilEdge) (graph : Graph) : Except Error Graph :=
  match graph.CreateNodeByName (str "start") with
  | .error err => .error err
  | .ok (graph1, startNode) =>
    match graph1.CreateNodeByName (str "end") with
    | .error err => .error err
    | .ok (graph2, endNode) =>
      match graph2.CreateEdgeByName lib (str "e") (some startNode) (some endNode) with
      | .error err => .error err
      | .ok (graph3, e) =>
        .ok ((graph3.SetEdgeColor e (str "#808080")).SetEdgeStyle e (str "dotted"))

/-- The loop of lines 303-320 over the entries of `networks`. -/
def exposureLoop (lib : NilEdge) : List (GoString × Network) → Graph → Except Error Graph
  | [], graph => .ok graph
  | (_, network) :: rest, graph =>
    if !network.Internal && network.Name ≠ str "host" then
      match drawExposure lib graph with
      | .error err => .error err
      | .ok graph1 => exposureLoop lib rest graph1
    else
      exposureLoop lib rest graph

/-- Lines 275-320 of `generateGraph`: the graph assembled from the model.
The layout and the rank direction set at lines 279-280 are attributes of the
graph as a whole and are not tracked. -/
def assembleGraph (lib : NilEdge) (networks : GoMap Network) (containers : List Container)
    (links : List Link) : Except Error Graph :=
  match drawNetworksLoop networks ⟨[], []⟩ with
  | .error err => .error err
  | .ok graph1 =>
    match drawContainersLoop containers graph1 with
    | .error err => .error err
    | .ok graph2 =>
      match drawLinksLoop lib networks links graph2 with
      | .error err => .error err
      | .ok graph3 => exposureLoop lib networks graph3

/-- The scan of `filepath.Ext` from the last byte towards the first, on the
bytes not yet visited in reverse order and the suffix already visited: it
stops at a path separator `/` (byte 47) and returns the suffix from the first
`.` (byte 46) it meets. -/
def extScan : List Nat → GoString → GoString
  | [], _ => []
  | b :: rest, suffix =>
    if b = 47 then []
    else if b = 46 then b :: suffix
    else extScan rest (b :: suffix)

/-- Function `filepath.Ext(path)`: the suffix of `path` that starts at the last `.` of
its final element, empty when there is none. -/
def filepathExt (path : GoString) : GoString := extScan path.reverse []

/-- The expression `filepath.Ext(file)[1:]` of line 323; `none` when it panics. -/
def renderFormat (file : GoString) : Option GoString := sliceFrom (filepathExt file) 1

/-- What a run has handed to the rendering collaborator. -/
inductive Output where
  | file (graph : Graph) (format : GoString) (path : GoString)
  | notice
  | stdout (graph : Graph) (format : GoString)
  deriving DecidableEq, Repr

/-- Modelled from the spec: the rendering of go-graphviz, which is not in the
repository, as the error, if any, with which `g.RenderFilename` and `g.Render`
answer. -/
structure Renderer where
  RenderFilename : Graph → GoString → GoString → Option Error
  Render : Graph → GoString → Option Error

/-- Lines 322-335 of `generateGraph`: the rendering of the assembled graph.
The arguments of `g.RenderFilename` are evaluated before the call. -/
def renderGraph (r : Renderer) (graph : Graph) (file : GoString) (url : Bool) :
    Option (Except Error Output) :=
  if file ≠ [] then
    match renderFormat file with
    | none => none
    | some format =>
      match r.RenderFilename graph format file with
      | some err => some (.error err)
      | none => some (.ok (.file graph format file))
  else if url then
    some (.ok .notice)
  else
    match r.Render graph (str "dot") with
    | some err => some (.error err)
    | none => some (.ok (.stdout graph (str "dot")))

/-- The function `generateGraph`, from a client that was created: `none` is a
run-time panic, `some (.error err)` the return of `err`, `some (.ok out)` the
return of `nil` after `out` was rendered. -/
def generateGraph (lib : NilEdge) (rnd : Nat → Nat) (cli : Client) (s : Alloc) (r : Renderer)
    (file : GoString) (url : Bool) : Option (Except Error Output) :=
  match (getNetworks rnd cli s).1 with
  | .error err => some (.error err)
  | .ok networks =>
    match getContainers cli with
    | none => none
    | some (.error err) => some (.error err)
    | some (.ok (containers, links)) =>
      match assembleGraph lib networks containers links with
      | .error err => some (.error err)
      | .ok graph => renderGraph r graph file url

/-! ## Auxiliary definitions of the statements -/

/-- The colours returned by `n` successive calls of `getUniqueColor`, in
order, and the state after the last call. -/
def getUniqueColors (rnd : Nat → Nat) : Nat → Alloc → List GoString × Alloc
  | 0, s => ([], s)
  | n + 1, s =>
    let r := getUniqueColor rnd s
    let rs := getUniqueColors rnd n r.2
    (r.1 :: rs.1, rs.2)

/-- Whether a byte is one of the digits `0`-`9`, `a`-`f`. -/
def isHexDigit (b : Nat) : Bool := (48 ≤ b && b ≤ 57) || (97 ≤ b && b ≤ 102)

/-- The value of a hexadecimal digit. -/
def hexDigitValue (b : Nat) : Nat := if b ≤ 57 then b - 48 else b - 87

/-- The number a sequence of hexadecimal digits denotes, most significant digit first. -/
def hexValue (ds : List Nat) : Nat := ds.foldl (fun acc b => 16 * acc + hexDigitValue b) 0

/-- The raw aliases of an attachment without those equal to the first 12
bytes of the container ID or to the first name less its leading byte. -/
def keptAliases (cont : ContainerSummary) (raw : List GoString) : List GoString :=
  raw.filter (fun al => decide (al ≠ cont.ID.take 12 ∧ al ≠ (cont.Names.headD []).drop 1))

/-- One `Interface` per attachment, in order. -/
def interfacesOf (cont : ContainerSummary) (atts : GoMap EndpointSettings) : List Interface :=
  atts.map (fun a => ⟨a.2.EndpointID, a.2.IPAddress, keptAliases cont a.2.Aliases⟩)

/-- One `Link` per attachment, in order. -/
def linksOf (cont : ContainerSummary) (atts : GoMap EndpointSettings) : List Link :=
  atts.map (fun a => ⟨cont.ID, a.2.EndpointID, a.1⟩)

/-- The `Container` built from a listed container and the answer of its inspection. -/
def containerOf (cont : ContainerSummary) (j : ContainerJSON) : Container :=
  ⟨cont.ID, (cont.Names.headD []).drop 1, interfacesOf cont j.NetworkSettings.Networks,
    j.NetworkSettings.Ports.map (fun p => Port.mk (natPortPort p.1))⟩

/-- The links of all attachments of the listed containers, container by
container, as the inspection answers give them. -/
def attachmentLinks (cli : Client) (contList : List ContainerSummary) : List Link :=
  contList.flatMap (fun c =>
    match cli.ContainerInspect c.ID with
    | .ok j => linksOf c j.NetworkSettings.Networks
    | .error _ => [])

/-- The edge `drawLink` adds for a link, read off lines 227-250. -/
def linkEdge (networks : GoMap Network) (link : Link) : Edge :=
  ⟨[], link.ContainerID, link.NetworkName, none,
    some (networks.get link.NetworkName).Color,
    some (if (networks.get link.NetworkName).Isolated then DashedEdgeStyle
          else if (networks.get link.NetworkName).Name = str "host" then BoldEdgeStyle
          else SolidEdgeStyle)⟩

/-- That `containers` and `links` hold one `Interface` and one `Link` per
attachment of the listed containers, `insp` giving the inspection of each:
the containers follow the listing, each with the endpoint and the address of
its attachments in order; the links are those of the attachments in order,
as many as there are attachments; and every link matches an attachment whose
interface, in the container of that ID, has its endpoint and its address. -/
def onePerAttachment (insp : GoString → ContainerJSON) (contList : List ContainerSummary)
    (containers : List Container) (links : List Link) : Prop :=
  containers.length = contList.length ∧
  containers.map (fun k => (k.ContainerID, k.Interfaces.map (fun i => (i.EndpointID, i.Address))))
    = contList.map (fun c => (c.ID,
        (insp c.ID).NetworkSettings.Networks.map (fun a => (a.2.EndpointID, a.2.IPAddress)))) ∧
  links = contList.flatMap (fun c =>
    (insp c.ID).NetworkSettings.Networks.map (fun a => Link.mk c.ID a.2.EndpointID a.1)) ∧
  links.length = (contList.map (fun c => (insp c.ID).NetworkSettings.Networks.length)).sum ∧
  ∀ l ∈ links, ∃ c ∈ contList, ∃ a ∈ (insp c.ID).NetworkSettings.Networks,
    l = ⟨c.ID, a.2.EndpointID, a.1⟩ ∧
    ∃ k ∈ containers, k.ContainerID = c.ID ∧
      ∃ i ∈ k.Interfaces, i.EndpointID = l.EndpointID ∧ i.Address = a.2.IPAddress

/-- The scan of a label for its braces, on the number of braces `{` (byte
123) open so far: a brace `}` (byte 125) must close an open one, and none may
stay open at the end. -/
def braceScan : List Nat → Nat → Bool
  | [], depth => depth == 0
  | b :: rest, depth =>
    if b = 123 then braceScan rest (depth + 1)
    else if b = 125 then (if depth = 0 then false else braceScan rest (depth - 1))
    else braceScan rest depth

/-- Whether the braces of a label are balanced and properly nested. -/
def bracesBalanced (label : GoString) : Bool := braceScan label 0

/-- The edge `e` with the colour and the style of `x`. -/
def paintAs (x e : Edge) : Edge := ⟨e.name, e.tail, e.head, e.tailport, x.color, x.style⟩

/-- The edges of a graph after the edge of the name and the end nodes of `x`
was created, or found, and given the colour and the style of `x`: the first
edge of that name between these nodes takes the colour and the style when
there is one, and `x` is added at the end otherwise. -/
def upsertEdge (x : Edge) (edges : List Edge) : List Edge :=
  match Graph.edgeIndex x.name x.tail x.head edges with
  | some i => modifyAt (paintAs x) edges i
  | none => edges ++ [x]

/-- The edge `drawExposure` adds, read off lines 313-318. -/
def exposureEdge : Edge :=
  ⟨str "e", str "start", str "end", none, some (str "#808080"), some (str "dotted")⟩

/-- Whether the exposure loop draws an edge for a network (line 304). -/
def isExposed (network : Network) : Bool := !network.Internal && network.Name ≠ str "host"

/-- The nodes of a graph after `CreateNodeByName`. -/
def ensureNode (nodes : List Node) (name : GoString) : List Node :=
  if nodes.any (fun n => n.name == name) then nodes
  else nodes ++ [⟨name, none, none, none, none, none⟩]

/-! ## Example inputs -/

/-- A network record without IPAM configuration. -/
def netNoConfig : NetworkResource := ⟨str "nosubnet", ⟨[]⟩, false, []⟩

/-- A network record whose first configured subnet is the empty string. -/
def netEmptySubnet : NetworkResource := ⟨str "empty", ⟨[⟨[]⟩, ⟨str "10.1.0.0/16"⟩]⟩, false, []⟩

/-- A bridge network with a subnet, neither internal nor isolated. -/
def netBridge : NetworkResource :=
  ⟨str "bridge", ⟨[⟨str "172.18.0.0/16"⟩]⟩, false, [(enableIccKey, str "true")]⟩

/-- An internal network with a subnet and inter-container communication disabled. -/
def netIsolated : NetworkResource :=
  ⟨str "backend", ⟨[⟨str "172.19.0.0/16"⟩]⟩, true, [(enableIccKey, str "false")]⟩

/-- A record that is itself named `host` and has a subnet and both flags set. -/
def netNamedHost : NetworkResource :=
  ⟨str "host", ⟨[⟨str "10.0.0.0/8"⟩]⟩, true, [(enableIccKey, str "false")]⟩

/-- A listing of networks. -/
def exampleNetworks : List NetworkResource :=
  [netNoConfig, netEmptySubnet, netBridge, netNamedHost, netIsolated]

/-- A listed container with a 16-byte ID and the name `/web`. -/
def exampleContainer : ContainerSummary := ⟨str "0123456789abcdef", [str "/web", str "/alt"]⟩

/-- The inspection of `exampleContainer`: one published port and two
attachments, to `bridge` and to the network `nosubnet` that has no subnet. -/
def exampleInspect : ContainerJSON :=
  ⟨⟨[(str "8080/tcp", [⟨str "0.0.0.0", str "80"⟩])],
    [(str "bridge",
        ⟨[str "web", str "db", str "0123456789ab", str "db", str "/web"], str "ep1",
          str "172.18.0.2"⟩),
     (str "nosubnet", ⟨[str "0123456789ab", str "web"], str "ep2", []⟩)]⟩⟩

/-- A client that lists `exampleNetworks` and `exampleContainer`. -/
def exampleClient : Client :=
  ⟨.ok exampleNetworks, .ok [exampleContainer], fun _ => .ok exampleInspect⟩

/-- A listed container that has no name. -/
def namelessContainer : ContainerSummary := ⟨str "fedcba9876543210", []⟩

/-- A listed container whose inspection fails. -/
def brokenContainer : ContainerSummary := ⟨str "00112233445566778899", [str "/gone"]⟩

/-- The answers of the inspections: an error for `brokenContainer`, no port and
no attachment for `namelessContainer`, `exampleInspect` otherwise. -/
def failingInspect (id : GoString) : Except Error ContainerJSON :=
  if id = brokenContainer.ID then .error ⟨str "no such container"⟩
  else if id = namelessContainer.ID then .ok ⟨⟨[], []⟩⟩
  else .ok exampleInspect

/-- A client whose listing of networks fails and whose second listed container
cannot be inspected. -/
def failingClient : Client :=
  ⟨.error ⟨str "cannot connect"⟩, .ok [exampleContainer, brokenContainer, exampleContainer],
    failingInspect⟩

/-- A client that lists a container without name before the container that
cannot be inspected. -/
def namelessClient : Client :=
  ⟨.ok [], .ok [namelessContainer, brokenContainer], failingInspect⟩

/-- A client whose two listed containers are inspected successfully, the
second one having no name. -/
def inspectedClient : Client :=
  ⟨.ok [], .ok [exampleContainer, namelessContainer], failingInspect⟩

/-- The network record of the scenario: the subnet `172.18.0.0/16`, not internal. -/
def scenarioNetwork (name : GoString) (opts : GoMap GoString) : NetworkResource :=
  ⟨name, ⟨[⟨str "172.18.0.0/16"⟩]⟩, false, opts⟩

/-- The inspection of the container of the scenario: the port binding
`8080/tcp` and one attachment, to the network, with the raw alias `web`. -/
def scenarioInspect (netName ep addr : GoString) (bindings : List PortBinding) : ContainerJSON :=
  ⟨⟨[(str "8080/tcp", bindings)], [(netName, ⟨[str "web"], ep, addr⟩)]⟩⟩

/-- The client of the scenario: one network record and one container. -/
def scenarioClient (netName : GoString) (opts : GoMap GoString) (cont : ContainerSummary)
    (ep addr : GoString) (bindings : List PortBinding) : Client :=
  ⟨.ok [scenarioNetwork netName opts], .ok [cont],
    fun _ => .ok (scenarioInspect netName ep addr bindings)⟩

/-- A container with one interface, no alias and no port. -/
def plainContainer : Container :=
  ⟨str "0123456789abcdef", str "web", [⟨str "ep1", str "172.18.0.2", []⟩], []⟩

/-- A renderer that never fails. -/
def goodRenderer : Renderer := ⟨fun _ _ _ => none, fun _ _ => none⟩

/-- A renderer that fails to render to a file. -/
def badRenderer : Renderer := ⟨fun _ _ _ => some ⟨str "render failed"⟩, fun _ _ => none⟩

/-- The client of the scenario with the network `mynet` and the container `/app`. -/
def appClient : Client :=
  scenarioClient (str "mynet") [] ⟨str "0123456789abcdef", [str "/app"]⟩ (str "ep1")
    (str "172.18.0.2") []

/-- A library that answers the creation of an edge at a nil node with an error. -/
def nilEdgeFails : NilEdge := fun _ _ _ _ => .error ⟨str "nil node"⟩

/-- A node that has a name and no attribute set. -/
def bareNode (name : GoString) : Node := ⟨name, none, none, none, none, none⟩

/-- A graph with a node for `exampleContainer` and for four networks, and no edge. -/
def exampleGraph : Graph :=
  ⟨[bareNode (str "bridge"), bareNode (str "host"), bareNode (str "backend"),
    bareNode (str "other"), bareNode (str "0123456789abcdef")], []⟩

/-- A networks map: `bridge` is plain, `backend` internal and isolated, and
`other` is isolated and bears the name `host`. -/
def exampleNetworkMap : GoMap Network :=
  [(str "bridge", ⟨str "bridge", str "172.18.0.0/16", false, false, str "#1f78b4"⟩),
   (str "host", hostNetwork),
   (str "backend", ⟨str "backend", str "172.19.0.0/16", true, true, str "#e31a1c"⟩),
   (str "other", ⟨str "host", str "172.20.0.0/16", false, true, str "#33a02c"⟩)]

/-- Links of `exampleContainer` to four networks and to `none`. -/
def exampleLinks : List Link :=
  [⟨str "0123456789abcdef", str "ep1", str "bridge"⟩,
   ⟨str "0123456789abcdef", str "ep0", str "none"⟩,
   ⟨str "0123456789abcdef", str "ep2", str "host"⟩,
   ⟨str "0123456789abcdef", str "ep3", str "backend"⟩,
   ⟨str "0123456789abcdef", str "ep4", str "none"⟩,
   ⟨str "0123456789abcdef", str "ep5", str "other"⟩]

/-- Two links of one container to the network `bridge`, at two endpoints. -/
def twinLinks : List Link :=
  [⟨str "0123456789abcdef", str "ep1", str "bridge"⟩,
   ⟨str "0123456789abcdef", str "ep9", str "bridge"⟩]

/-- A networks map with two networks that are neither internal nor named
`host`, and the network `host`. -/
def exposedNetworkMap : GoMap Network :=
  [(str "bridge", ⟨str "bridge", str "172.18.0.0/16", false, false, str "#1f78b4"⟩),
   (str "frontend", ⟨str "frontend", str "172.21.0.0/16", false, false, str "#a6cee3"⟩),
   (str "host", hostNetwork)]

/-- A second bridge network with a subnet, neither internal nor isolated. -/
def netFrontend : NetworkResource :=
  ⟨str "frontend", ⟨[⟨str "172.21.0.0/16"⟩]⟩, false, [(enableIccKey, str "true")]⟩

/-- A client that lists the networks `bridge` and `frontend` and no container. -/
def twoNetworksClient : Client :=
  ⟨.ok [netBridge, netFrontend], .ok [], fun _ => .error ⟨str "no such container"⟩⟩

/-! ## Lemmas on maps -/

namespace GoMap

variable {V : Type}

theorem mem_set_self (m : GoMap V) (k : GoString) (v : V) : (k, v) ∈ m.set k v := by
  induction m with
  | nil => simp [set]
  | cons hd tl ih =>
    obtain ⟨k1, v1⟩ := hd
    by_cases hk : k1 = k
    · simp [set, hk]
    · simp [set, hk, ih]

theorem mem_set (m : GoMap V) (k : GoString) (v : V) (e : GoString × V)
    (h : e ∈ m.set k v) : e = (k, v) ∨ e ∈ m := by
  induction m with
  | nil => simpa [set] using h
  | cons hd tl ih =>
    obtain ⟨k1, v1⟩ := hd
    by_cases hk : k1 = k
    · simp only [set, hk, if_true, List.mem_cons] at h
      rcases h with h | h
      · exact Or.inl h
      · exact Or.inr (List.mem_cons_of_mem _ h)
    · simp only [set, hk, if_false, List.mem_cons] at h
      rcases h with h | h
      · exact Or.inr (by simp [h])
      · rcases ih h with h1 | h1
        · exact Or.inl h1
        · exact Or.inr (List.mem_cons_of_mem _ h1)

theorem mem_keys_set (m : GoMap V) (k : GoString) (v : V) (x : GoString)
    (h : x ∈ (m.set k v).keys) : x = k ∨ x ∈ m.keys := by
  simp only [keys, List.mem_map] at h ⊢
  obtain ⟨e, he, rfl⟩ := h
  rcases mem_set m k v e he with h1 | h1
  · exact Or.inl (by simp [h1])
  · exact Or.inr ⟨e, h1, rfl⟩

theorem nodup_keys_set (m : GoMap V) (k : GoString) (v : V) (h : m.keys.Nodup) :
    (m.set k v).keys.Nodup := by
  induction m with
  | nil => simp [set, keys]
  | cons hd tl ih =>
    obtain ⟨k1, v1⟩ := hd
    have h1 : k1 ∉ keys tl ∧ (keys tl).Nodup := by simpa [keys] using h
    by_cases hk : k1 = k
    · subst hk
      simpa [set, keys] using h
    · have h2 : (keys (set tl k v)).Nodup := ih h1.2
      have h3 : k1 ∉ keys (set tl k v) := by
        intro hmem
        rcases mem_keys_set tl k v k1 hmem with h4 | h4
        · exact hk h4
        · exact h1.1 h4
      have h5 : keys (set ((k1, v1) :: tl) k v) = k1 :: keys (set tl k v) := by
        simp [set, hk, keys]
      rw [h5]
      exact List.nodup_cons.mpr ⟨h3, h2⟩

theorem lookup_set_self (m : GoMap V) (k : GoString) (v : V) :
    (m.set k v).lookup k = some v := by
  induction m with
  | nil => simp [set, List.lookup]
  | cons hd tl ih =>
    obtain ⟨k1, v1⟩ := hd
    by_cases hk : k1 = k
    · simp [set, hk, List.lookup]
    · have hk2 : (k == k1) = false := by simpa using fun h => hk h.symm
      simp [set, hk, List.lookup, hk2, ih]

theorem lookup_set_ne (m : GoMap V) (k k2 : GoString) (v : V) (hne : k2 ≠ k) :
    (m.set k v).lookup k2 = m.lookup k2 := by
  induction m with
  | nil =>
    have hk2 : (k2 == k) = false := by simpa using hne
    simp [set, List.lookup, hk2]
  | cons hd tl ih =>
    obtain ⟨k1, v1⟩ := hd
    by_cases hk : k1 = k
    · subst hk
      have hk2 : (k2 == k1) = false := by simpa using hne
      simp [set, List.lookup, hk2]
    · by_cases hk3 : k2 = k1
      · subst hk3
        simp [set, hk, List.lookup]
      · have hk4 : (k2 == k1) = false := by simpa using hk3
        simp [set, hk, List.lookup, hk4, ih]

theorem mem_of_lookup (m : GoMap V) (k : GoString) (v : V) (h : m.lookup k = some v) :
    (k, v) ∈ m := by
  induction m with
  | nil => simp [List.lookup] at h
  | cons hd tl ih =>
    obtain ⟨k1, v1⟩ := hd
    by_cases hk : k = k1
    · subst hk
      simp [List.lookup] at h
      simp [h]
    · have hk4 : (k == k1) = false := by simpa using hk
      simp [List.lookup, hk4] at h
      exact List.mem_cons_of_mem _ (ih h)

theorem eq_of_mem_nodup (m : GoMap V) (h : m.keys.Nodup) (k : GoString) (v w : V)
    (hv : (k, v) ∈ m) (hw : (k, w) ∈ m) : v = w := by
  induction m with
  | nil => simp at hv
  | cons hd tl ih =>
    obtain ⟨k1, v1⟩ := hd
    have h1 : k1 ∉ keys tl ∧ (keys tl).Nodup := by simpa [keys] using h
    have hkey : ∀ u, (k, u) ∈ tl → k ∈ keys tl := fun u hu => by
      simp only [keys, List.mem_map]
      exact ⟨(k, u), hu, rfl⟩
    simp only [List.mem_cons, Prod.mk.injEq] at hv hw
    rcases hv with ⟨hk, hv⟩ | hv
    · rcases hw with ⟨_, hw⟩ | hw
      · rw [hv, hw]
      · exact absurd (hk ▸ hkey w hw) h1.1
    · rcases hw with ⟨hk, _⟩ | hw
      · exact absurd (hk ▸ hkey v hv) h1.1
      · exact ih h1.2 hv hw

theorem filter_key_of_nodup (m : GoMap V) (h : m.keys.Nodup) (k : GoString) (v : V)
    (hv : (k, v) ∈ m) : m.filter (fun e => e.1 == k) = [(k, v)] := by
  induction m with
  | nil => simp at hv
  | cons hd tl ih =>
    obtain ⟨k1, v1⟩ := hd
    have h1 : k1 ∉ keys tl ∧ (keys tl).Nodup := by simpa [keys] using h
    have hkey : ∀ u, (k, u) ∈ tl → k ∈ keys tl := fun u hu => by
      simp only [keys, List.mem_map]
      exact ⟨(k, u), hu, rfl⟩
    simp only [List.mem_cons, Prod.mk.injEq] at hv
    rcases hv with ⟨hk, hv⟩ | hv
    · subst hk
      subst hv
      have hnil : tl.filter (fun e => e.1 == k) = [] := by
        rw [List.filter_eq_nil_iff]
        intro e he hek
        have : e.1 = k := by simpa using hek
        exact h1.1 (this ▸ List.mem_map_of_mem Prod.fst he)
      simp [List.filter, hnil]
    · have hne : (k1 == k) = false := by
        simpa using fun hk : k1 = k => h1.1 (hk ▸ hkey v hv)
      simp [List.filter, hne, ih h1.2 hv]

end GoMap

/-! ## Lemmas on `getNetworks` -/

theorem gatewayOf_ne_nil (r : NetworkResource) (h : gatewayOf r ≠ []) :
    ∃ c cs, r.IPAM.Config = c :: cs ∧ c.Subnet ≠ [] ∧ c.Subnet = gatewayOf r := by
  unfold gatewayOf at h ⊢
  cases hc : r.IPAM.Config with
  | nil => simp [hc] at h
  | cons c cs =>
    rw [hc] at h
    exact ⟨c, cs, rfl, h, rfl⟩

theorem getNetworksLoop_nodup (rnd : Nat → Nat) (recs : List NetworkResource) :
    ∀ (m : GoMap Network) (s : Alloc), m.keys.Nodup →
      (getNetworksLoop rnd recs m s).1.keys.Nodup := by
  induction recs with
  | nil => intro m s h; simpa [getNetworksLoop] using h
  | cons r rest ih =>
    intro m s h
    by_cases hg : gatewayOf r = []
    · simpa [getNetworksLoop, hg] using ih m s h
    · simp only [getNetworksLoop, hg, if_false]
      exact ih _ _ (GoMap.nodup_keys_set _ _ _ h)

/-- Every entry the loop leaves in the map was there before or was built from
a record with a non-empty first subnet. -/
theorem getNetworksLoop_mem (rnd : Nat → Nat) (recs : List NetworkResource) :
    ∀ (m : GoMap Network) (s : Alloc) (e : GoString × Network),
      e ∈ (getNetworksLoop rnd recs m s).1 →
      e ∈ m ∨ ∃ r ∈ recs, gatewayOf r ≠ [] ∧
        ∃ c, e = (r.Name, ⟨r.Name, gatewayOf r, r.Internal, isolatedOf r, c⟩) := by
  induction recs with
  | nil => intro m s e h; exact Or.inl (by simpa [getNetworksLoop] using h)
  | cons r rest ih =>
    intro m s e h
    by_cases hg : gatewayOf r = []
    · simp only [getNetworksLoop, hg, if_true] at h
      rcases ih m s e h with h1 | ⟨r1, hr1, h1⟩
      · exact Or.inl h1
      · exact Or.inr ⟨r1, List.mem_cons_of_mem _ hr1, h1⟩
    · simp only [getNetworksLoop, hg, if_false] at h
      rcases ih _ _ e h with h1 | ⟨r1, hr1, h1⟩
      · rcases GoMap.mem_set _ _ _ _ h1 with h2 | h2
        · exact Or.inr ⟨r, List.mem_cons_self _ _, hg, _, h2⟩
        · exact Or.inl h2
      · exact Or.inr ⟨r1, List.mem_cons_of_mem _ hr1, h1⟩

/-- The map `getNetworks` returns when the listing succeeds. -/
theorem getNetworks_ok (rnd : Nat → Nat) (cli : Client) (s : Alloc)
    (recs : List NetworkResource) (h : cli.NetworkList = .ok recs) :
    getNetworks rnd cli s =
      (.ok ((getNetworksLoop rnd recs [] s).1.set (str "host") hostNetwork),
        (getNetworksLoop rnd recs [] s).2) := by
  simp [getNetworks, h]

/-! ## The claims on `getNetworks` -/

/-- C1: when the listing succeeds `getNetworks` returns a map in which every
entry has a non-empty `Gateway`, every entry other than `host` has the name of
an input record whose first configured subnet is non-empty and is the entry's
`Gateway`, and a name other than `host` borne only by records without a
non-empty first subnet is not a key. -/
theorem getNetworks_excludes_subnetless (rnd : Nat → Nat) (cli : Client) (s : Alloc)
    (recs : List NetworkResource) (h : cli.NetworkList = .ok recs) :
    ∃ m, (getNetworks rnd cli s).1 = .ok m ∧
      (∀ e ∈ m, e.2.Gateway ≠ [] ∧
        (e.1 ≠ str "host" → ∃ r ∈ recs, r.Name = e.1 ∧
          ∃ c cs, r.IPAM.Config = c :: cs ∧ c.Subnet ≠ [] ∧ c.Subnet = e.2.Gateway)) ∧
      (∀ name, name ≠ str "host" →
        (∀ r ∈ recs, r.Name = name →
          r.IPAM.Config = [] ∨ ∃ c cs, r.IPAM.Config = c :: cs ∧ c.Subnet = []) →
        name ∉ m.keys) := by
  have key : ∀ e ∈ (getNetworksLoop rnd recs [] s).1.set (str "host") hostNetwork,
      e = (str "host", hostNetwork) ∨ ∃ r ∈ recs, gatewayOf r ≠ [] ∧
        ∃ c, e = (r.Name, ⟨r.Name, gatewayOf r, r.Internal, isolatedOf r, c⟩) := by
    intro e he
    rcases GoMap.mem_set _ _ _ _ he with h1 | h1
    · exact Or.inl h1
    · rcases getNetworksLoop_mem rnd recs [] s e h1 with h2 | h2
      · simp at h2
      · exact Or.inr h2
  refine ⟨_, by rw [getNetworks_ok rnd cli s recs h], ?_, ?_⟩
  · intro e he
    rcases key e he with h1 | ⟨r, hr, hg, c, h1⟩
    · subst h1
      exact ⟨by decide, fun hne => absurd rfl hne⟩
    · subst h1
      refine ⟨hg, fun _ => ⟨r, hr, rfl, ?_⟩⟩
      exact gatewayOf_ne_nil r hg
  · intro name hname hall hmem
    simp only [GoMap.keys, List.mem_map] at hmem
    obtain ⟨e, he, rfl⟩ := hmem
    rcases key e he with h1 | ⟨r, hr, hg, c, h1⟩
    · subst h1
      exact hname rfl
    · subst h1
      obtain ⟨c1, cs1, hc, hne, _⟩ := gatewayOf_ne_nil r hg
      rcases hall r hr rfl with h2 | ⟨c2, cs2, h2, h3⟩
      · rw [hc] at h2
        cases h2
      · rw [hc] at h2
        cases h2
        exact hne h3

/-- The statement of C1 at `exampleClient`. -/
theorem getNetworks_excludes_subnetless_witness :
    exampleClient.NetworkList = .ok exampleNetworks ∧
    ∃ m, (getNetworks (fun _ => 0) exampleClient ⟨0, 0⟩).1 = .ok m ∧
      (∀ e ∈ m, e.2.Gateway ≠ [] ∧
        (e.1 ≠ str "host" → ∃ r ∈ exampleNetworks, r.Name = e.1 ∧
          ∃ c cs, r.IPAM.Config = c :: cs ∧ c.Subnet ≠ [] ∧ c.Subnet = e.2.Gateway)) ∧
      (∀ name, name ≠ str "host" →
        (∀ r ∈ exampleNetworks, r.Name = name →
          r.IPAM.Config = [] ∨ ∃ c cs, r.IPAM.Config = c :: cs ∧ c.Subnet = []) →
        name ∉ m.keys) :=
  ⟨rfl, getNetworks_excludes_subnetless (fun _ => 0) exampleClient ⟨0, 0⟩ exampleNetworks rfl⟩

/-- C2: when the listing succeeds, whatever the records are, the returned map
has exactly one entry under the key `host`, and it is the fixed network
`Network{"host", "0.0.0.0", false, false, "#808080"}`. -/
theorem getNetworks_host_entry (rnd : Nat → Nat) (cli : Client) (s : Alloc)
    (recs : List NetworkResource) (h : cli.NetworkList = .ok recs) :
    ∃ m, (getNetworks rnd cli s).1 = .ok m ∧
      m.filter (fun e => e.1 == str "host") =
        [(str "host", ⟨str "host", str "0.0.0.0", false, false, str "#808080"⟩)] ∧
      m.get? (str "host") = some ⟨str "host", str "0.0.0.0", false, false, str "#808080"⟩ := by
  have hnd : ((getNetworksLoop rnd recs [] s).1.set (str "host") hostNetwork).keys.Nodup :=
    GoMap.nodup_keys_set _ _ _ (getNetworksLoop_nodup rnd recs [] s (by simp [GoMap.keys]))
  refine ⟨_, by rw [getNetworks_ok rnd cli s recs h], ?_, ?_⟩
  · exact GoMap.filter_key_of_nodup _ hnd _ _ (GoMap.mem_set_self _ _ _)
  · exact GoMap.lookup_set_self _ _ _

/-- The statement of C2 at `exampleClient`, whose listing has a record named
`host` with a subnet and both flags set. -/
theorem getNetworks_host_entry_witness :
    exampleClient.NetworkList = .ok exampleNetworks ∧ netNamedHost ∈ exampleNetworks ∧
    ∃ m, (getNetworks (fun _ => 0) exampleClient ⟨0, 0⟩).1 = .ok m ∧
      m.filter (fun e => e.1 == str "host") =
        [(str "host", ⟨str "host", str "0.0.0.0", false, false, str "#808080"⟩)] ∧
      m.get? (str "host") = some ⟨str "host", str "0.0.0.0", false, false, str "#808080"⟩ :=
  ⟨rfl, by decide,
    getNetworks_host_entry (fun _ => 0) exampleClient ⟨0, 0⟩ exampleNetworks rfl⟩

/-! ## The claims on `getUniqueColor` -/

theorem COLORS_length : COLORS.length = 18 := rfl

theorem COLORS_nodup : COLORS.Nodup := by decide

theorem getUniqueColor_lt (rnd : Nat → Nat) (j d : Nat) (hj : j < COLORS.length) :
    getUniqueColor rnd ⟨j, d⟩ = (COLORS.get ⟨j, hj⟩, ⟨j + 1, d⟩) := by
  simp [getUniqueColor, hj]

theorem getUniqueColors_state (rnd : Nat → Nat) (d : Nat) :
    ∀ k j : Nat, j + k ≤ 18 → (getUniqueColors rnd k ⟨j, d⟩).2 = ⟨j + k, d⟩ := by
  intro k
  induction k with
  | zero => intro j _; rfl
  | succ k ih =>
    intro j hj
    have hlt : j < COLORS.length := by rw [COLORS_length]; omega
    simp only [getUniqueColors, getUniqueColor_lt rnd j d hlt]
    rw [ih (j + 1) (by omega)]
    congr 1
    omega

theorem getUniqueColors_colors (rnd : Nat → Nat) (d : Nat) :
    ∀ k j : Nat, j + k ≤ 18 → (getUniqueColors rnd k ⟨j, d⟩).1 = (COLORS.drop j).take k := by
  intro k
  induction k with
  | zero => intro j _; simp [getUniqueColors]
  | succ k ih =>
    intro j hj
    have hlt : j < COLORS.length := by rw [COLORS_length]; omega
    simp only [getUniqueColors, getUniqueColor_lt rnd j d hlt]
    rw [ih (j + 1) (by omega), List.drop_eq_getElem_cons hlt, List.take_succ_cons]
    rfl

/-- C3: the palette has 18 pairwise distinct entries; from the cursor 0, the
call that follows `k` earlier calls (`k` from 0 to 17) returns the `k`-th
palette entry and leaves the cursor at `k + 1`; the first 18 calls return the
palette in order. -/
theorem getUniqueColor_palette_in_order (rnd : Nat → Nat) (d : Nat) :
    COLORS.length = 18 ∧ COLORS.Nodup ∧
    (∀ k : Fin 18,
      COLORS.get? k.val = some (getUniqueColor rnd (getUniqueColors rnd k.val ⟨0, d⟩).2).1 ∧
      (getUniqueColor rnd (getUniqueColors rnd k.val ⟨0, d⟩).2).2 = ⟨k.val + 1, d⟩) ∧
    (getUniqueColors rnd 18 ⟨0, d⟩).1 = COLORS ∧
    (getUniqueColors rnd 18 ⟨0, d⟩).1.Nodup := by
  have hall : (getUniqueColors rnd 18 ⟨0, d⟩).1 = COLORS := by
    rw [getUniqueColors_colors rnd d 18 0 (by omega), List.drop_zero]
    exact List.take_of_length_le (by rw [COLORS_length])
  refine ⟨COLORS_length, COLORS_nodup, ?_, hall, hall ▸ COLORS_nodup⟩
  intro k
  have hk : k.val < COLORS.length := by rw [COLORS_length]; exact k.isLt
  rw [getUniqueColors_state rnd d k.val 0 (by have := k.isLt; omega)]
  simp only [Nat.zero_add, getUniqueColor_lt rnd k.val d hk]
  exact ⟨List.get?_eq_get hk, trivial⟩

theorem isHexDigit_hexDigit (d : Nat) (h : d < 16) : isHexDigit (hexDigit d) = true := by
  unfold isHexDigit hexDigit
  split <;> simp <;> omega

theorem hexDigitValue_hexDigit (d : Nat) (h : d < 16) : hexDigitValue (hexDigit d) = d := by
  unfold hexDigitValue hexDigit
  split <;> split <;> omega

theorem hexValue_append_single (xs : List Nat) (b : Nat) :
    hexValue (xs ++ [b]) = 16 * hexValue xs + hexDigitValue b := by
  simp [hexValue, List.foldl_append]

theorem hexValue_replicate_zero (m : Nat) (xs : List Nat) :
    hexValue (List.replicate m 48 ++ xs) = hexValue xs := by
  induction m with
  | zero => simp
  | succ m ih =>
    have h0 : hexDigitValue 48 = 0 := by decide
    have : hexValue (48 :: (List.replicate m 48 ++ xs)) = hexValue (List.replicate m 48 ++ xs) := by
      simp [hexValue, h0]
    rw [List.replicate_succ, List.cons_append, this, ih]

theorem isHexDigit_hexDigits (fuel : Nat) :
    ∀ n : Nat, ∀ b ∈ hexDigits fuel n, isHexDigit b = true := by
  induction fuel with
  | zero => intro n b hb; simp [hexDigits] at hb
  | succ fuel ih =>
    intro n b hb
    by_cases hn : n < 16
    · simp only [hexDigits, hn, if_true, List.mem_singleton] at hb
      rw [hb]
      exact isHexDigit_hexDigit n hn
    · simp only [hexDigits, hn, if_false, List.mem_append, List.mem_singleton] at hb
      rcases hb with hb | hb
      · exact ih _ b hb
      · rw [hb]
        exact isHexDigit_hexDigit _ (Nat.mod_lt _ (by decide))

theorem hexValue_hexDigits (fuel : Nat) :
    ∀ n : Nat, n < fuel → hexValue (hexDigits fuel n) = n := by
  induction fuel with
  | zero => intro n hn; omega
  | succ fuel ih =>
    intro n hn
    by_cases h16 : n < 16
    · simp [hexDigits, h16, hexValue, hexDigitValue_hexDigit n h16]
    · simp only [hexDigits, h16, if_false]
      rw [hexValue_append_single, ih (n / 16) (by omega),
        hexDigitValue_hexDigit _ (Nat.mod_lt _ (by decide))]
      omega

theorem hexDigits_length_le (fuel : Nat) :
    ∀ n k : Nat, n < 16 ^ (k + 1) → (hexDigits fuel n).length ≤ k + 1 := by
  induction fuel with
  | zero => intro n k _; simp [hexDigits]
  | succ fuel ih =>
    intro n k hn
    by_cases h16 : n < 16
    · simp [hexDigits, h16]
    · simp only [hexDigits, h16, if_false, List.length_append, List.length_singleton]
      cases k with
      | zero => exact absurd (by simpa using hn) h16
      | succ k =>
        have hdiv : n / 16 < 16 ^ (k + 1) := by
          apply Nat.div_lt_of_lt_mul
          rw [pow_succ] at hn
          omega
        have := ih (n / 16) k hdiv
        omega

theorem hexDigits_length_pos (fuel n : Nat) : 0 < (hexDigits (fuel + 1) n).length := by
  by_cases h16 : n < 16
  · simp [hexDigits, h16]
  · simp [hexDigits, h16]

/-- C4: with the cursor at 18 and a drawn value `r < 0xFFFFFF`,
`getUniqueColor` returns `#` followed by exactly six hexadecimal digits whose
value is `r`, and the cursor stays at 18. -/
theorem getUniqueColor_exhausted (rnd : Nat → Nat) (s : Alloc) (hs : s.i = 18)
    (hr : rnd s.draws < 0xFFFFFF) :
    ∃ ds : List Nat, (getUniqueColor rnd s).1 = str "#" ++ ds ∧ ds.length = 6 ∧
      (∀ b ∈ ds, isHexDigit b = true) ∧ hexValue ds = rnd s.draws ∧
      (getUniqueColor rnd s).2.i = s.i := by
  have hnot : ¬ s.i < COLORS.length := by rw [hs, COLORS_length]; omega
  have hlen : (hexDigits (rnd s.draws + 1) (rnd s.draws)).length ≤ 6 :=
    hexDigits_length_le _ _ 5 (by norm_num at hr ⊢; omega)
  refine ⟨sprintfHex 6 (rnd s.draws), by simp [getUniqueColor, hnot], ?_, ?_, ?_,
    by simp [getUniqueColor, hnot]⟩
  · simp only [sprintfHex, List.length_append, List.length_replicate]
    omega
  · intro b hb
    simp only [sprintfHex, List.mem_append, List.mem_replicate] at hb
    rcases hb with ⟨_, hb⟩ | hb
    · rw [hb]; decide
    · exact isHexDigit_hexDigits _ _ b hb
  · simp only [sprintfHex]
    rw [hexValue_replicate_zero, hexValue_hexDigits _ _ (Nat.lt_succ_self _)]

/-- The statement of C4 at the drawn value `0xabcdef`. -/
theorem getUniqueColor_exhausted_witness :
    (getUniqueColor (fun _ => 0xabcdef) ⟨18, 0⟩).1 = str "#abcdef" ∧
    ∃ ds : List Nat, (getUniqueColor (fun _ => 0xabcdef) ⟨18, 0⟩).1 = str "#" ++ ds ∧
      ds.length = 6 ∧ (∀ b ∈ ds, isHexDigit b = true) ∧ hexValue ds = 0xabcdef ∧
      (getUniqueColor (fun _ => 0xabcdef) ⟨18, 0⟩).2.i = 18 :=
  ⟨by decide, getUniqueColor_exhausted (fun _ => 0xabcdef) ⟨18, 0⟩ rfl (by decide)⟩

/-! ## Distinct colours -/

theorem getElem_not_mem_take {α : Type} (l : List α) (h : l.Nodup) (j : Nat) (hj : j < l.length) :
    l.get ⟨j, hj⟩ ∉ l.take j := by
  intro hmem
  have hsplit : l = l.take j ++ (l.get ⟨j, hj⟩ :: l.drop (j + 1)) := by
    have h1 : l.drop j = l.get ⟨j, hj⟩ :: l.drop (j + 1) := List.drop_eq_getElem_cons hj
    rw [← h1, List.take_append_drop]
  rw [hsplit] at h
  have hdis := (List.nodup_append.mp h).2.2
  exact hdis hmem (List.mem_cons_self _ _)

theorem mem_take_succ {α : Type} (l : List α) (j : Nat) (x : α) (h : x ∈ l.take j) :
    x ∈ l.take (j + 1) :=
  List.take_subset_take_left l (Nat.le_succ j) h

/-- While the palette lasts the loop keeps the colours of entries with
different keys different, and every colour in the map is a palette colour. -/
theorem getNetworksLoop_colors (rnd : Nat → Nat) (recs : List NetworkResource) :
    ∀ (m : GoMap Network) (s : Alloc),
      s.i + (recs.filter (fun r => decide (gatewayOf r ≠ []))).length ≤ 18 →
      (∀ e ∈ m, e.2.Color ∈ COLORS.take s.i) →
      (∀ e1 ∈ m, ∀ e2 ∈ m, e1.1 ≠ e2.1 → e1.2.Color ≠ e2.2.Color) →
      (∀ e ∈ (getNetworksLoop rnd recs m s).1, e.2.Color ∈ COLORS) ∧
      (∀ e1 ∈ (getNetworksLoop rnd recs m s).1, ∀ e2 ∈ (getNetworksLoop rnd recs m s).1,
        e1.1 ≠ e2.1 → e1.2.Color ≠ e2.2.Color) := by
  induction recs with
  | nil =>
    intro m s _ hpal hdist
    exact ⟨fun e he => List.mem_of_mem_take (hpal e (by simpa [getNetworksLoop] using he)),
      fun e1 h1 e2 h2 => hdist e1 (by simpa [getNetworksLoop] using h1) e2
        (by simpa [getNetworksLoop] using h2)⟩
  | cons r rest ih =>
    intro m s hcount hpal hdist
    by_cases hg : gatewayOf r = []
    · simp only [getNetworksLoop, hg, if_true]
      have hf : (r :: rest).filter (fun r => decide (gatewayOf r ≠ [])) =
          rest.filter (fun r => decide (gatewayOf r ≠ [])) :=
        List.filter_cons_of_neg (by simpa using hg)
      rw [hf] at hcount
      exact ih m s hcount hpal hdist
    · simp only [getNetworksLoop, hg, if_false]
      have hcount2 : s.i + 1 + (rest.filter (fun r => decide (gatewayOf r ≠ []))).length ≤ 18 := by
        have hf : (r :: rest).filter (fun r => decide (gatewayOf r ≠ [])) =
            r :: rest.filter (fun r => decide (gatewayOf r ≠ [])) :=
          List.filter_cons_of_pos (by simpa using hg)
        rw [hf, List.length_cons] at hcount
        omega
      have hlt : s.i < COLORS.length := by rw [COLORS_length]; omega
      have hcol : getUniqueColor rnd s = (COLORS.get ⟨s.i, hlt⟩, ⟨s.i + 1, s.draws⟩) :=
        getUniqueColor_lt rnd s.i s.draws hlt
      rw [hcol]
      refine ih _ _ hcount2 ?_ ?_
      · intro e he
        rcases GoMap.mem_set _ _ _ _ he with h1 | h1
        · rw [h1]
          have : COLORS.take (s.i + 1) = COLORS.take s.i ++ [COLORS.get ⟨s.i, hlt⟩] := by
            rw [List.take_succ, List.getElem?_eq_getElem hlt]
            rfl
          show COLORS.get ⟨s.i, hlt⟩ ∈ COLORS.take (s.i + 1)
          rw [this]
          exact List.mem_append_right _ (List.mem_singleton_self _)
        · exact mem_take_succ _ _ _ (hpal e h1)
      · intro e1 he1 e2 he2 hne
        have hnew : ∀ e ∈ m, COLORS.get ⟨s.i, hlt⟩ ≠ e.2.Color := by
          intro e he heq
          exact getElem_not_mem_take COLORS COLORS_nodup s.i hlt (heq ▸ hpal e he)
        rcases GoMap.mem_set _ _ _ _ he1 with h1 | h1 <;>
          rcases GoMap.mem_set _ _ _ _ he2 with h2 | h2
        · exact absurd (by rw [h1, h2]) hne
        · rw [h1]
          exact hnew e2 h2
        · rw [h2]
          exact fun heq => hnew e1 h1 heq.symm
        · exact hdist e1 h1 e2 h2 hne

/-- C5: from the cursor 0, when the listing succeeds and at most 18 records
have a non-empty first subnet, any two entries of the returned map with
different names, the entry `host` included, have different colours. -/
theorem getNetworks_distinct_colors (rnd : Nat → Nat) (cli : Client) (d : Nat)
    (recs : List NetworkResource) (h : cli.NetworkList = .ok recs)
    (hcap : (recs.filter (fun r => decide (gatewayOf r ≠ []))).length ≤ 18) :
    ∃ m, (getNetworks rnd cli ⟨0, d⟩).1 = .ok m ∧
      ∀ e1 ∈ m, ∀ e2 ∈ m, e1.1 ≠ e2.1 → e1.2.Color ≠ e2.2.Color := by
  obtain ⟨hpal, hdist⟩ := getNetworksLoop_colors rnd recs [] ⟨0, d⟩ (by simpa using hcap)
    (by simp) (by simp)
  have hhost : ∀ e ∈ (getNetworksLoop rnd recs [] ⟨0, d⟩).1, hostNetwork.Color ≠ e.2.Color := by
    intro e he heq
    have hmem : hostNetwork.Color ∈ COLORS := heq ▸ hpal e he
    revert hmem
    decide
  refine ⟨_, by rw [getNetworks_ok rnd cli _ recs h], ?_⟩
  intro e1 he1 e2 he2 hne
  rcases GoMap.mem_set _ _ _ _ he1 with h1 | h1 <;>
    rcases GoMap.mem_set _ _ _ _ he2 with h2 | h2
  · exact absurd (by rw [h1, h2]) hne
  · rw [h1]
    exact hhost e2 h2
  · rw [h2]
    exact fun heq => hhost e1 h1 heq.symm
  · exact hdist e1 h1 e2 h2 hne

/-- The statement of C5 at `exampleClient`, three of whose records have a subnet. -/
theorem getNetworks_distinct_colors_witness :
    exampleClient.NetworkList = .ok exampleNetworks ∧
    (exampleNetworks.filter (fun r => decide (gatewayOf r ≠ []))).length ≤ 18 ∧
    ∃ m, (getNetworks (fun _ => 0) exampleClient ⟨0, 0⟩).1 = .ok m ∧
      ∀ e1 ∈ m, ∀ e2 ∈ m, e1.1 ≠ e2.1 → e1.2.Color ≠ e2.2.Color :=
  ⟨rfl, by decide,
    getNetworks_distinct_colors (fun _ => 0) exampleClient 0 exampleNetworks rfl (by decide)⟩

/-! ## Isolation -/

theorem isolatedOf_iff (r : NetworkResource) :
    isolatedOf r = true ↔
      r.Options.get? (str "com.docker.network.bridge.enable_icc") = some (str "false") := by
  have hkey : enableIccKey = str "com.docker.network.bridge.enable_icc" := rfl
  unfold isolatedOf
  rw [hkey]
  cases r.Options.get? (str "com.docker.network.bridge.enable_icc") with
  | none => simp
  | some val => simp

theorem getNetworksLoop_append (rnd : Nat → Nat) (pre post : List NetworkResource) :
    ∀ (m : GoMap Network) (s : Alloc),
      getNetworksLoop rnd (pre ++ post) m s =
        getNetworksLoop rnd post (getNetworksLoop rnd pre m s).1 (getNetworksLoop rnd pre m s).2 := by
  induction pre with
  | nil => intro m s; rfl
  | cons r rest ih =>
    intro m s
    by_cases hg : gatewayOf r = []
    · simp only [List.cons_append, getNetworksLoop, hg, if_true]
      exact ih m s
    · simp only [List.cons_append, getNetworksLoop, hg, if_false]
      exact ih _ _

/-- Records that do not write the key `k` leave the value stored under `k` as it is. -/
theorem getNetworksLoop_lookup_skip (rnd : Nat → Nat) (k : GoString)
    (post : List NetworkResource) :
    ∀ (m : GoMap Network) (s : Alloc),
      (∀ r ∈ post, r.Name = k → gatewayOf r = []) →
      (getNetworksLoop rnd post m s).1.lookup k = m.lookup k := by
  induction post with
  | nil => intro m s _; rfl
  | cons r rest ih =>
    intro m s hskip
    have hrest : ∀ r2 ∈ rest, r2.Name = k → gatewayOf r2 = [] :=
      fun r2 hr2 => hskip r2 (List.mem_cons_of_mem _ hr2)
    by_cases hg : gatewayOf r = []
    · simp only [getNetworksLoop, hg, if_true]
      exact ih m s hrest
    · simp only [getNetworksLoop, hg, if_false]
      rw [ih _ _ hrest]
      have hne : k ≠ r.Name := fun hk => hg (hskip r (List.mem_cons_self _ _) hk.symm)
      exact GoMap.lookup_set_ne _ _ _ _ hne

/-- C7: when the listing succeeds, every entry of the returned map other than
`host` was built from a record of that name with a non-empty first subnet, has
that record's `Internal`, and has `Isolated = true` exactly when the record's
options hold `com.docker.network.bridge.enable_icc` with the value `false`;
and the last record of a name other than `host` that has a non-empty first
subnet is stored under its name with these two flags. -/
theorem getNetworks_isolated_iff (rnd : Nat → Nat) (cli : Client) (s : Alloc)
    (recs : List NetworkResource) (h : cli.NetworkList = .ok recs) :
    ∃ m, (getNetworks rnd cli s).1 = .ok m ∧
      (∀ e ∈ m, e.1 ≠ str "host" → ∃ r ∈ recs, r.Name = e.1 ∧ gatewayOf r ≠ [] ∧
        e.2.Internal = r.Internal ∧
        (e.2.Isolated = true ↔
          r.Options.get? (str "com.docker.network.bridge.enable_icc") = some (str "false"))) ∧
      (∀ pre r post, recs = pre ++ r :: post → gatewayOf r ≠ [] → r.Name ≠ str "host" →
        (∀ r2 ∈ post, r2.Name = r.Name → gatewayOf r2 = []) →
        ∃ n, m.get? r.Name = some n ∧ n.Name = r.Name ∧ n.Gateway = gatewayOf r ∧
          n.Internal = r.Internal ∧
          (n.Isolated = true ↔
            r.Options.get? (str "com.docker.network.bridge.enable_icc") = some (str "false"))) := by
  refine ⟨_, by rw [getNetworks_ok rnd cli s recs h], ?_, ?_⟩
  · intro e he hne
    rcases GoMap.mem_set _ _ _ _ he with h1 | h1
    · exact absurd (by rw [h1]) hne
    · rcases getNetworksLoop_mem rnd recs [] s e h1 with h2 | ⟨r, hr, hg, c, h2⟩
      · simp at h2
      · subst h2
        exact ⟨r, hr, rfl, hg, rfl, isolatedOf_iff r⟩
  · intro pre r post hrecs hg hname hlast
    subst hrecs
    refine ⟨⟨r.Name, gatewayOf r, r.Internal, isolatedOf r,
      (getUniqueColor rnd (getNetworksLoop rnd pre [] s).2).1⟩, ?_, rfl, rfl, rfl,
      isolatedOf_iff r⟩
    unfold GoMap.get?
    rw [GoMap.lookup_set_ne _ _ _ _ hname, getNetworksLoop_append]
    simp only [getNetworksLoop, hg, if_false]
    rw [getNetworksLoop_lookup_skip rnd r.Name post _ _ hlast]
    exact GoMap.lookup_set_self _ _ _

/-- The statement of C7 at `exampleClient`, with the flags it yields for the
option values `true`, `false`, `False`, the empty string and an absent option. -/
theorem getNetworks_isolated_iff_witness :
    exampleClient.NetworkList = .ok exampleNetworks ∧
    isolatedOf netBridge = false ∧ isolatedOf netIsolated = true ∧
    isolatedOf ⟨str "n", ⟨[⟨str "10.0.0.0/8"⟩]⟩, true, [(enableIccKey, str "False")]⟩ = false ∧
    isolatedOf ⟨str "n", ⟨[⟨str "10.0.0.0/8"⟩]⟩, true, [(enableIccKey, [])]⟩ = false ∧
    isolatedOf ⟨str "n", ⟨[⟨str "10.0.0.0/8"⟩]⟩, true, []⟩ = false ∧
    ∃ m, (getNetworks (fun _ => 0) exampleClient ⟨0, 0⟩).1 = .ok m ∧
      (∀ e ∈ m, e.1 ≠ str "host" → ∃ r ∈ exampleNetworks, r.Name = e.1 ∧ gatewayOf r ≠ [] ∧
        e.2.Internal = r.Internal ∧
        (e.2.Isolated = true ↔
          r.Options.get? (str "com.docker.network.bridge.enable_icc") = some (str "false"))) ∧
      (∀ pre r post, exampleNetworks = pre ++ r :: post → gatewayOf r ≠ [] →
        r.Name ≠ str "host" →
        (∀ r2 ∈ post, r2.Name = r.Name → gatewayOf r2 = []) →
        ∃ n, m.get? r.Name = some n ∧ n.Name = r.Name ∧ n.Gateway = gatewayOf r ∧
          n.Internal = r.Internal ∧
          (n.Isolated = true ↔
            r.Options.get? (str "com.docker.network.bridge.enable_icc") = some (str "false"))) :=
  ⟨rfl, by decide, by decide, by decide, by decide, by decide,
    getNetworks_isolated_iff (fun _ => 0) exampleClient ⟨0, 0⟩ exampleNetworks rfl⟩

/-! ## The claims on `getContainers` -/

theorem sliceTo_ID (cont : ContainerSummary) (h : 12 ≤ cont.ID.length) :
    sliceTo cont.ID 12 = some (cont.ID.take 12) := by
  simp [sliceTo, h]

theorem displayName_eq (cont : ContainerSummary) (nm : GoString) (rest : List GoString)
    (h : cont.Names = nm :: rest) (hnm : nm ≠ []) :
    displayName cont = some ((cont.Names.headD []).drop 1) := by
  have hlen : 1 ≤ nm.length := List.length_pos.mpr hnm
  simp [displayName, h, sliceFrom, hlen]

theorem filterAliases_eq (cont : ContainerSummary) (hid : sliceTo cont.ID 12 = some (cont.ID.take 12))
    (hname : displayName cont = some ((cont.Names.headD []).drop 1)) (raw : List GoString) :
    ∀ acc : List GoString, filterAliases cont raw acc = some (acc ++ keptAliases cont raw) := by
  induction raw with
  | nil => intro acc; simp [filterAliases, keptAliases]
  | cons al rest ih =>
    intro acc
    simp only [filterAliases, hid, hname]
    by_cases h1 : al = cont.ID.take 12
    · have hk : keptAliases cont (al :: rest) = keptAliases cont rest :=
        List.filter_cons_of_neg (fun hp => (of_decide_eq_true hp).1 h1)
      simp only [h1, ne_eq, not_true_eq_false, if_false]
      rw [ih acc, ← h1, hk]
    · by_cases h2 : al = (cont.Names.headD []).drop 1
      · have hk : keptAliases cont (al :: rest) = keptAliases cont rest :=
          List.filter_cons_of_neg (fun hp => (of_decide_eq_true hp).2 h2)
        simp only [ne_eq, h1, not_false_eq_true, if_true, h2, not_true_eq_false, if_false]
        rw [ih acc, ← h2, hk]
        exact ite_self _
      · have hk : keptAliases cont (al :: rest) = al :: keptAliases cont rest :=
          List.filter_cons_of_pos (decide_eq_true ⟨h1, h2⟩)
        simp only [ne_eq, h1, not_false_eq_true, if_true, h2]
        rw [ih (acc ++ [al]), hk, List.append_assoc]
        rfl

theorem attachmentsLoop_eq (cont : ContainerSummary)
    (hid : sliceTo cont.ID 12 = some (cont.ID.take 12))
    (hname : displayName cont = some ((cont.Names.headD []).drop 1))
    (atts : GoMap EndpointSettings) :
    ∀ (interfaces : List Interface) (links : List Link),
      attachmentsLoop cont atts interfaces links =
        some (interfaces ++ interfacesOf cont atts, links ++ linksOf cont atts) := by
  induction atts with
  | nil => intro interfaces links; simp [attachmentsLoop, interfacesOf, linksOf]
  | cons a rest ih =>
    intro interfaces links
    obtain ⟨netName, netInfo⟩ := a
    simp only [attachmentsLoop, filterAliases_eq cont hid hname netInfo.Aliases [], List.nil_append]
    rw [ih]
    simp [interfacesOf, linksOf]

/-- The result of `getContainers` when every inspection succeeds and no slice
expression panics: one `Container` per listed container and one `Link` per
attachment, in order. -/
theorem getContainersLoop_eq (cli : Client) (insp : GoString → ContainerJSON)
    (contList : List ContainerSummary) :
    ∀ (containers : List Container) (links : List Link),
      (∀ c ∈ contList, cli.ContainerInspect c.ID = .ok (insp c.ID)) →
      (∀ c ∈ contList, 12 ≤ c.ID.length) →
      (∀ c ∈ contList, ∃ nm rest, c.Names = nm :: rest ∧ nm ≠ []) →
      getContainersLoop cli contList containers links =
        some (.ok (containers ++ contList.map (fun c => containerOf c (insp c.ID)),
          links ++ contList.flatMap (fun c => linksOf c (insp c.ID).NetworkSettings.Networks))) := by
  induction contList with
  | nil => intro containers links _ _ _; simp [getContainersLoop]
  | cons c rest ih =>
    intro containers links hinsp hid hname
    obtain ⟨nm, tl, hnames, hnm⟩ := hname c (List.mem_cons_self _ _)
    have h1 := sliceTo_ID c (hid c (List.mem_cons_self _ _))
    have h2 := displayName_eq c nm tl hnames hnm
    simp only [getContainersLoop, hinsp c (List.mem_cons_self _ _),
      attachmentsLoop_eq c h1 h2, h2, List.nil_append]
    rw [ih _ _ (fun x hx => hinsp x (List.mem_cons_of_mem _ hx))
      (fun x hx => hid x (List.mem_cons_of_mem _ hx))
      (fun x hx => hname x (List.mem_cons_of_mem _ hx))]
    simp [containerOf]

theorem getContainers_eq (cli : Client) (insp : GoString → ContainerJSON)
    (contList : List ContainerSummary) (hlist : cli.ContainerList = .ok contList)
    (hinsp : ∀ c ∈ contList, cli.ContainerInspect c.ID = .ok (insp c.ID))
    (hid : ∀ c ∈ contList, 12 ≤ c.ID.length)
    (hname : ∀ c ∈ contList, ∃ nm rest, c.Names = nm :: rest ∧ nm ≠ []) :
    getContainers cli =
      some (.ok (contList.map (fun c => containerOf c (insp c.ID)),
        contList.flatMap (fun c => linksOf c (insp c.ID).NetworkSettings.Networks))) := by
  simp only [getContainers, hlist]
  rw [getContainersLoop_eq cli insp contList [] [] hinsp hid hname]
  simp

/-- C6: when every listed container has an ID of at least 12 bytes and a
non-empty first name and is inspected successfully, `getContainers` returns,
and the `Aliases` of the interfaces it builds are, container by container and
attachment by attachment, the raw aliases in their order without those equal
to the first 12 bytes of the ID or to the first name less its leading byte;
neither string occurs in any `Aliases`.  The same holds for the interfaces the
attachment loop builds for any single such container. -/
theorem getContainers_aliases_filtered (cli : Client) (insp : GoString → ContainerJSON)
    (contList : List ContainerSummary) (hlist : cli.ContainerList = .ok contList)
    (hinsp : ∀ c ∈ contList, cli.ContainerInspect c.ID = .ok (insp c.ID))
    (hid : ∀ c ∈ contList, 12 ≤ c.ID.length)
    (hname : ∀ c ∈ contList, ∃ nm rest, c.Names = nm :: rest ∧ nm ≠ []) :
    (∃ containers links, getContainers cli = some (.ok (containers, links)) ∧
      containers.map (fun k => k.Interfaces.map Interface.Aliases) =
        contList.map (fun c => (insp c.ID).NetworkSettings.Networks.map (fun a =>
          a.2.Aliases.filter
            (fun al => decide (al ≠ c.ID.take 12 ∧ al ≠ (c.Names.headD []).drop 1)))) ∧
      (∀ k ∈ containers, ∀ itf ∈ k.Interfaces,
        k.ContainerID.take 12 ∉ itf.Aliases ∧ k.Name ∉ itf.Aliases)) ∧
    (∀ (c : ContainerSummary) (nm : GoString) (rest : List GoString),
      12 ≤ c.ID.length → c.Names = nm :: rest → nm ≠ [] →
      ∀ (atts : GoMap EndpointSettings) (interfaces : List Interface) (links : List Link),
        ∃ links1, attachmentsLoop c atts interfaces links =
          some (interfaces ++ atts.map (fun a => ⟨a.2.EndpointID, a.2.IPAddress,
            a.2.Aliases.filter (fun al => decide (al ≠ c.ID.take 12 ∧ al ≠ nm.drop 1))⟩),
            links1)) := by
  refine ⟨⟨_, _, getContainers_eq cli insp contList hlist hinsp hid hname, ?_, ?_⟩, ?_⟩
  · simp [containerOf, interfacesOf, keptAliases, Function.comp_def]
  · intro k hk itf hitf
    obtain ⟨c, _, rfl⟩ := List.mem_map.mp hk
    obtain ⟨a, _, rfl⟩ := List.mem_map.mp hitf
    constructor
    · intro hmem
      exact (of_decide_eq_true (List.mem_filter.mp hmem).2).1 rfl
    · intro hmem
      exact (of_decide_eq_true (List.mem_filter.mp hmem).2).2 rfl
  · intro c nm rest h12 hnames hnm atts interfaces links
    refine ⟨links ++ linksOf c atts, ?_⟩
    rw [attachmentsLoop_eq c (sliceTo_ID c h12) (displayName_eq c nm rest hnames hnm)]
    simp [interfacesOf, keptAliases, hnames]

/-- The statement of C6 at `exampleClient`, with the aliases it leaves. -/
theorem getContainers_aliases_filtered_witness :
    getContainers exampleClient = some (.ok
      ([⟨str "0123456789abcdef", str "web",
          [⟨str "ep1", str "172.18.0.2", [str "db", str "db", str "/web"]⟩, ⟨str "ep2", [], []⟩],
          [⟨str "8080"⟩]⟩],
        [⟨str "0123456789abcdef", str "ep1", str "bridge"⟩,
          ⟨str "0123456789abcdef", str "ep2", str "nosubnet"⟩])) ∧
    (∃ containers links, getContainers exampleClient = some (.ok (containers, links)) ∧
      containers.map (fun k => k.Interfaces.map Interface.Aliases) =
        [exampleContainer].map (fun c => exampleInspect.NetworkSettings.Networks.map (fun a =>
          a.2.Aliases.filter
            (fun al => decide (al ≠ c.ID.take 12 ∧ al ≠ (c.Names.headD []).drop 1)))) ∧
      (∀ k ∈ containers, ∀ itf ∈ k.Interfaces,
        k.ContainerID.take 12 ∉ itf.Aliases ∧ k.Name ∉ itf.Aliases)) ∧
    (∀ (c : ContainerSummary) (nm : GoString) (rest : List GoString),
      12 ≤ c.ID.length → c.Names = nm :: rest → nm ≠ [] →
      ∀ (atts : GoMap EndpointSettings) (interfaces : List Interface) (links : List Link),
        ∃ links1, attachmentsLoop c atts interfaces links =
          some (interfaces ++ atts.map (fun a => ⟨a.2.EndpointID, a.2.IPAddress,
            a.2.Aliases.filter (fun al => decide (al ≠ c.ID.take 12 ∧ al ≠ nm.drop 1))⟩),
            links1)) :=
  ⟨rfl,
    getContainers_aliases_filtered exampleClient (fun _ => exampleInspect) [exampleContainer] rfl
      (fun _ _ => rfl) (by decide)
      (fun c hc => ⟨str "/web", [str "/alt"], by rw [List.mem_singleton.mp hc]; rfl, by decide⟩)⟩

/-! ## Lemmas on the graph -/

theorem modifyAt_append_length {α : Type} (f : α → α) (l : List α) (x : α) :
    modifyAt f (l ++ [x]) l.length = l ++ [f x] := by
  induction l with
  | nil => rfl
  | cons y ys ih => simp [modifyAt, ih]

theorem modifyAt_modifyAt {α : Type} (f g : α → α) (l : List α) :
    ∀ i : Nat, modifyAt g (modifyAt f l i) i = modifyAt (fun x => g (f x)) l i := by
  induction l with
  | nil => intro i; rfl
  | cons y ys ih =>
    intro i
    cases i with
    | zero => rfl
    | succ i => simp [modifyAt, ih]

theorem length_modifyAt {α : Type} (f : α → α) (l : List α) :
    ∀ i : Nat, (modifyAt f l i).length = l.length := by
  induction l with
  | nil => intro i; rfl
  | cons y ys ih =>
    intro i
    cases i with
    | zero => rfl
    | succ i => simp [modifyAt, ih]

/-- No edge of that name between these nodes: the search finds none. -/
theorem edgeIndex_eq_none (name n m : GoString) (l : List Edge)
    (h : ∀ e ∈ l, ¬ (e.name = name ∧ e.tail = n ∧ e.head = m)) :
    Graph.edgeIndex name n m l = none := by
  induction l with
  | nil => rfl
  | cons y ys ih =>
    have hy := h y (List.mem_cons_self _ _)
    simp only [Graph.edgeIndex, hy, if_false,
      ih (fun e he => h e (List.mem_cons_of_mem _ he)), Option.map_none']

/-- The edge the search finds has that name and these nodes, and `modifyAt`
at its position replaces it by its image. -/
theorem edgeIndex_some (name n m : GoString) (f : Edge → Edge) (l : List Edge) :
    ∀ i : Nat, Graph.edgeIndex name n m l = some i →
      ∃ e ∈ l, (e.name = name ∧ e.tail = n ∧ e.head = m) ∧ f e ∈ modifyAt f l i := by
  induction l with
  | nil => intro i h; simp [Graph.edgeIndex] at h
  | cons y ys ih =>
    intro i h
    by_cases hy : y.name = name ∧ y.tail = n ∧ y.head = m
    · simp only [Graph.edgeIndex, hy, and_self, if_true, Option.some.injEq] at h
      subst h
      exact ⟨y, List.mem_cons_self _ _, hy, List.mem_cons_self _ _⟩
    · simp only [Graph.edgeIndex, hy, if_false, Option.map_eq_some'] at h
      obtain ⟨j, hj, rfl⟩ := h
      obtain ⟨e, he, hkey, hmem⟩ := ih j hj
      exact ⟨e, List.mem_cons_of_mem _ he, hkey, List.mem_cons_of_mem _ hmem⟩

/-- A function that keeps the name and the end nodes of every edge does not
move the edge the search finds. -/
theorem edgeIndex_modifyAt (name n m : GoString) (f : Edge → Edge)
    (hf : ∀ e, (f e).name = e.name ∧ (f e).tail = e.tail ∧ (f e).head = e.head) (l : List Edge) :
    ∀ i : Nat, Graph.edgeIndex name n m (modifyAt f l i) = Graph.edgeIndex name n m l := by
  induction l with
  | nil => intro i; rfl
  | cons y ys ih =>
    intro i
    cases i with
    | zero => simp only [modifyAt, Graph.edgeIndex, hf y]
    | succ i => simp only [modifyAt, Graph.edgeIndex, ih i]

/-- After an edge of that name between these nodes was added at the end of a
list that had none, the search finds it there. -/
theorem edgeIndex_append_self (x : Edge) (l : List Edge)
    (h : ∀ e ∈ l, ¬ (e.name = x.name ∧ e.tail = x.tail ∧ e.head = x.head)) :
    Graph.edgeIndex x.name x.tail x.head (l ++ [x]) = some l.length := by
  induction l with
  | nil => simp [Graph.edgeIndex]
  | cons y ys ih =>
    have hy := h y (List.mem_cons_self _ _)
    have hys := ih (fun e he => h e (List.mem_cons_of_mem _ he))
    show Graph.edgeIndex x.name x.tail x.head (y :: (ys ++ [x])) = some (ys.length + 1)
    simp only [Graph.edgeIndex, hy, if_false, hys, Option.map_some']

theorem upsertEdge_of_fresh (x : Edge) (l : List Edge)
    (h : ∀ e ∈ l, ¬ (e.name = x.name ∧ e.tail = x.tail ∧ e.head = x.head)) :
    upsertEdge x l = l ++ [x] := by
  simp only [upsertEdge, edgeIndex_eq_none x.name x.tail x.head l h]

/-- The edge of the name and the end nodes of `x` that `upsertEdge` leaves
with the colour and the style of `x`. -/
theorem upsertEdge_mem (x : Edge) (l : List Edge) :
    ∃ e ∈ upsertEdge x l, e.name = x.name ∧ e.tail = x.tail ∧ e.head = x.head ∧
      e.color = x.color ∧ e.style = x.style ∧
      ((∀ y ∈ l, ¬ (y.name = x.name ∧ y.tail = x.tail ∧ y.head = x.head)) → e = x) := by
  cases hidx : Graph.edgeIndex x.name x.tail x.head l with
  | none =>
    refine ⟨x, ?_, rfl, rfl, rfl, rfl, rfl, fun _ => rfl⟩
    simp [upsertEdge, hidx]
  | some i =>
    obtain ⟨y, hy, hkey, hmem⟩ := edgeIndex_some x.name x.tail x.head (paintAs x) l i hidx
    refine ⟨paintAs x y, ?_, hkey.1, hkey.2.1, hkey.2.2, rfl, rfl, fun hfresh => ?_⟩
    · simpa [upsertEdge, hidx] using hmem
    · exact absurd hkey (hfresh y hy)

theorem length_upsertEdge_le (x : Edge) (l : List Edge) :
    (upsertEdge x l).length ≤ l.length + 1 := by
  unfold upsertEdge
  split
  · rw [length_modifyAt]
    exact Nat.le_succ _
  · simp

/-- To create, or find, and paint an edge a second time changes nothing. -/
theorem upsertEdge_idem (x : Edge) (hx : paintAs x x = x) (l : List Edge) :
    upsertEdge x (upsertEdge x l) = upsertEdge x l := by
  cases hidx : Graph.edgeIndex x.name x.tail x.head l with
  | none =>
    have hfresh : ∀ e ∈ l, ¬ (e.name = x.name ∧ e.tail = x.tail ∧ e.head = x.head) := by
      intro e he hkey
      induction l with
      | nil => simp at he
      | cons y ys ih =>
        by_cases hy : y.name = x.name ∧ y.tail = x.tail ∧ y.head = x.head
        · simp [Graph.edgeIndex, hy] at hidx
        · simp only [Graph.edgeIndex, hy, if_false, Option.map_eq_none'] at hidx
          rcases List.mem_cons.mp he with h | h
          · exact hy (h ▸ hkey)
          · exact ih hidx h
    have h1 : upsertEdge x l = l ++ [x] := by simp [upsertEdge, hidx]
    rw [h1]
    simp only [upsertEdge, edgeIndex_append_self x l hfresh, modifyAt_append_length, hx]
  | some i =>
    have h1 : upsertEdge x l = modifyAt (paintAs x) l i := by simp [upsertEdge, hidx]
    rw [h1]
    simp only [upsertEdge, edgeIndex_modifyAt x.name x.tail x.head (paintAs x)
      (fun _ => ⟨rfl, rfl, rfl⟩) l i, hidx, modifyAt_modifyAt]
    rfl

theorem CreateNodeByName_eq (g : Graph) (name : GoString) :
    g.CreateNodeByName name = .ok (⟨ensureNode g.nodes name, g.edges⟩, name) := by
  unfold Graph.CreateNodeByName ensureNode Graph.hasNode
  split <;> rfl

theorem ensureNode_of_any (nodes : List Node) (name : GoString)
    (h : nodes.any (fun n => n.name == name) = true) : ensureNode nodes name = nodes := by
  simp [ensureNode, h]

theorem any_ensureNode_self (nodes : List Node) (name : GoString) :
    (ensureNode nodes name).any (fun n => n.name == name) = true := by
  unfold ensureNode
  split
  · assumption
  · simp

theorem any_ensureNode_of_any (nodes : List Node) (name other : GoString)
    (h : nodes.any (fun n => n.name == other) = true) :
    (ensureNode nodes name).any (fun n => n.name == other) = true := by
  unfold ensureNode
  split
  · exact h
  · rw [List.any_append, h]
    rfl

theorem ensureNode_start_end_idem (nodes : List Node) :
    ensureNode (ensureNode (ensureNode (ensureNode nodes (str "start")) (str "end")) (str "start"))
        (str "end") =
      ensureNode (ensureNode nodes (str "start")) (str "end") := by
  rw [ensureNode_of_any (ensureNode (ensureNode nodes (str "start")) (str "end")) (str "start")
      (any_ensureNode_of_any _ _ _ (any_ensureNode_self _ _)),
    ensureNode_of_any _ (str "end") (any_ensureNode_self _ _)]

theorem NodeByName_of_hasNode (g : Graph) (name : GoString) (h : g.hasNode name = true) :
    g.NodeByName name = .ok (some name) := by
  simp [Graph.NodeByName, h]

/-! ## Links and the networks of the model -/

theorem mem_keys_set_self {V : Type} (m : GoMap V) (k : GoString) (v : V) :
    k ∈ (m.set k v).keys :=
  List.mem_map.mpr ⟨(k, v), GoMap.mem_set_self m k v, rfl⟩

theorem mem_keys_set_of_mem {V : Type} (m : GoMap V) (k : GoString) (v : V) (x : GoString)
    (h : x ∈ m.keys) : x ∈ (m.set k v).keys := by
  induction m with
  | nil => simp [GoMap.keys] at h
  | cons hd tl ih =>
    obtain ⟨k1, v1⟩ := hd
    have h1 : x = k1 ∨ x ∈ GoMap.keys tl := by simpa [GoMap.keys] using h
    by_cases hk : k1 = k
    · rcases h1 with h1 | h1
      · simp [GoMap.set, hk, GoMap.keys, h1]
      · have : x ∈ List.map Prod.fst tl := h1
        simp [GoMap.set, hk, GoMap.keys, this]
    · rcases h1 with h1 | h1
      · simp [GoMap.set, hk, GoMap.keys, h1]
      · have : x ∈ List.map Prod.fst (GoMap.set tl k v) := ih h1
        simp [GoMap.set, hk, GoMap.keys, this]

theorem getNetworksLoop_keys_mono (rnd : Nat → Nat) (recs : List NetworkResource) :
    ∀ (m : GoMap Network) (s : Alloc) (x : GoString),
      x ∈ m.keys → x ∈ (getNetworksLoop rnd recs m s).1.keys := by
  induction recs with
  | nil => intro m s x h; simpa [getNetworksLoop] using h
  | cons r rest ih =>
    intro m s x h
    by_cases hg : gatewayOf r = []
    · simp only [getNetworksLoop, hg, if_true]
      exact ih m s x h
    · simp only [getNetworksLoop, hg, if_false]
      exact ih _ _ x (mem_keys_set_of_mem _ _ _ _ h)

theorem getNetworksLoop_keys_of_record (rnd : Nat → Nat) (recs : List NetworkResource) :
    ∀ (m : GoMap Network) (s : Alloc), ∀ r ∈ recs, gatewayOf r ≠ [] →
      r.Name ∈ (getNetworksLoop rnd recs m s).1.keys := by
  induction recs with
  | nil => intro m s r hr; simp at hr
  | cons r0 rest ih =>
    intro m s r hr hg
    rcases List.mem_cons.mp hr with h1 | h1
    · subst h1
      simp only [getNetworksLoop, hg, if_false]
      exact getNetworksLoop_keys_mono rnd rest _ _ _ (mem_keys_set_self _ _ _)
    · by_cases hg0 : gatewayOf r0 = []
      · simp only [getNetworksLoop, hg0, if_true]
        exact ih m s r h1 hg
      · simp only [getNetworksLoop, hg0, if_false]
        exact ih _ _ r h1 hg

/-- The keys of the map `getNetworks` returns: `host` and the names of the
records with a non-empty first subnet. -/
theorem getNetworks_keys (rnd : Nat → Nat) (recs : List NetworkResource) (s : Alloc)
    (x : GoString) :
    x ∈ ((getNetworksLoop rnd recs [] s).1.set (str "host") hostNetwork).keys ↔
      x = str "host" ∨ ∃ r ∈ recs, r.Name = x ∧ gatewayOf r ≠ [] := by
  constructor
  · intro hx
    rcases GoMap.mem_keys_set _ _ _ _ hx with h1 | h1
    · exact Or.inl h1
    · obtain ⟨e, he, rfl⟩ := List.mem_map.mp h1
      rcases getNetworksLoop_mem rnd recs [] s e he with h2 | ⟨r, hr, hg, c, h2⟩
      · simp at h2
      · exact Or.inr ⟨r, hr, by rw [h2], hg⟩
  · rintro (h1 | ⟨r, hr, rfl, hg⟩)
    · rw [h1]
      exact mem_keys_set_self _ _ _
    · exact mem_keys_set_of_mem _ _ _ _ (getNetworksLoop_keys_of_record rnd recs [] s r hr hg)

/-- C10, as stated, fails at `exampleClient`: its container is attached to
the network `nosubnet`, which is listed without a subnet; `getContainers`
returns a link to `nosubnet`, and `nosubnet` is no key of the map
`getNetworks` returns. -/
theorem links_refer_to_model_counterexample :
    ∃ m containers links,
      (getNetworks (fun _ => 0) exampleClient ⟨0, 0⟩).1 = .ok m ∧
      getContainers exampleClient = some (.ok (containers, links)) ∧
      ¬ (∀ l ∈ links, l.NetworkName ≠ str "none" → l.NetworkName ∈ m.keys) := by
  refine ⟨[(str "bridge", ⟨str "bridge", str "172.18.0.0/16", false, false, str "#1f78b4"⟩),
      (str "host", hostNetwork),
      (str "backend", ⟨str "backend", str "172.19.0.0/16", true, true, str "#e31a1c"⟩)],
    [⟨str "0123456789abcdef", str "web",
      [⟨str "ep1", str "172.18.0.2", [str "db", str "db", str "/web"]⟩, ⟨str "ep2", [], []⟩],
      [⟨str "8080"⟩]⟩],
    [⟨str "0123456789abcdef", str "ep1", str "bridge"⟩,
      ⟨str "0123456789abcdef", str "ep2", str "nosubnet"⟩], rfl, rfl, ?_⟩
  decide

/-- Whenever the attachment loop returns, it has added one link per attachment. -/
theorem attachmentsLoop_links (cont : ContainerSummary) (atts : GoMap EndpointSettings) :
    ∀ (interfaces interfaces1 : List Interface) (links links1 : List Link),
      attachmentsLoop cont atts interfaces links = some (interfaces1, links1) →
      links1 = links ++ linksOf cont atts := by
  induction atts with
  | nil =>
    intro interfaces interfaces1 links links1 h
    simp only [attachmentsLoop, Option.some.injEq, Prod.mk.injEq] at h
    simp [linksOf, h.2]
  | cons a rest ih =>
    intro interfaces interfaces1 links links1 h
    obtain ⟨netName, netInfo⟩ := a
    simp only [attachmentsLoop] at h
    cases hf : filterAliases cont netInfo.Aliases [] with
    | none => simp [hf] at h
    | some aliases =>
      simp only [hf] at h
      rw [ih _ _ _ _ h]
      simp [linksOf]

/-- Whenever the container loop returns normally, it has added one link per
attachment of each listed container. -/
theorem getContainersLoop_links (cli : Client) (contList : List ContainerSummary) :
    ∀ (containers containers1 : List Container) (links links1 : List Link),
      getContainersLoop cli contList containers links = some (.ok (containers1, links1)) →
      links1 = links ++ attachmentLinks cli contList := by
  induction contList with
  | nil =>
    intro containers containers1 links links1 h
    simp only [getContainersLoop, Option.some.injEq, Except.ok.injEq, Prod.mk.injEq] at h
    simp [attachmentLinks, h.2]
  | cons c rest ih =>
    intro containers containers1 links links1 h
    simp only [getContainersLoop] at h
    cases hi : cli.ContainerInspect c.ID with
    | error err => simp [hi] at h
    | ok j =>
      simp only [hi] at h
      cases ha : attachmentsLoop c j.NetworkSettings.Networks [] links with
      | none => simp [ha] at h
      | some r =>
        obtain ⟨interfaces, links2⟩ := r
        simp only [ha] at h
        cases hd : displayName c with
        | none => simp [hd] at h
        | some name =>
          simp only [hd] at h
          rw [ih _ _ _ _ h, attachmentsLoop_links c _ _ _ _ _ ha]
          simp [attachmentLinks, hi]

/-- C10, amended: when both listings succeed and `getContainers` returns, the
returned links are one per attachment of each listed container, whatever the
network, and the `NetworkName` of a returned link is a key of the map
`getNetworks` returns exactly when it is `host` or the name of a network
record whose first configured subnet is non-empty. -/
theorem links_refer_to_model_iff (rnd : Nat → Nat) (cli : Client) (s : Alloc)
    (recs : List NetworkResource) (contList : List ContainerSummary)
    (containers : List Container) (links : List Link)
    (hnet : cli.NetworkList = .ok recs) (hlist : cli.ContainerList = .ok contList)
    (hcont : getContainers cli = some (.ok (containers, links))) :
    ∃ m, (getNetworks rnd cli s).1 = .ok m ∧
      links = attachmentLinks cli contList ∧
      ∀ l ∈ links, (l.NetworkName ∈ m.keys ↔
        l.NetworkName = str "host" ∨ ∃ r ∈ recs, r.Name = l.NetworkName ∧ gatewayOf r ≠ []) := by
  refine ⟨_, by rw [getNetworks_ok rnd cli s recs hnet], ?_,
    fun l _ => getNetworks_keys rnd recs s l.NetworkName⟩
  simp only [getContainers, hlist] at hcont
  simpa using getContainersLoop_links cli contList [] containers [] links hcont

/-- The amended C10 at `exampleClient`: the link to `bridge` is in the model,
the link to `nosubnet` is not. -/
theorem links_refer_to_model_iff_witness :
    exampleClient.NetworkList = .ok exampleNetworks ∧
    exampleClient.ContainerList = .ok [exampleContainer] ∧
    getContainers exampleClient = some (.ok
      ([containerOf exampleContainer exampleInspect],
        [⟨str "0123456789abcdef", str "ep1", str "bridge"⟩,
          ⟨str "0123456789abcdef", str "ep2", str "nosubnet"⟩])) ∧
    ∃ m, (getNetworks (fun _ => 0) exampleClient ⟨0, 0⟩).1 = .ok m ∧
      ([⟨str "0123456789abcdef", str "ep1", str "bridge"⟩,
          ⟨str "0123456789abcdef", str "ep2", str "nosubnet"⟩] : List Link) =
        attachmentLinks exampleClient [exampleContainer] ∧
      ∀ l ∈ ([⟨str "0123456789abcdef", str "ep1", str "bridge"⟩,
          ⟨str "0123456789abcdef", str "ep2", str "nosubnet"⟩] : List Link),
        (l.NetworkName ∈ m.keys ↔
          l.NetworkName = str "host" ∨
            ∃ r ∈ exampleNetworks, r.Name = l.NetworkName ∧ gatewayOf r ≠ []) :=
  ⟨rfl, rfl, rfl,
    links_refer_to_model_iff (fun _ => 0) exampleClient ⟨0, 0⟩ exampleNetworks [exampleContainer]
      [containerOf exampleContainer exampleInspect]
      [⟨str "0123456789abcdef", str "ep1", str "bridge"⟩,
        ⟨str "0123456789abcdef", str "ep2", str "nosubnet"⟩] rfl rfl rfl⟩

/-! ## Repeated aliases -/

/-- C13, as stated, fails at `exampleClient`: the raw aliases of the
attachment to `bridge` hold `db` twice, and the `Aliases` of the interface
`getContainers` builds for it are `db`, `db`, `/web`. -/
theorem aliases_deduplicated_counterexample :
    ∃ containers links, getContainers exampleClient = some (.ok (containers, links)) ∧
      ∃ k ∈ containers, ∃ itf ∈ k.Interfaces,
        itf.Aliases = [str "db", str "db", str "/web"] ∧ ¬ itf.Aliases.Nodup := by
  refine ⟨[containerOf exampleContainer exampleInspect],
    [⟨str "0123456789abcdef", str "ep1", str "bridge"⟩,
      ⟨str "0123456789abcdef", str "ep2", str "nosubnet"⟩], rfl,
    containerOf exampleContainer exampleInspect, List.mem_singleton.mpr rfl,
    ⟨str "ep1", str "172.18.0.2", [str "db", str "db", str "/web"]⟩, ?_, rfl, ?_⟩
  · decide
  · decide

theorem keptAliases_count (cont : ContainerSummary) (raw : List GoString) (x : GoString)
    (h1 : x ≠ cont.ID.take 12) (h2 : x ≠ (cont.Names.headD []).drop 1) :
    ((keptAliases cont raw).filter (fun y => decide (y = x))).length =
      (raw.filter (fun y => decide (y = x))).length := by
  unfold keptAliases
  rw [List.filter_filter]
  congr 1
  apply List.filter_congr
  intro y _
  by_cases hy : y = x
  · subst hy
    have hp : decide (y ≠ cont.ID.take 12 ∧ y ≠ (cont.Names.headD []).drop 1) = true :=
      decide_eq_true ⟨h1, h2⟩
    show (decide (y = y) && decide (y ≠ cont.ID.take 12 ∧ y ≠ (cont.Names.headD []).drop 1)) =
      decide (y = y)
    rw [hp, Bool.and_true]
  · have hq : decide (y = x) = false := decide_eq_false hy
    show (decide (y = x) && decide (y ≠ cont.ID.take 12 ∧ y ≠ (cont.Names.headD []).drop 1)) =
      decide (y = x)
    rw [hq, Bool.false_and]

/-- C13, amended: when every listed container has an ID of at least 12 bytes
and a non-empty first name and is inspected successfully, `getContainers`
returns, and every interface it builds belongs to an attachment of a listed
container whose raw aliases it filters without deduplicating: `Aliases` is a
sublist of the raw aliases, each alias other than the first 12 bytes of the
ID and the first name less its leading byte occurs in it as many times as in
the raw aliases, and it is free of repetitions when the raw aliases are. -/
theorem getContainers_aliases_multiplicity (cli : Client) (insp : GoString → ContainerJSON)
    (contList : List ContainerSummary) (hlist : cli.ContainerList = .ok contList)
    (hinsp : ∀ c ∈ contList, cli.ContainerInspect c.ID = .ok (insp c.ID))
    (hid : ∀ c ∈ contList, 12 ≤ c.ID.length)
    (hname : ∀ c ∈ contList, ∃ nm rest, c.Names = nm :: rest ∧ nm ≠ []) :
    ∃ containers links, getContainers cli = some (.ok (containers, links)) ∧
      ∀ k ∈ containers, ∀ itf ∈ k.Interfaces,
        ∃ c ∈ contList, ∃ a ∈ (insp c.ID).NetworkSettings.Networks,
          k.ContainerID = c.ID ∧ itf.EndpointID = a.2.EndpointID ∧
          itf.Aliases.Sublist a.2.Aliases ∧
          (a.2.Aliases.Nodup → itf.Aliases.Nodup) ∧
          (∀ x, x ≠ c.ID.take 12 → x ≠ (c.Names.headD []).drop 1 →
            (itf.Aliases.filter (fun y => decide (y = x))).length =
              (a.2.Aliases.filter (fun y => decide (y = x))).length) := by
  refine ⟨_, _, getContainers_eq cli insp contList hlist hinsp hid hname, ?_⟩
  intro k hk itf hitf
  obtain ⟨c, hc, rfl⟩ := List.mem_map.mp hk
  obtain ⟨a, ha, rfl⟩ := List.mem_map.mp hitf
  refine ⟨c, hc, a, ha, rfl, rfl, List.filter_sublist _, ?_, ?_⟩
  · intro hnd
    exact hnd.sublist (List.filter_sublist _)
  · intro x h1 h2
    exact keptAliases_count c a.2.Aliases x h1 h2

/-- The amended C13 at `exampleClient`. -/
theorem getContainers_aliases_multiplicity_witness :
    ∃ containers links, getContainers exampleClient = some (.ok (containers, links)) ∧
      ∀ k ∈ containers, ∀ itf ∈ k.Interfaces,
        ∃ c ∈ [exampleContainer], ∃ a ∈ exampleInspect.NetworkSettings.Networks,
          k.ContainerID = c.ID ∧ itf.EndpointID = a.2.EndpointID ∧
          itf.Aliases.Sublist a.2.Aliases ∧
          (a.2.Aliases.Nodup → itf.Aliases.Nodup) ∧
          (∀ x, x ≠ c.ID.take 12 → x ≠ (c.Names.headD []).drop 1 →
            (itf.Aliases.filter (fun y => decide (y = x))).length =
              (a.2.Aliases.filter (fun y => decide (y = x))).length) :=
  getContainers_aliases_multiplicity exampleClient (fun _ => exampleInspect) [exampleContainer] rfl
    (fun _ _ => rfl) (by decide)
    (fun c hc => ⟨str "/web", [str "/alt"], by rw [List.mem_singleton.mp hc]; rfl, by decide⟩)

/-! ## Failures of the queries -/

/-- C14, as stated, fails at `namelessClient`: the inspection of the second
listed container fails, the first one is inspected successfully but has no
name, and `getContainers` panics on `cont.Names[0]` instead of returning the
error. -/
theorem getContainers_first_error_counterexample :
    namelessClient.ContainerList = .ok [namelessContainer, brokenContainer] ∧
    namelessClient.ContainerInspect namelessContainer.ID = .ok ⟨⟨[], []⟩⟩ ∧
    namelessClient.ContainerInspect brokenContainer.ID = .error ⟨str "no such container"⟩ ∧
    getContainers namelessClient = none ∧
    getContainers namelessClient ≠ some (.error ⟨str "no such container"⟩) := by
  refine ⟨rfl, rfl, rfl, rfl, ?_⟩
  have h : getContainers namelessClient = none := rfl
  rw [h]
  exact fun hne => Option.noConfusion hne

/-- Up to the first container whose inspection fails the loop either panics or
returns that error. -/
theorem getContainersLoop_first_error (cli : Client) (c : ContainerSummary)
    (post : List ContainerSummary) (e : Error) (hfail : cli.ContainerInspect c.ID = .error e)
    (pre : List ContainerSummary) :
    ∀ (containers : List Container) (links : List Link),
      (∀ x ∈ pre, ∃ j, cli.ContainerInspect x.ID = .ok j) →
      getContainersLoop cli (pre ++ c :: post) containers links = none ∨
        getContainersLoop cli (pre ++ c :: post) containers links = some (.error e) := by
  induction pre with
  | nil => intro containers links _; exact Or.inr (by simp [getContainersLoop, hfail])
  | cons x rest ih =>
    intro containers links hpre
    obtain ⟨j, hj⟩ := hpre x (List.mem_cons_self _ _)
    simp only [List.cons_append, getContainersLoop, hj]
    cases attachmentsLoop x j.NetworkSettings.Networks [] links with
    | none => exact Or.inl rfl
    | some r =>
      obtain ⟨interfaces, links1⟩ := r
      cases displayName x with
      | none => exact Or.inl rfl
      | some name => exact ih _ _ (fun y hy => hpre y (List.mem_cons_of_mem _ hy))

/-- When the containers before the first failing one have an ID of at least 12
bytes and a non-empty first name, the loop returns the error. -/
theorem getContainersLoop_first_error_wf (cli : Client) (c : ContainerSummary)
    (post : List ContainerSummary) (e : Error) (hfail : cli.ContainerInspect c.ID = .error e)
    (pre : List ContainerSummary) :
    ∀ (containers : List Container) (links : List Link),
      (∀ x ∈ pre, ∃ j, cli.ContainerInspect x.ID = .ok j) →
      (∀ x ∈ pre, 12 ≤ x.ID.length ∧ ∃ nm rest, x.Names = nm :: rest ∧ nm ≠ []) →
      getContainersLoop cli (pre ++ c :: post) containers links = some (.error e) := by
  induction pre with
  | nil => intro containers links _ _; simp [getContainersLoop, hfail]
  | cons x rest ih =>
    intro containers links hpre hwf
    obtain ⟨j, hj⟩ := hpre x (List.mem_cons_self _ _)
    obtain ⟨h12, nm, tl, hnames, hnm⟩ := hwf x (List.mem_cons_self _ _)
    have h1 := sliceTo_ID x h12
    have h2 := displayName_eq x nm tl hnames hnm
    simp only [List.cons_append, getContainersLoop, hj, attachmentsLoop_eq x h1 h2, h2]
    exact ih _ _ (fun y hy => hpre y (List.mem_cons_of_mem _ hy))
      (fun y hy => hwf y (List.mem_cons_of_mem _ hy))

/-- C14, amended: when the inspection of a listed container fails with `e` and
the inspections of the containers listed before it succeed, `getContainers`
returns no container and no link: it returns `e`, or it panics on a container
listed before; it returns `e` when each container listed before has an ID of
at least 12 bytes and a non-empty first name.  When the listing of networks
fails, `getNetworks` returns that error, no map, and allocates no colour. -/
theorem getContainers_first_error (cli : Client) (pre : List ContainerSummary)
    (c : ContainerSummary) (post : List ContainerSummary) (e : Error)
    (hlist : cli.ContainerList = .ok (pre ++ c :: post))
    (hpre : ∀ x ∈ pre, ∃ j, cli.ContainerInspect x.ID = .ok j)
    (hfail : cli.ContainerInspect c.ID = .error e) :
    (getContainers cli = none ∨ getContainers cli = some (.error e)) ∧
    ((∀ x ∈ pre, 12 ≤ x.ID.length ∧ ∃ nm rest, x.Names = nm :: rest ∧ nm ≠ []) →
      getContainers cli = some (.error e)) ∧
    (∀ (rnd : Nat → Nat) (s : Alloc) (err : Error), cli.NetworkList = .error err →
      getNetworks rnd cli s = (.error err, s)) := by
  refine ⟨?_, ?_, ?_⟩
  · simp only [getContainers, hlist]
    exact getContainersLoop_first_error cli c post e hfail pre [] [] hpre
  · intro hwf
    simp only [getContainers, hlist]
    exact getContainersLoop_first_error_wf cli c post e hfail pre [] [] hpre hwf
  · intro rnd s err herr
    simp [getNetworks, herr]

/-- The amended C14 at `failingClient`: the second of three listed containers
cannot be inspected, and the listing of networks fails. -/
theorem getContainers_first_error_witness :
    getContainers failingClient = some (.error ⟨str "no such container"⟩) ∧
    getNetworks (fun _ => 0) failingClient ⟨0, 0⟩ = (.error ⟨str "cannot connect"⟩, ⟨0, 0⟩) ∧
    (getContainers failingClient = none ∨
      getContainers failingClient = some (.error ⟨str "no such container"⟩)) ∧
    ((∀ x ∈ [exampleContainer],
        12 ≤ x.ID.length ∧ ∃ nm rest, x.Names = nm :: rest ∧ nm ≠ []) →
      getContainers failingClient = some (.error ⟨str "no such container"⟩)) ∧
    (∀ (rnd : Nat → Nat) (s : Alloc) (err : Error), failingClient.NetworkList = .error err →
      getNetworks rnd failingClient s = (.error err, s)) :=
  ⟨rfl, rfl,
    getContainers_first_error failingClient [exampleContainer] brokenContainer [exampleContainer]
      ⟨str "no such container"⟩ rfl
      (fun x hx => ⟨exampleInspect, by rw [List.mem_singleton.mp hx]; rfl⟩) rfl⟩

/-! ## Labels of network nodes -/

theorem networkLabel_eq (net : Network) :
    networkLabel net =
      (str "\x7b" ++ net.Name) ++ ((if net.Internal = true then str " | Internal" else []) ++
        (if net.Isolated = true then str " | Containers isolated" else []) ++ str "\x7d") := by
  unfold networkLabel
  cases net.Internal <;> cases net.Isolated <;> simp [List.append_assoc]

theorem node?_modifyNode (g : Graph) (n : GoString) (f : Node → Node)
    (hf : ∀ x, (f x).name = x.name) :
    (g.modifyNode n f).node? n = (g.node? n).map f := by
  unfold Graph.modifyNode Graph.node?
  induction g.nodes with
  | nil => rfl
  | cons x xs ih =>
    by_cases hx : x.name = n
    · simp [List.find?, hx, hf]
    · have hx2 : (x.name == n) = false := by simpa using hx
      simp only [List.map_cons, hx, if_false, List.find?, hx2]
      exact ih

theorem node?_ensureNode (nodes : List Node) (edges : List Edge) (name : GoString) :
    ∃ x, (Graph.mk (ensureNode nodes name) edges).node? name = some x ∧ x.name = name := by
  have hany := any_ensureNode_self nodes name
  unfold Graph.node?
  cases hfind : (ensureNode nodes name).find? (fun n => n.name == name) with
  | none =>
    rw [List.find?_eq_none] at hfind
    obtain ⟨x, hx, hxn⟩ := List.any_eq_true.mp hany
    exact absurd hxn (hfind x hx)
  | some x =>
    exact ⟨x, rfl, by simpa using List.find?_some hfind⟩

/-- The node `drawNetwork` leaves under the name of the network. -/
theorem drawNetwork_node (graph : Graph) (net : Network) :
    ∃ g x, drawNetwork graph net = .ok g ∧ g.edges = graph.edges ∧
      g.node? net.Name = some ⟨net.Name, some BoxShape, some (networkLabel net),
        some (net.Color ++ str "60"), some (str "rounded"), x⟩ := by
  obtain ⟨x, hx, hname⟩ := node?_ensureNode graph.nodes graph.edges net.Name
  refine ⟨((((Graph.mk (ensureNode graph.nodes net.Name) graph.edges).SetNodeShape net.Name
    BoxShape).SetNodeLabel net.Name (networkLabel net)).SetNodeColor net.Name
    (net.Color ++ str "60")).SetNodeStyle net.Name (str "rounded"), x.fillcolor,
    by simp only [drawNetwork, CreateNodeByName_eq], rfl, ?_⟩
  simp only [Graph.SetNodeStyle, Graph.SetNodeColor, Graph.SetNodeLabel, Graph.SetNodeShape]
  rw [node?_modifyNode, node?_modifyNode, node?_modifyNode, node?_modifyNode, hx]
  · simp [hname]
  all_goals exact fun _ => rfl

/-- C15: `drawNetwork` succeeds on every graph and every network and leaves,
under the name of the network, a box node with the style `rounded`, the colour
`net.Color` followed by `60`, and the label `{` + name + ` | Internal` when
the network is internal + ` | Containers isolated` when it is isolated + `}`.
The marker ` | Internal` follows the name in the label exactly when the
network is internal, and ` | Containers isolated` closes the label exactly
when the network is isolated. -/
theorem drawNetwork_label (graph : Graph) (net : Network) :
    ∃ g n, drawNetwork graph net = .ok g ∧ g.node? net.Name = some n ∧
      n.label = some (str "\x7b" ++ net.Name ++
        (if net.Internal = true then str " | Internal" else []) ++
        (if net.Isolated = true then str " | Containers isolated" else []) ++ str "\x7d") ∧
      (net.Internal = true ↔
        n.label.any (fun l => (str "\x7b" ++ net.Name ++ str " | Internal").isPrefixOf l) = true) ∧
      (net.Isolated = true ↔
        n.label = some (str "\x7b" ++ net.Name ++
          (if net.Internal = true then str " | Internal" else []) ++
          str " | Containers isolated\x7d")) ∧
      n.color = some (net.Color ++ str "60") ∧
      n.shape = some (str "box") ∧ n.style = some (str "rounded") := by
  obtain ⟨g, x, hg, _, hnode⟩ := drawNetwork_node graph net
  refine ⟨g, _, hg, hnode, ?_, ?_, ?_, rfl, rfl, rfl⟩
  · simp only [networkLabel_eq, List.append_assoc]
  · simp only [Option.any, networkLabel_eq, List.isPrefixOf_iff_prefix, decide_eq_true_eq,
      List.prefix_append_right_inj]
    cases net.Internal <;> cases net.Isolated <;> decide
  · simp only [Option.some.injEq, networkLabel_eq, List.append_assoc, List.append_cancel_left_eq]
    cases net.Internal <;> cases net.Isolated <;> decide

/-- The labels `drawNetwork` sets on the empty graph for the four settings of the
two flags. -/
theorem drawNetwork_label_witness :
    (∀ internal isolated, ∃ g n,
      drawNetwork ⟨[], []⟩ ⟨str "net", str "10.0.0.0/8", internal, isolated, str "#1f78b4"⟩ = .ok g ∧
      g.node? (str "net") = some n ∧ n.color = some (str "#1f78b460") ∧
      n.label = some (match internal, isolated with
        | false, false => str "\x7bnet\x7d"
        | true, false => str "\x7bnet | Internal\x7d"
        | false, true => str "\x7bnet | Containers isolated\x7d"
        | true, true => str "\x7bnet | Internal | Containers isolated\x7d")) ∧
    ∃ g n, drawNetwork exampleGraph hostNetwork = .ok g ∧ g.node? hostNetwork.Name = some n ∧
      n.label = some (str "\x7b" ++ hostNetwork.Name ++
        (if hostNetwork.Internal = true then str " | Internal" else []) ++
        (if hostNetwork.Isolated = true then str " | Containers isolated" else []) ++ str "\x7d") ∧
      (hostNetwork.Internal = true ↔
        n.label.any (fun l => (str "\x7b" ++ hostNetwork.Name ++ str " | Internal").isPrefixOf l)
          = true) ∧
      (hostNetwork.Isolated = true ↔
        n.label = some (str "\x7b" ++ hostNetwork.Name ++
          (if hostNetwork.Internal = true then str " | Internal" else []) ++
          str " | Containers isolated\x7d")) ∧
      n.color = some (hostNetwork.Color ++ str "60") ∧
      n.shape = some (str "box") ∧ n.style = some (str "rounded") :=
  ⟨by
    intro internal isolated
    cases internal <;> cases isolated <;> exact ⟨_, _, rfl, rfl, rfl, rfl⟩,
    drawNetwork_label exampleGraph hostNetwork⟩

/-! ## One interface and one link per attachment -/

/-- C17, as stated, fails at `inspectedClient`: both listed containers are
inspected successfully, the first one has two attachments, and
`getContainers` panics on the name of the second one, so that no interface
and no link is returned. -/
theorem one_per_attachment_counterexample :
    inspectedClient.ContainerList = .ok [exampleContainer, namelessContainer] ∧
    inspectedClient.ContainerInspect exampleContainer.ID = .ok exampleInspect ∧
    inspectedClient.ContainerInspect namelessContainer.ID = .ok ⟨⟨[], []⟩⟩ ∧
    exampleInspect.NetworkSettings.Networks.length = 2 ∧
    getContainers inspectedClient = none :=
  ⟨rfl, rfl, rfl, rfl, rfl⟩

theorem attachmentsLoop_interfaces (cont : ContainerSummary) (atts : GoMap EndpointSettings) :
    ∀ (interfaces interfaces1 : List Interface) (links links1 : List Link),
      attachmentsLoop cont atts interfaces links = some (interfaces1, links1) →
      interfaces1.map (fun i => (i.EndpointID, i.Address)) =
        interfaces.map (fun i => (i.EndpointID, i.Address)) ++
          atts.map (fun a => (a.2.EndpointID, a.2.IPAddress)) := by
  induction atts with
  | nil =>
    intro interfaces interfaces1 links links1 h
    simp only [attachmentsLoop, Option.some.injEq, Prod.mk.injEq] at h
    simp [h.1]
  | cons a rest ih =>
    intro interfaces interfaces1 links links1 h
    obtain ⟨netName, netInfo⟩ := a
    simp only [attachmentsLoop] at h
    cases hf : filterAliases cont netInfo.Aliases [] with
    | none => simp [hf] at h
    | some aliases =>
      simp only [hf] at h
      rw [ih _ _ _ _ h]
      simp

theorem getContainersLoop_shape (cli : Client) (insp : GoString → ContainerJSON)
    (contList : List ContainerSummary) :
    ∀ (containers containers1 : List Container) (links links1 : List Link),
      (∀ c ∈ contList, cli.ContainerInspect c.ID = .ok (insp c.ID)) →
      getContainersLoop cli contList containers links = some (.ok (containers1, links1)) →
      containers1.map
          (fun k => (k.ContainerID, k.Interfaces.map (fun i => (i.EndpointID, i.Address)))) =
        containers.map
          (fun k => (k.ContainerID, k.Interfaces.map (fun i => (i.EndpointID, i.Address)))) ++
        contList.map (fun c => (c.ID,
          (insp c.ID).NetworkSettings.Networks.map (fun a => (a.2.EndpointID, a.2.IPAddress)))) := by
  induction contList with
  | nil =>
    intro containers containers1 links links1 _ h
    simp only [getContainersLoop, Option.some.injEq, Except.ok.injEq, Prod.mk.injEq] at h
    simp [h.1]
  | cons c rest ih =>
    intro containers containers1 links links1 hinsp h
    simp only [getContainersLoop, hinsp c (List.mem_cons_self _ _)] at h
    cases ha : attachmentsLoop c (insp c.ID).NetworkSettings.Networks [] links with
    | none => simp [ha] at h
    | some r =>
      obtain ⟨interfaces, links2⟩ := r
      simp only [ha] at h
      cases hd : displayName c with
      | none => simp [hd] at h
      | some name =>
        simp only [hd] at h
        rw [ih _ _ _ _ (fun x hx => hinsp x (List.mem_cons_of_mem _ hx)) h]
        have hi := attachmentsLoop_interfaces c _ _ _ _ _ ha
        simp only [List.map_nil, List.nil_append] at hi
        simp [hi]

theorem attachmentLinks_eq (cli : Client) (insp : GoString → ContainerJSON)
    (contList : List ContainerSummary)
    (hinsp : ∀ c ∈ contList, cli.ContainerInspect c.ID = .ok (insp c.ID)) :
    attachmentLinks cli contList = contList.flatMap (fun c =>
      (insp c.ID).NetworkSettings.Networks.map (fun a => Link.mk c.ID a.2.EndpointID a.1)) := by
  induction contList with
  | nil => rfl
  | cons c rest ih =>
    have h1 := ih (fun x hx => hinsp x (List.mem_cons_of_mem _ hx))
    unfold attachmentLinks at h1 ⊢
    simp only [List.flatMap_cons, hinsp c (List.mem_cons_self _ _), h1]
    rfl

theorem length_flatMap_map {α β γ : Type} (l : List α) (g : α → List β) (f : α → β → γ) :
    (l.flatMap (fun c => (g c).map (f c))).length = (l.map (fun c => (g c).length)).sum := by
  induction l with
  | nil => rfl
  | cons c rest ih => simp [List.flatMap_cons, ih]

/-- Whenever `getContainers` returns normally on a listing whose containers
are all inspected successfully, there is one interface and one link per
attachment. -/
theorem getContainers_shape (cli : Client) (insp : GoString → ContainerJSON)
    (contList : List ContainerSummary) (hlist : cli.ContainerList = .ok contList)
    (hinsp : ∀ c ∈ contList, cli.ContainerInspect c.ID = .ok (insp c.ID))
    (containers : List Container) (links : List Link)
    (hret : getContainers cli = some (.ok (containers, links))) :
    onePerAttachment insp contList containers links := by
  simp only [getContainers, hlist] at hret
  have hshape := getContainersLoop_shape cli insp contList [] containers [] links hinsp hret
  have hlinks := getContainersLoop_links cli contList [] containers [] links hret
  simp only [List.map_nil, List.nil_append] at hshape hlinks
  rw [attachmentLinks_eq cli insp contList hinsp] at hlinks
  refine ⟨?_, hshape, hlinks, ?_, ?_⟩
  · have := congrArg List.length hshape
    simpa using this
  · rw [hlinks]
    exact length_flatMap_map contList _ _
  · intro l hl
    rw [hlinks] at hl
    obtain ⟨c, hc, hl2⟩ := List.mem_flatMap.mp hl
    obtain ⟨a, ha, rfl⟩ := List.mem_map.mp hl2
    refine ⟨c, hc, a, ha, rfl, ?_⟩
    have hmem : (c.ID, (insp c.ID).NetworkSettings.Networks.map
        (fun a => (a.2.EndpointID, a.2.IPAddress))) ∈
        containers.map
          (fun k => (k.ContainerID, k.Interfaces.map (fun i => (i.EndpointID, i.Address)))) := by
      rw [hshape]
      exact List.mem_map.mpr ⟨c, hc, rfl⟩
    obtain ⟨k, hk, hkey⟩ := List.mem_map.mp hmem
    simp only [Prod.mk.injEq] at hkey
    refine ⟨k, hk, hkey.1, ?_⟩
    have hmem2 : (a.2.EndpointID, a.2.IPAddress) ∈
        k.Interfaces.map (fun i => (i.EndpointID, i.Address)) := by
      rw [hkey.2]
      exact List.mem_map.mpr ⟨a, ha, rfl⟩
    obtain ⟨i, hi, hikey⟩ := List.mem_map.mp hmem2
    simp only [Prod.mk.injEq] at hikey
    exact ⟨i, hi, hikey.1, hikey.2⟩

/-- C17, amended: on a listing whose containers are all inspected
successfully, whenever `getContainers` returns normally it has built exactly
one interface and one link per attachment (`onePerAttachment`); and it does
return normally when every listed container has an ID of at least 12 bytes and
a non-empty first name. -/
theorem getContainers_one_per_attachment (cli : Client) (insp : GoString → ContainerJSON)
    (contList : List ContainerSummary) (hlist : cli.ContainerList = .ok contList)
    (hinsp : ∀ c ∈ contList, cli.ContainerInspect c.ID = .ok (insp c.ID)) :
    (∀ containers links, getContainers cli = some (.ok (containers, links)) →
      onePerAttachment insp contList containers links) ∧
    ((∀ c ∈ contList, 12 ≤ c.ID.length ∧ ∃ nm rest, c.Names = nm :: rest ∧ nm ≠ []) →
      ∃ containers links, getContainers cli = some (.ok (containers, links)) ∧
        onePerAttachment insp contList containers links) := by
  refine ⟨fun containers links hret => getContainers_shape cli insp contList hlist hinsp _ _ hret,
    ?_⟩
  intro hwf
  have hret := getContainers_eq cli insp contList hlist hinsp (fun c hc => (hwf c hc).1)
    (fun c hc => (hwf c hc).2)
  exact ⟨_, _, hret, getContainers_shape cli insp contList hlist hinsp _ _ hret⟩

/-- The amended C17 at `exampleClient`: one container, two attachments, two
interfaces and two links. -/
theorem getContainers_one_per_attachment_witness :
    getContainers exampleClient = some (.ok
      ([containerOf exampleContainer exampleInspect],
        [⟨str "0123456789abcdef", str "ep1", str "bridge"⟩,
          ⟨str "0123456789abcdef", str "ep2", str "nosubnet"⟩])) ∧
    (containerOf exampleContainer exampleInspect).Interfaces.length = 2 ∧
    (∀ containers links, getContainers exampleClient = some (.ok (containers, links)) →
      onePerAttachment (fun _ => exampleInspect) [exampleContainer] containers links) ∧
    ((∀ c ∈ [exampleContainer], 12 ≤ c.ID.length ∧ ∃ nm rest, c.Names = nm :: rest ∧ nm ≠ []) →
      ∃ containers links, getContainers exampleClient = some (.ok (containers, links)) ∧
        onePerAttachment (fun _ => exampleInspect) [exampleContainer] containers links) :=
  ⟨rfl, rfl,
    getContainers_one_per_attachment exampleClient (fun _ => exampleInspect) [exampleContainer]
      rfl (fun _ _ => rfl)⟩

/-! ## The scenario of one network and one container -/

/-- C16, as stated, fails for a container whose own name is `web`: the raw
alias `web` is then removed, and the interface has no alias. -/
theorem scenario_counterexample :
    getContainers (scenarioClient (str "mynet") [] ⟨str "0123456789abcdef", [str "/web"]⟩
        (str "ep1") (str "172.18.0.2") [⟨str "0.0.0.0", str "80"⟩]) =
      some (.ok ([⟨str "0123456789abcdef", str "web",
          [⟨str "ep1", str "172.18.0.2", []⟩], [⟨str "8080"⟩]⟩],
        [⟨str "0123456789abcdef", str "ep1", str "mynet"⟩])) ∧
    ([] : List GoString) ≠ [str "web"] :=
  ⟨rfl, by decide⟩

theorem scenario_networks (rnd : Nat → Nat) (d : Nat) (netName : GoString)
    (opts : GoMap GoString) (cont : ContainerSummary) (ep addr : GoString)
    (bindings : List PortBinding) (hhost : netName ≠ str "host")
    (hopts : opts.get? (str "com.docker.network.bridge.enable_icc") = none) :
    (getNetworks rnd (scenarioClient netName opts cont ep addr bindings) ⟨0, d⟩).1 =
      .ok [(netName, ⟨netName, str "172.18.0.0/16", false, false, str "#1f78b4"⟩),
        (str "host", ⟨str "host", str "0.0.0.0", false, false, str "#808080"⟩)] := by
  have hg : gatewayOf (scenarioNetwork netName opts) = str "172.18.0.0/16" := rfl
  have hne : ¬ (str "172.18.0.0/16" = ([] : GoString)) := by decide
  have hopts2 : opts.get? enableIccKey = none := hopts
  have hiso : isolatedOf (scenarioNetwork netName opts) = false := by
    simp [isolatedOf, scenarioNetwork, hopts2]
  have hcol : getUniqueColor rnd ⟨0, d⟩ = (str "#1f78b4", ⟨1, d⟩) :=
    getUniqueColor_lt rnd 0 d (by decide)
  rw [getNetworks_ok rnd _ _ [scenarioNetwork netName opts] rfl]
  simp only [getNetworksLoop, hg, hne, if_false, hiso, hcol]
  simp [GoMap.set, hhost, scenarioNetwork, hostNetwork]

theorem scenario_containers (netName : GoString) (opts : GoMap GoString)
    (cont : ContainerSummary) (nm : GoString) (rest : List GoString) (ep addr : GoString)
    (bindings : List PortBinding) (hid : 12 ≤ cont.ID.length) (hnames : cont.Names = nm :: rest)
    (hnm : nm ≠ []) (hweb : nm.drop 1 ≠ str "web") :
    getContainers (scenarioClient netName opts cont ep addr bindings) =
      some (.ok ([⟨cont.ID, nm.drop 1, [⟨ep, addr, [str "web"]⟩], [⟨str "8080"⟩]⟩],
        [⟨cont.ID, ep, netName⟩])) := by
  have hshort : str "web" ≠ cont.ID.take 12 := by
    intro h
    have hlen := congrArg List.length h
    rw [List.length_take, Nat.min_eq_left hid] at hlen
    exact absurd hlen (by decide)
  have hname2 : str "web" ≠ (cont.Names.headD []).drop 1 := by
    rw [hnames]
    exact fun h => hweb h.symm
  have hkept : keptAliases cont [str "web"] = [str "web"] :=
    List.filter_cons_of_pos (decide_eq_true ⟨hshort, hname2⟩)
  have hport : natPortPort (str "8080/tcp") = str "8080" := by decide
  rw [getContainers_eq (scenarioClient netName opts cont ep addr bindings)
    (fun _ => scenarioInspect netName ep addr bindings) [cont] rfl (fun _ _ => rfl)
    (fun c hc => by rw [List.mem_singleton.mp hc]; exact hid)
    (fun c hc => by rw [List.mem_singleton.mp hc]; exact ⟨nm, rest, hnames, hnm⟩)]
  simp [containerOf, interfacesOf, linksOf, scenarioInspect, hkept, hport, hnames]

/-! ## Labels of container nodes -/

/-- C18 fails: the label `drawContainer` sets for `plainContainer`, whose
fields have no brace, has five opening and six closing braces, and so has the
label of the container built from `exampleContainer`, with seven and ten;
only a container without port and without interface gets a balanced label. -/
theorem containerLabel_braces_unbalanced :
    containerLabel plainContainer = str "\x7b\x7b web | \x7b\x7b \x7b<ep1> 172.18.0.2 \x7d\x7d \x7d\x7d \x7d\x7d" ∧
    (∃ g, drawContainer ⟨[], []⟩ plainContainer = .ok g ∧
      (g.node? plainContainer.ContainerID).map Node.label =
        some (some (str "\x7b\x7b web | \x7b\x7b \x7b<ep1> 172.18.0.2 \x7d\x7d \x7d\x7d \x7d\x7d"))) ∧
    (containerLabel plainContainer).count 123 = 5 ∧
    (containerLabel plainContainer).count 125 = 6 ∧
    bracesBalanced (containerLabel plainContainer) = false ∧
    containerLabel (containerOf exampleContainer exampleInspect) =
      str "\x7b\x7b web | \x7b\x7b \x7b8080\x7d\x7d \x7d\x7d | \x7b\x7b \x7b db | db | /web |<ep1> 172.18.0.2 \x7d\x7d | \x7b<ep2>  \x7d\x7d \x7d\x7d \x7d\x7d" ∧
    bracesBalanced (containerLabel (containerOf exampleContainer exampleInspect)) = false ∧
    containerLabel ⟨str "0123456789abcdef", str "web", [], []⟩ = str "\x7b\x7b web | \x7b\x7b  \x7d\x7d \x7d\x7d" ∧
    bracesBalanced (containerLabel ⟨str "0123456789abcdef", str "web", [], []⟩) = true := by
  refine ⟨by decide, ⟨_, rfl, by decide⟩, by decide, by decide, by decide, by decide, by decide,
    by decide, by decide⟩

/-! ## The claims on `drawLink` and the link loop -/

/-- With both nodes present `drawLink` creates, or finds, the edge without name
from the container to the network and gives it the colour and the style of
`linkEdge`. -/
theorem drawLink_eq (lib : NilEdge) (graph : Graph) (networks : GoMap Network) (link : Link)
    (hn : graph.hasNode link.ContainerID = true) (hm : graph.hasNode link.NetworkName = true) :
    drawLink lib graph networks link =
      .ok ⟨graph.nodes, upsertEdge (linkEdge networks link) graph.edges⟩ := by
  have hkey : Graph.edgeIndex (linkEdge networks link).name (linkEdge networks link).tail
      (linkEdge networks link).head graph.edges =
      Graph.edgeIndex [] link.ContainerID link.NetworkName graph.edges := rfl
  cases hidx : Graph.edgeIndex [] link.ContainerID link.NetworkName graph.edges with
  | none =>
    simp only [drawLink, NodeByName_of_hasNode graph _ hn, NodeByName_of_hasNode graph _ hm,
      Graph.CreateEdgeByName, hidx, Graph.SetEdgeColor, Graph.SetEdgeStyle,
      modifyAt_append_length, upsertEdge, hkey]
    rfl
  | some i =>
    simp only [drawLink, NodeByName_of_hasNode graph _ hn, NodeByName_of_hasNode graph _ hm,
      Graph.CreateEdgeByName, hidx, Graph.SetEdgeColor, Graph.SetEdgeStyle,
      modifyAt_modifyAt, upsertEdge, hkey]
    rfl

/-- C8: for a link whose container node and network node exist, `drawLink`
succeeds and leaves the nodes as they are; the edge without name from the
container to the network, which it finds when the graph has one and adds at
the end otherwise, has, with `net` the entry `networks[link.NetworkName]`, the
style `dashed` when `net` is isolated, otherwise `bold` when `net` bears the
name `host`, otherwise `solid`, and the colour `net.Color` as it stands; no
other edge is changed.  The entry is the network stored under the key when
there is one. -/
theorem drawLink_style_color (lib : NilEdge) (graph : Graph) (networks : GoMap Network)
    (link : Link) (hn : graph.hasNode link.ContainerID = true)
    (hm : graph.hasNode link.NetworkName = true) :
    (∃ g e, drawLink lib graph networks link = .ok g ∧ g.nodes = graph.nodes ∧ e ∈ g.edges ∧
      e.name = [] ∧ e.tail = link.ContainerID ∧ e.head = link.NetworkName ∧
      e.style = some (if (networks.get link.NetworkName).Isolated = true then str "dashed"
        else if (networks.get link.NetworkName).Name = str "host" then str "bold"
        else str "solid") ∧
      e.color = some (networks.get link.NetworkName).Color ∧
      g.edges = upsertEdge (linkEdge networks link) graph.edges ∧
      g.edges.length ≤ graph.edges.length + 1 ∧
      ((∀ y ∈ graph.edges,
          ¬ (y.name = [] ∧ y.tail = link.ContainerID ∧ y.head = link.NetworkName)) →
        g.edges = graph.edges ++ [e])) ∧
    (∀ net, networks.get? link.NetworkName = some net → networks.get link.NetworkName = net) := by
  obtain ⟨e, he, h1, h2, h3, h4, h5, h6⟩ := upsertEdge_mem (linkEdge networks link) graph.edges
  refine ⟨⟨_, e, drawLink_eq lib graph networks link hn hm, rfl, he, h1, h2, h3, ?_, ?_, rfl,
    length_upsertEdge_le _ _, ?_⟩, ?_⟩
  · rw [h5]
    rfl
  · rw [h4]
    rfl
  · intro hfresh
    rw [h6 hfresh]
    exact upsertEdge_of_fresh _ _ hfresh
  · intro net hnet
    unfold GoMap.get? at hnet
    simp [GoMap.get, hnet]

/-- The statement of C8 at a link of `exampleLinks`, and the edges drawn for
four of them: to the plain `bridge` (solid), to `host` (bold), to the isolated
`backend` (dashed) and to the isolated network that bears the name `host`
(dashed). -/
theorem drawLink_style_color_witness :
    ((∃ g e, drawLink nilEdgeFails exampleGraph exampleNetworkMap
          ⟨str "0123456789abcdef", str "ep3", str "backend"⟩ = .ok g ∧
      g.nodes = exampleGraph.nodes ∧ e ∈ g.edges ∧
      e.name = [] ∧ e.tail = str "0123456789abcdef" ∧ e.head = str "backend" ∧
      e.style = some (if (exampleNetworkMap.get (str "backend")).Isolated = true then str "dashed"
        else if (exampleNetworkMap.get (str "backend")).Name = str "host" then str "bold"
        else str "solid") ∧
      e.color = some (exampleNetworkMap.get (str "backend")).Color ∧
      g.edges = upsertEdge
        (linkEdge exampleNetworkMap ⟨str "0123456789abcdef", str "ep3", str "backend"⟩)
        exampleGraph.edges ∧
      g.edges.length ≤ exampleGraph.edges.length + 1 ∧
      ((∀ y ∈ exampleGraph.edges,
          ¬ (y.name = [] ∧ y.tail = str "0123456789abcdef" ∧ y.head = str "backend")) →
        g.edges = exampleGraph.edges ++ [e])) ∧
    (∀ net, exampleNetworkMap.get? (str "backend") = some net →
      exampleNetworkMap.get (str "backend") = net)) ∧
    drawLink nilEdgeFails exampleGraph exampleNetworkMap
        ⟨str "0123456789abcdef", str "ep1", str "bridge"⟩ =
      .ok ⟨exampleGraph.nodes, [⟨[], str "0123456789abcdef", str "bridge", none,
        some (str "#1f78b4"), some (str "solid")⟩]⟩ ∧
    drawLink nilEdgeFails exampleGraph exampleNetworkMap
        ⟨str "0123456789abcdef", str "ep2", str "host"⟩ =
      .ok ⟨exampleGraph.nodes, [⟨[], str "0123456789abcdef", str "host", none,
        some (str "#808080"), some (str "bold")⟩]⟩ ∧
    drawLink nilEdgeFails exampleGraph exampleNetworkMap
        ⟨str "0123456789abcdef", str "ep3", str "backend"⟩ =
      .ok ⟨exampleGraph.nodes, [⟨[], str "0123456789abcdef", str "backend", none,
        some (str "#e31a1c"), some (str "dashed")⟩]⟩ ∧
    drawLink nilEdgeFails exampleGraph exampleNetworkMap
        ⟨str "0123456789abcdef", str "ep5", str "other"⟩ =
      .ok ⟨exampleGraph.nodes, [⟨[], str "0123456789abcdef", str "other", none,
        some (str "#33a02c"), some (str "dashed")⟩]⟩ :=
  ⟨drawLink_style_color nilEdgeFails exampleGraph exampleNetworkMap
      ⟨str "0123456789abcdef", str "ep3", str "backend"⟩ (by decide) (by decide),
    rfl, rfl, rfl, rfl⟩

/-- The link loop on a graph that has the nodes of every link it draws: each
link other than those to `none`, in the order of the list, creates or finds
its edge. -/
theorem drawLinksLoop_eq (lib : NilEdge) (networks : GoMap Network) (links : List Link) :
    ∀ graph : Graph,
      (∀ l ∈ links, l.NetworkName ≠ str "none" →
        graph.hasNode l.ContainerID = true ∧ graph.hasNode l.NetworkName = true) →
      drawLinksLoop lib networks links graph =
        .ok ⟨graph.nodes,
          (links.filter (fun l => decide (l.NetworkName ≠ str "none"))).foldl
            (fun es l => upsertEdge (linkEdge networks l) es) graph.edges⟩ := by
  induction links with
  | nil => intro graph _; simp [drawLinksLoop]
  | cons l rest ih =>
    intro graph hnodes
    have hrest : ∀ g : Graph, g.nodes = graph.nodes → ∀ x ∈ rest, x.NetworkName ≠ str "none" →
        g.hasNode x.ContainerID = true ∧ g.hasNode x.NetworkName = true := by
      intro g hg x hx hne
      have := hnodes x (List.mem_cons_of_mem _ hx) hne
      simpa [Graph.hasNode, hg] using this
    by_cases hnone : l.NetworkName = str "none"
    · have hf : (l :: rest).filter (fun l => decide (l.NetworkName ≠ str "none")) =
          rest.filter (fun l => decide (l.NetworkName ≠ str "none")) :=
        List.filter_cons_of_neg (fun hp => (of_decide_eq_true hp) hnone)
      have step : drawLinksLoop lib networks (l :: rest) graph =
          drawLinksLoop lib networks rest graph := by
        simp [drawLinksLoop, hnone]
      rw [hf, step, ih graph (hrest graph rfl)]
    · have hf : (l :: rest).filter (fun l => decide (l.NetworkName ≠ str "none")) =
          l :: rest.filter (fun l => decide (l.NetworkName ≠ str "none")) :=
        List.filter_cons_of_pos (decide_eq_true hnone)
      obtain ⟨h1, h2⟩ := hnodes l (List.mem_cons_self _ _) hnone
      have step : drawLinksLoop lib networks (l :: rest) graph =
          drawLinksLoop lib networks rest
            ⟨graph.nodes, upsertEdge (linkEdge networks l) graph.edges⟩ := by
        simp [drawLinksLoop, hnone, drawLink_eq lib graph networks l h1 h2]
      rw [hf, step,
        ih ⟨graph.nodes, upsertEdge (linkEdge networks l) graph.edges⟩ (hrest _ rfl)]
      rfl

/-- Links of pairwise different end nodes on edges that join none of them yet:
every link adds its edge at the end. -/
theorem foldl_upsertEdge_fresh (networks : GoMap Network) (ls : List Link) :
    ∀ base : List Edge,
      (∀ e ∈ base, ∀ l ∈ ls,
        ¬ (e.name = [] ∧ e.tail = l.ContainerID ∧ e.head = l.NetworkName)) →
      ls.Pairwise (fun a b =>
        ¬ (a.ContainerID = b.ContainerID ∧ a.NetworkName = b.NetworkName)) →
      ls.foldl (fun es l => upsertEdge (linkEdge networks l) es) base =
        base ++ ls.map (linkEdge networks) := by
  induction ls with
  | nil => intro base _ _; simp
  | cons l rest ih =>
    intro base hfresh hpair
    have h1 : upsertEdge (linkEdge networks l) base = base ++ [linkEdge networks l] :=
      upsertEdge_of_fresh _ _ (fun e he => hfresh e he l (List.mem_cons_self _ _))
    simp only [List.foldl_cons, h1]
    rw [ih (base ++ [linkEdge networks l]) ?_ (List.pairwise_cons.mp hpair).2]
    · simp
    · intro e he x hx
      rcases List.mem_append.mp he with h | h
      · exact hfresh e h x (List.mem_cons_of_mem _ hx)
      · rw [List.mem_singleton.mp h]
        intro hkey
        exact (List.pairwise_cons.mp hpair).1 x hx ⟨hkey.2.1, hkey.2.2⟩

/-! ## Exposure edges -/

/-- The body of the exposure loop creates, or finds, the nodes `start` and
`end` and the edge `e` between them, and paints that edge. -/
theorem drawExposure_eq (lib : NilEdge) (graph : Graph) :
    drawExposure lib graph =
      .ok ⟨ensureNode (ensureNode graph.nodes (str "start")) (str "end"),
        upsertEdge exposureEdge graph.edges⟩ := by
  have hkey : Graph.edgeIndex exposureEdge.name exposureEdge.tail exposureEdge.head graph.edges =
      Graph.edgeIndex (str "e") (str "start") (str "end") graph.edges := rfl
  cases hidx : Graph.edgeIndex (str "e") (str "start") (str "end") graph.edges with
  | none =>
    simp only [drawExposure, CreateNodeByName_eq, Graph.CreateEdgeByName, hidx,
      Graph.SetEdgeColor, Graph.SetEdgeStyle, modifyAt_append_length, upsertEdge, hkey]
    rfl
  | some i =>
    simp only [drawExposure, CreateNodeByName_eq, Graph.CreateEdgeByName, hidx,
      Graph.SetEdgeColor, Graph.SetEdgeStyle, modifyAt_modifyAt, upsertEdge, hkey]
    rfl

/-- The exposure loop leaves the graph as it is when no network is exposed and
has the effect of one run of its body otherwise. -/
theorem exposureLoop_eq (lib : NilEdge) (networks : List (GoString × Network)) :
    ∀ graph : Graph,
      exposureLoop lib networks graph =
        .ok (if (networks.filter (fun e => isExposed e.2)).length = 0 then graph
          else ⟨ensureNode (ensureNode graph.nodes (str "start")) (str "end"),
            upsertEdge exposureEdge graph.edges⟩) := by
  induction networks with
  | nil => intro graph; simp [exposureLoop]
  | cons hd rest ih =>
    intro graph
    obtain ⟨k, network⟩ := hd
    by_cases hx : isExposed network = true
    · have hf : ((k, network) :: rest).filter (fun e => isExposed e.2) =
          (k, network) :: rest.filter (fun e => isExposed e.2) :=
        List.filter_cons_of_pos hx
      have step : exposureLoop lib ((k, network) :: rest) graph =
          exposureLoop lib rest ⟨ensureNode (ensureNode graph.nodes (str "start")) (str "end"),
            upsertEdge exposureEdge graph.edges⟩ := by
        have hx2 : (!network.Internal && decide (network.Name ≠ str "host")) = true := hx
        simp only [exposureLoop, hx2, if_true, drawExposure_eq]
      rw [step, ih, hf]
      by_cases hz : (rest.filter (fun e => isExposed e.2)).length = 0
      · simp [hz]
      · simp only [hz, if_false, List.length_cons, Nat.succ_ne_zero,
          ensureNode_start_end_idem, upsertEdge_idem exposureEdge rfl]
    · have hf : ((k, network) :: rest).filter (fun e => isExposed e.2) =
          rest.filter (fun e => isExposed e.2) :=
        List.filter_cons_of_neg hx
      have step : exposureLoop lib ((k, network) :: rest) graph =
          exposureLoop lib rest graph := by
        have hx2 : ¬ ((!network.Internal && decide (network.Name ≠ str "host")) = true) := hx
        simp only [exposureLoop, hx2, if_false]
        simp
      rw [step, ih, hf]

/-- C12 fails for two networks that are neither internal nor named `host`: on
the empty graph the exposure loop over `exposedNetworkMap` leaves one edge `e`
from `start` to `end`, not two, because the second run of its body finds the
edge of the first; and `generateGraph` hands the renderer a graph with one
such edge for a client that lists the two networks `bridge` and `frontend`. -/
theorem exposureLoop_counterexample :
    (exposedNetworkMap.filter (fun e => !e.2.Internal && decide (e.2.Name ≠ str "host"))).length
      = 2 ∧
    exposureLoop nilEdgeFails exposedNetworkMap ⟨[], []⟩ =
      .ok ⟨[bareNode (str "start"), bareNode (str "end")],
        [⟨str "e", str "start", str "end", none, some (str "#808080"), some (str "dotted")⟩]⟩ ∧
    ¬ (∃ g, exposureLoop nilEdgeFails exposedNetworkMap ⟨[], []⟩ = .ok g ∧
      g.edges = [] ++
        List.replicate
          (exposedNetworkMap.filter
            (fun e => !e.2.Internal && decide (e.2.Name ≠ str "host"))).length
          ⟨str "e", str "start", str "end", none, some (str "#808080"), some (str "dotted")⟩) ∧
    (∃ g, generateGraph nilEdgeFails (fun _ => 0) twoNetworksClient ⟨0, 0⟩ goodRenderer []
        false = some (.ok (.stdout g (str "dot"))) ∧
      g.edges =
        [⟨str "e", str "start", str "end", none, some (str "#808080"), some (str "dotted")⟩]) := by
  refine ⟨by decide, rfl, ?_, ⟨_, rfl, rfl⟩⟩
  rintro ⟨g, hg, hedges⟩
  have h1 : exposureLoop nilEdgeFails exposedNetworkMap ⟨[], []⟩ =
      .ok ⟨[bareNode (str "start"), bareNode (str "end")],
        [⟨str "e", str "start", str "end", none, some (str "#808080"), some (str "dotted")⟩]⟩ :=
    rfl
  rw [h1] at hg
  injection hg with hg
  rw [← hg] at hedges
  have hlen := congrArg List.length hedges
  revert hlen
  decide

/-- C12, amended: for every networks map and every graph, the exposure loop
of `generateGraph` succeeds.  When no network of the map is neither internal
nor named `host`, the graph is left as it is, with no node `start` or `end`
and no edge added.  Otherwise the graph has both nodes afterwards and the
edge named `e` from `start` to `end` was created, or found, once and is dotted
and coloured `#808080`, whatever the number of such networks: on a graph that
had no such edge it is the one edge added, after the edges the graph had. -/
theorem exposureLoop_edge_count (lib : NilEdge) (networks : GoMap Network) (graph : Graph) :
    ∃ g, exposureLoop lib networks graph = .ok g ∧
      ((networks.filter (fun e => !e.2.Internal && decide (e.2.Name ≠ str "host"))).length = 0 →
        g = graph) ∧
      (0 < (networks.filter (fun e => !e.2.Internal && decide (e.2.Name ≠ str "host"))).length →
        g.nodes = ensureNode (ensureNode graph.nodes (str "start")) (str "end") ∧
        g.hasNode (str "start") = true ∧ g.hasNode (str "end") = true ∧
        g.edges = upsertEdge
          ⟨str "e", str "start", str "end", none, some (str "#808080"), some (str "dotted")⟩
          graph.edges ∧
        (∃ e ∈ g.edges, e.name = str "e" ∧ e.tail = str "start" ∧ e.head = str "end" ∧
          e.color = some (str "#808080") ∧ e.style = some (str "dotted")) ∧
        ((∀ y ∈ graph.edges,
            ¬ (y.name = str "e" ∧ y.tail = str "start" ∧ y.head = str "end")) →
          g.edges = graph.edges ++
            [⟨str "e", str "start", str "end", none, some (str "#808080"),
              some (str "dotted")⟩])) ∧
      g.edges.length ≤ graph.edges.length + 1 := by
  have hcount : (networks.filter
      (fun e => !e.2.Internal && decide (e.2.Name ≠ str "host"))).length =
      (networks.filter (fun e => isExposed e.2)).length := rfl
  refine ⟨_, exposureLoop_eq lib networks graph, ?_, ?_, ?_⟩
  · intro h0
    rw [hcount] at h0
    simp [h0]
  · intro hpos
    rw [hcount] at hpos
    have hne : ¬ (networks.filter (fun e => isExposed e.2)).length = 0 := Nat.ne_of_gt hpos
    rw [if_neg hne]
    refine ⟨rfl, any_ensureNode_of_any _ _ _ (any_ensureNode_self _ _),
      any_ensureNode_self _ _, rfl, ?_, ?_⟩
    · obtain ⟨e, he, h1, h2, h3, h4, h5, _⟩ := upsertEdge_mem exposureEdge graph.edges
      exact ⟨e, he, h1, h2, h3, h4, h5⟩
    · intro hfresh
      exact upsertEdge_of_fresh exposureEdge graph.edges hfresh
  · by_cases hz : (networks.filter (fun e => isExposed e.2)).length = 0
    · simp [hz]
    · simp only [hz, if_false]
      exact length_upsertEdge_le _ _

/-- The amended C12 at `exposedNetworkMap` on the empty graph: two of its
three networks are neither internal nor named `host`, and one edge is added;
for the network `host` alone nothing is added. -/
theorem exposureLoop_edge_count_witness :
    (exposedNetworkMap.filter (fun e => !e.2.Internal && decide (e.2.Name ≠ str "host"))).length
      = 2 ∧
    exposureLoop nilEdgeFails [(str "host", hostNetwork)] ⟨[], []⟩ = .ok ⟨[], []⟩ ∧
    ∃ g, exposureLoop nilEdgeFails exposedNetworkMap ⟨[], []⟩ = .ok g ∧
      ((exposedNetworkMap.filter
          (fun e => !e.2.Internal && decide (e.2.Name ≠ str "host"))).length = 0 →
        g = ⟨[], []⟩) ∧
      (0 < (exposedNetworkMap.filter
          (fun e => !e.2.Internal && decide (e.2.Name ≠ str "host"))).length →
        g.nodes = ensureNode (ensureNode [] (str "start")) (str "end") ∧
        g.hasNode (str "start") = true ∧ g.hasNode (str "end") = true ∧
        g.edges = upsertEdge
          ⟨str "e", str "start", str "end", none, some (str "#808080"), some (str "dotted")⟩
          [] ∧
        (∃ e ∈ g.edges, e.name = str "e" ∧ e.tail = str "start" ∧ e.head = str "end" ∧
          e.color = some (str "#808080") ∧ e.style = some (str "dotted")) ∧
        ((∀ y ∈ ([] : List Edge),
            ¬ (y.name = str "e" ∧ y.tail = str "start" ∧ y.head = str "end")) →
          g.edges = [] ++
            [⟨str "e", str "start", str "end", none, some (str "#808080"),
              some (str "dotted")⟩])) ∧
      g.edges.length ≤ ([] : List Edge).length + 1 :=
  ⟨by decide, rfl, exposureLoop_edge_count nilEdgeFails exposedNetworkMap ⟨[], []⟩⟩

/-! ## The assembled graph -/

theorem mem_modifyAt {α : Type} (f : α → α) (l : List α) :
    ∀ (i : Nat) (e : α), e ∈ modifyAt f l i → e ∈ l ∨ ∃ y ∈ l, e = f y := by
  induction l with
  | nil => intro i e h; simp [modifyAt] at h
  | cons y ys ih =>
    intro i e h
    cases i with
    | zero =>
      rcases List.mem_cons.mp h with h | h
      · exact Or.inr ⟨y, List.mem_cons_self _ _, h⟩
      · exact Or.inl (List.mem_cons_of_mem _ h)
    | succ j =>
      rcases List.mem_cons.mp h with h | h
      · exact Or.inl (h ▸ List.mem_cons_self _ _)
      · rcases ih j e h with h1 | ⟨z, hz, hez⟩
        · exact Or.inl (List.mem_cons_of_mem _ h1)
        · exact Or.inr ⟨z, List.mem_cons_of_mem _ hz, hez⟩

/-- An edge of the graph after `upsertEdge` is the new edge or has the name
and the end nodes of an edge that was there. -/
theorem mem_upsertEdge (x : Edge) (l : List Edge) (e : Edge) (h : e ∈ upsertEdge x l) :
    e = x ∨ ∃ y ∈ l, e.name = y.name ∧ e.tail = y.tail ∧ e.head = y.head := by
  unfold upsertEdge at h
  split at h
  · rcases mem_modifyAt _ _ _ _ h with h1 | ⟨y, hy, hey⟩
    · exact Or.inr ⟨e, h1, rfl, rfl, rfl⟩
    · exact Or.inr ⟨y, hy, by rw [hey]; exact ⟨rfl, rfl, rfl⟩⟩
  · rcases List.mem_append.mp h with h1 | h1
    · exact Or.inr ⟨e, h1, rfl, rfl, rfl⟩
    · exact Or.inl (List.mem_singleton.mp h1)

/-- The edges the link loop leaves on edges without name have no name. -/
theorem foldl_upsertEdge_name (networks : GoMap Network) (ls : List Link) :
    ∀ base : List Edge, (∀ e ∈ base, e.name = []) →
      ∀ e ∈ ls.foldl (fun es l => upsertEdge (linkEdge networks l) es) base, e.name = [] := by
  induction ls with
  | nil => intro base h e he; exact h e he
  | cons l rest ih =>
    intro base h
    refine ih (upsertEdge (linkEdge networks l) base) ?_
    intro e he
    rcases mem_upsertEdge _ _ _ he with h1 | ⟨y, hy, hn, _, _⟩
    · rw [h1]
      rfl
    · rw [hn]
      exact h y hy

theorem hasNode_modifyNode (g : Graph) (n : GoString) (f : Node → Node)
    (hf : ∀ x, (f x).name = x.name) (name : GoString) :
    (g.modifyNode n f).hasNode name = g.hasNode name := by
  unfold Graph.modifyNode Graph.hasNode
  induction g.nodes with
  | nil => rfl
  | cons x xs ih =>
    simp only [List.map_cons, List.any_cons, ih]
    by_cases hx : x.name = n
    · simp only [hx, if_true, hf]
    · simp only [hx, if_false]

/-- The function `drawNetwork` succeeds, changes no edge, keeps the nodes there are and
leaves a node of the name of the network. -/
theorem drawNetwork_ok (graph : Graph) (net : Network) :
    ∃ g, drawNetwork graph net = .ok g ∧ g.edges = graph.edges ∧
      g.hasNode net.Name = true ∧ ∀ x, graph.hasNode x = true → g.hasNode x = true := by
  refine ⟨((((Graph.mk (ensureNode graph.nodes net.Name) graph.edges).SetNodeShape net.Name
    BoxShape).SetNodeLabel net.Name (networkLabel net)).SetNodeColor net.Name
    (net.Color ++ str "60")).SetNodeStyle net.Name (str "rounded"),
    by simp only [drawNetwork, CreateNodeByName_eq], rfl, ?_, ?_⟩
  · simp only [Graph.SetNodeStyle, Graph.SetNodeColor, Graph.SetNodeLabel, Graph.SetNodeShape]
    rw [hasNode_modifyNode, hasNode_modifyNode, hasNode_modifyNode, hasNode_modifyNode]
    · exact any_ensureNode_self graph.nodes net.Name
    all_goals exact fun _ => rfl
  · intro x hx
    simp only [Graph.SetNodeStyle, Graph.SetNodeColor, Graph.SetNodeLabel, Graph.SetNodeShape]
    rw [hasNode_modifyNode, hasNode_modifyNode, hasNode_modifyNode, hasNode_modifyNode]
    · exact any_ensureNode_of_any graph.nodes net.Name x hx
    all_goals exact fun _ => rfl

/-- The function `drawContainer` succeeds, changes no edge, keeps the nodes there are
and leaves a node of the ID of the container. -/
theorem drawContainer_ok (graph : Graph) (c : Container) :
    ∃ g, drawContainer graph c = .ok g ∧ g.edges = graph.edges ∧
      g.hasNode c.ContainerID = true ∧ ∀ x, graph.hasNode x = true → g.hasNode x = true := by
  refine ⟨((((Graph.mk (ensureNode graph.nodes c.ContainerID) graph.edges).SetNodeShape
    c.ContainerID BoxShape).SetNodeLabel c.ContainerID (containerLabel c)).SetNodeFillColor
    c.ContainerID (str "#cdcdcd")).SetNodeStyle c.ContainerID (str "filled"),
    by simp only [drawContainer, CreateNodeByName_eq], rfl, ?_, ?_⟩
  · simp only [Graph.SetNodeStyle, Graph.SetNodeFillColor, Graph.SetNodeLabel, Graph.SetNodeShape]
    rw [hasNode_modifyNode, hasNode_modifyNode, hasNode_modifyNode, hasNode_modifyNode]
    · exact any_ensureNode_self graph.nodes c.ContainerID
    all_goals exact fun _ => rfl
  · intro x hx
    simp only [Graph.SetNodeStyle, Graph.SetNodeFillColor, Graph.SetNodeLabel, Graph.SetNodeShape]
    rw [hasNode_modifyNode, hasNode_modifyNode, hasNode_modifyNode, hasNode_modifyNode]
    · exact any_ensureNode_of_any graph.nodes c.ContainerID x hx
    all_goals exact fun _ => rfl

theorem drawNetworksLoop_ok (networks : List (GoString × Network)) :
    ∀ graph : Graph, ∃ g, drawNetworksLoop networks graph = .ok g ∧ g.edges = graph.edges ∧
      (∀ e ∈ networks, g.hasNode e.2.Name = true) ∧
      ∀ x, graph.hasNode x = true → g.hasNode x = true := by
  induction networks with
  | nil => intro graph; exact ⟨graph, rfl, rfl, by simp, fun _ h => h⟩
  | cons hd rest ih =>
    intro graph
    obtain ⟨k, net⟩ := hd
    obtain ⟨g1, h1, he1, hn1, hm1⟩ := drawNetwork_ok graph net
    obtain ⟨g2, h2, he2, hn2, hm2⟩ := ih g1
    refine ⟨g2, by simp only [drawNetworksLoop, h1, h2], by rw [he2, he1], ?_,
      fun x hx => hm2 x (hm1 x hx)⟩
    intro e he
    rcases List.mem_cons.mp he with h | h
    · rw [h]
      exact hm2 _ hn1
    · exact hn2 e h

theorem drawContainersLoop_ok (containers : List Container) :
    ∀ graph : Graph, ∃ g, drawContainersLoop containers graph = .ok g ∧ g.edges = graph.edges ∧
      (∀ c ∈ containers, g.hasNode c.ContainerID = true) ∧
      ∀ x, graph.hasNode x = true → g.hasNode x = true := by
  induction containers with
  | nil => intro graph; exact ⟨graph, rfl, rfl, by simp, fun _ h => h⟩
  | cons c rest ih =>
    intro graph
    obtain ⟨g1, h1, he1, hn1, hm1⟩ := drawContainer_ok graph c
    obtain ⟨g2, h2, he2, hn2, hm2⟩ := ih g1
    refine ⟨g2, by simp only [drawContainersLoop, h1, h2], by rw [he2, he1], ?_,
      fun x hx => hm2 x (hm1 x hx)⟩
    intro e he
    rcases List.mem_cons.mp he with h | h
    · rw [h]
      exact hm2 _ hn1
    · exact hn2 e h

/-- The edges of the assembled graph when every link other than those to
`none` joins a container and a network that are drawn: the edges of the links,
created or found in the order of the links, then the one exposure edge when a
network is exposed. -/
theorem assembleGraph_edges (lib : NilEdge) (networks : GoMap Network)
    (containers : List Container) (links : List Link)
    (hlinks : ∀ l ∈ links, l.NetworkName ≠ str "none" →
      (∃ k ∈ containers, k.ContainerID = l.ContainerID) ∧
      (∃ e ∈ networks, e.2.Name = l.NetworkName)) :
    ∃ g, assembleGraph lib networks containers links = .ok g ∧
      g.edges = (links.filter (fun l => decide (l.NetworkName ≠ str "none"))).foldl
          (fun es l => upsertEdge (linkEdge networks l) es) [] ++
        (if (networks.filter (fun e => isExposed e.2)).length = 0 then []
          else [exposureEdge]) := by
  obtain ⟨g1, h1, he1, hn1, _⟩ := drawNetworksLoop_ok networks ⟨[], []⟩
  obtain ⟨g2, h2, he2, hn2, hm2⟩ := drawContainersLoop_ok containers g1
  have hnodes : ∀ l ∈ links, l.NetworkName ≠ str "none" →
      g2.hasNode l.ContainerID = true ∧ g2.hasNode l.NetworkName = true := by
    intro l hl hne
    obtain ⟨⟨k, hk, hkid⟩, ⟨e, he, hen⟩⟩ := hlinks l hl hne
    exact ⟨hkid ▸ hn2 k hk, hen ▸ hm2 _ (hn1 e he)⟩
  have hg2 : g2.edges = [] := by rw [he2, he1]
  have h3 := drawLinksLoop_eq lib networks links g2 hnodes
  rw [hg2] at h3
  have h4 := exposureLoop_eq lib networks
    ⟨g2.nodes, (links.filter (fun l => decide (l.NetworkName ≠ str "none"))).foldl
      (fun es l => upsertEdge (linkEdge networks l) es) []⟩
  have hasm : assembleGraph lib networks containers links =
      .ok (if (networks.filter (fun e => isExposed e.2)).length = 0 then
        ⟨g2.nodes, (links.filter (fun l => decide (l.NetworkName ≠ str "none"))).foldl
          (fun es l => upsertEdge (linkEdge networks l) es) []⟩
        else ⟨ensureNode (ensureNode g2.nodes (str "start")) (str "end"),
          upsertEdge exposureEdge
            ((links.filter (fun l => decide (l.NetworkName ≠ str "none"))).foldl
              (fun es l => upsertEdge (linkEdge networks l) es) [])⟩) := by
    simp only [assembleGraph, h1, h2, h3]
    exact h4
  refine ⟨_, hasm, ?_⟩
  · by_cases hz : (networks.filter (fun e => isExposed e.2)).length = 0
    · simp [hz]
    · simp only [hz, if_false]
      refine upsertEdge_of_fresh exposureEdge _ ?_
      intro y hy hkey
      have hname := foldl_upsertEdge_name networks _ [] (by simp) y hy
      rw [hname] at hkey
      exact absurd hkey.1 (by decide)

/-- C16, amended: from the cursor 0, for one network record with a name other
than `host` and `none`, the first subnet `172.18.0.0/16`, not internal and
without the option `enable_icc`, and one container with an ID of at least 12
bytes and a non-empty first name other than `/web`, attached to that network
with the raw alias `web` and the port binding `8080/tcp`: the model has the
two networks (that network with the first palette colour, and `host`), one
container with one interface of aliases `web` and one port `8080`, and one
link; the assembled graph has exactly two edges, the solid link edge in the
first palette colour and one dotted edge from `start` to `end`; and
`generateGraph` hands that graph to the renderer. -/
theorem scenario_one_network_one_container (lib : NilEdge) (rnd : Nat → Nat) (d : Nat)
    (netName : GoString)
    (opts : GoMap GoString) (cont : ContainerSummary) (nm : GoString) (rest : List GoString)
    (ep addr : GoString) (bindings : List PortBinding) (r : Renderer)
    (hhost : netName ≠ str "host") (hnone : netName ≠ str "none")
    (hopts : opts.get? (str "com.docker.network.bridge.enable_icc") = none)
    (hid : 12 ≤ cont.ID.length) (hnames : cont.Names = nm :: rest)
    (hnm : nm ≠ []) (hweb : nm.drop 1 ≠ str "web") :
    ∃ networks containers links g,
      (getNetworks rnd (scenarioClient netName opts cont ep addr bindings) ⟨0, d⟩).1 = .ok networks ∧
      getContainers (scenarioClient netName opts cont ep addr bindings) =
        some (.ok (containers, links)) ∧
      networks = [(netName, ⟨netName, str "172.18.0.0/16", false, false, str "#1f78b4"⟩),
        (str "host", ⟨str "host", str "0.0.0.0", false, false, str "#808080"⟩)] ∧
      COLORS.head? = some (str "#1f78b4") ∧
      containers = [⟨cont.ID, nm.drop 1, [⟨ep, addr, [str "web"]⟩], [⟨str "8080"⟩]⟩] ∧
      links = [⟨cont.ID, ep, netName⟩] ∧
      assembleGraph lib networks containers links = .ok g ∧
      g.edges = [⟨[], cont.ID, netName, none, some (str "#1f78b4"), some (str "solid")⟩,
        ⟨str "e", str "start", str "end", none, some (str "#808080"), some (str "dotted")⟩] ∧
      generateGraph lib rnd (scenarioClient netName opts cont ep addr bindings) ⟨0, d⟩ r []
          false =
        (match r.Render g (str "dot") with
          | some err => some (.error err)
          | none => some (.ok (.stdout g (str "dot")))) := by
  have hnets := scenario_networks rnd d netName opts cont ep addr bindings hhost hopts
  have hconts := scenario_containers netName opts cont nm rest ep addr bindings hid hnames hnm hweb
  obtain ⟨g, hg, hedges⟩ := assembleGraph_edges lib
    [(netName, ⟨netName, str "172.18.0.0/16", false, false, str "#1f78b4"⟩),
      (str "host", ⟨str "host", str "0.0.0.0", false, false, str "#808080"⟩)]
    [⟨cont.ID, nm.drop 1, [⟨ep, addr, [str "web"]⟩], [⟨str "8080"⟩]⟩]
    [⟨cont.ID, ep, netName⟩]
    (by
      intro l hl _
      rw [List.mem_singleton.mp hl]
      exact ⟨⟨_, List.mem_singleton.mpr rfl, rfl⟩, ⟨_, List.mem_cons_self _ _, rfl⟩⟩)
  refine ⟨_, _, _, g, hnets, hconts, rfl, rfl, rfl, rfl, hg, ?_, ?_⟩
  · rw [hedges]
    have hf : ([⟨cont.ID, ep, netName⟩] : List Link).filter
        (fun l => decide (l.NetworkName ≠ str "none")) = [⟨cont.ID, ep, netName⟩] :=
      List.filter_cons_of_pos (decide_eq_true hnone)
    have hget : GoMap.get
        [(netName, (⟨netName, str "172.18.0.0/16", false, false, str "#1f78b4"⟩ : Network)),
          (str "host", ⟨str "host", str "0.0.0.0", false, false, str "#808080"⟩)] netName =
        ⟨netName, str "172.18.0.0/16", false, false, str "#1f78b4"⟩ := by
      simp [GoMap.get, List.lookup]
    have hexp : ([(netName, (⟨netName, str "172.18.0.0/16", false, false, str "#1f78b4"⟩ : Network)),
          (str "host", ⟨str "host", str "0.0.0.0", false, false, str "#808080"⟩)]).filter
        (fun e => isExposed e.2) =
        [(netName, ⟨netName, str "172.18.0.0/16", false, false, str "#1f78b4"⟩)] := by
      simp [List.filter, isExposed, hhost]
    rw [hf, hexp]
    simp [upsertEdge, Graph.edgeIndex, linkEdge, hget, hhost, exposureEdge, SolidEdgeStyle]
  · simp only [generateGraph, hnets, hconts, hg, renderGraph]
    simp

/-- The amended C16 at the network `mynet` and the container `/app`. -/
theorem scenario_one_network_one_container_witness :
    ∃ networks containers links g,
      (getNetworks (fun _ => 0) (scenarioClient (str "mynet") []
        ⟨str "0123456789abcdef", [str "/app"]⟩ (str "ep1") (str "172.18.0.2") []) ⟨0, 0⟩).1 =
        .ok networks ∧
      getContainers (scenarioClient (str "mynet") []
        ⟨str "0123456789abcdef", [str "/app"]⟩ (str "ep1") (str "172.18.0.2") []) =
        some (.ok (containers, links)) ∧
      networks = [(str "mynet", ⟨str "mynet", str "172.18.0.0/16", false, false, str "#1f78b4"⟩),
        (str "host", ⟨str "host", str "0.0.0.0", false, false, str "#808080"⟩)] ∧
      COLORS.head? = some (str "#1f78b4") ∧
      containers = [⟨str "0123456789abcdef", (str "/app").drop 1,
        [⟨str "ep1", str "172.18.0.2", [str "web"]⟩], [⟨str "8080"⟩]⟩] ∧
      links = [⟨str "0123456789abcdef", str "ep1", str "mynet"⟩] ∧
      assembleGraph nilEdgeFails networks containers links = .ok g ∧
      g.edges = [⟨[], str "0123456789abcdef", str "mynet", none, some (str "#1f78b4"),
          some (str "solid")⟩,
        ⟨str "e", str "start", str "end", none, some (str "#808080"), some (str "dotted")⟩] ∧
      generateGraph nilEdgeFails (fun _ => 0) (scenarioClient (str "mynet") []
          ⟨str "0123456789abcdef", [str "/app"]⟩ (str "ep1") (str "172.18.0.2") []) ⟨0, 0⟩
          ⟨fun _ _ _ => none, fun _ _ => none⟩ [] false =
        (match (none : Option Error) with
          | some err => some (.error err)
          | none => some (.ok (.stdout g (str "dot")))) :=
  scenario_one_network_one_container nilEdgeFails (fun _ => 0) 0 (str "mynet") []
    ⟨str "0123456789abcdef", [str "/app"]⟩ (str "/app") [] (str "ep1") (str "172.18.0.2") []
    ⟨fun _ _ _ => none, fun _ _ => none⟩ (by decide) (by decide) rfl (by decide) rfl (by decide)
    (by decide)

/-! ## The anchor of a link edge -/

/-- C11 fails: the edge `drawLink` adds leads from the node of the container
to the node of the network, and no tail port is set on it; the `EndpointID`
of the link is not used.  Shown for every link on the graph of its two nodes,
and on `exampleGraph` for the link with the endpoint `ep1`. -/
theorem drawLink_sets_no_tail_port :
    (∀ (lib : NilEdge) (networks : GoMap Network) (link : Link),
      ∃ e, drawLink lib ⟨[bareNode link.ContainerID, bareNode link.NetworkName], []⟩ networks
            link =
          .ok ⟨[bareNode link.ContainerID, bareNode link.NetworkName], [e]⟩ ∧
        e.tail = link.ContainerID ∧ e.head = link.NetworkName ∧ e.tailport = none) ∧
    (∀ lib : NilEdge, ∃ e, drawLink lib exampleGraph exampleNetworkMap
          ⟨str "0123456789abcdef", str "ep1", str "bridge"⟩ =
        .ok ⟨exampleGraph.nodes, [e]⟩ ∧
      e.tail = str "0123456789abcdef" ∧ e.head = str "bridge" ∧
      e.tailport ≠ some (str "ep1")) := by
  constructor
  · intro lib networks link
    refine ⟨linkEdge networks link, ?_, rfl, rfl, rfl⟩
    have h := drawLink_eq lib ⟨[bareNode link.ContainerID, bareNode link.NetworkName], []⟩
      networks link (by simp [Graph.hasNode, bareNode]) (by simp [Graph.hasNode, bareNode])
    simpa [upsertEdge, Graph.edgeIndex] using h
  · intro lib
    exact ⟨linkEdge exampleNetworkMap ⟨str "0123456789abcdef", str "ep1", str "bridge"⟩,
      rfl, rfl, rfl, by decide⟩

/-! ## The format of the output file -/

/-- C19 fails: for the output path `graph`, which has no extension,
`filepath.Ext` yields the empty string, the slice `[1:]` of line 323 is out of
range, and `generateGraph` panics before anything is rendered; the same holds
for `out.d/graph`.  For `out.png` the format is `png`, and an error of the
renderer is returned as the error of `generateGraph`. -/
theorem renderFormat_without_extension :
    filepathExt (str "graph") = [] ∧
    renderFormat (str "graph") = none ∧
    renderFormat (str "out.d/graph") = none ∧
    (∀ (r : Renderer) (g : Graph) (url : Bool), renderGraph r g (str "graph") url = none) ∧
    (∀ lib : NilEdge,
      generateGraph lib (fun _ => 0) appClient ⟨0, 0⟩ goodRenderer (str "graph") false = none) ∧
    renderFormat (str "out.png") = some (str "png") ∧
    (∀ lib : NilEdge, ∃ g,
      generateGraph lib (fun _ => 0) appClient ⟨0, 0⟩ goodRenderer (str "out.png") false =
        some (.ok (.file g (str "png") (str "out.png")))) ∧
    (∀ lib : NilEdge,
      generateGraph lib (fun _ => 0) appClient ⟨0, 0⟩ badRenderer (str "out.png") false =
        some (.error ⟨str "render failed"⟩)) := by
  refine ⟨by decide, by decide, by decide, fun r g url => rfl, fun _ => rfl, by decide,
    fun _ => ⟨_, rfl⟩, fun _ => rfl⟩

/-! ## The link loop and links of the same container to the same network -/

theorem mem_modifyAt_of_edgeIndex (name n m : GoString) (f : Edge → Edge) (l : List Edge) :
    ∀ i : Nat, Graph.edgeIndex name n m l = some i → ∀ e ∈ l,
      e ∈ modifyAt f l i ∨
        ((e.name = name ∧ e.tail = n ∧ e.head = m) ∧ f e ∈ modifyAt f l i) := by
  induction l with
  | nil => intro i _ e he; simp at he
  | cons y ys ih =>
    intro i h e he
    by_cases hy : y.name = name ∧ y.tail = n ∧ y.head = m
    · simp only [Graph.edgeIndex, hy, and_self, if_true, Option.some.injEq] at h
      subst h
      rcases List.mem_cons.mp he with h1 | h1
      · exact Or.inr ⟨h1 ▸ hy, h1 ▸ List.mem_cons_self _ _⟩
      · exact Or.inl (List.mem_cons_of_mem _ h1)
    · simp only [Graph.edgeIndex, hy, if_false, Option.map_eq_some'] at h
      obtain ⟨j, hj, hij⟩ := h
      subst hij
      rcases List.mem_cons.mp he with h1 | h1
      · exact Or.inl (h1 ▸ List.mem_cons_self _ _)
      · rcases ih j hj e h1 with h2 | ⟨h2, h3⟩
        · exact Or.inl (List.mem_cons_of_mem _ h2)
        · exact Or.inr ⟨h2, List.mem_cons_of_mem _ h3⟩

/-- An edge of some name, end nodes, colour and style stays, or is painted
alike, when an edge is created or found that, if it has that name and these
end nodes, has that colour and that style. -/
theorem upsertEdge_keeps (x : Edge) (l : List Edge) (name n m : GoString)
    (c s : Option GoString)
    (hx : x.name = name ∧ x.tail = n ∧ x.head = m → x.color = c ∧ x.style = s)
    (h : ∃ e ∈ l, e.name = name ∧ e.tail = n ∧ e.head = m ∧ e.color = c ∧ e.style = s) :
    ∃ e ∈ upsertEdge x l,
      e.name = name ∧ e.tail = n ∧ e.head = m ∧ e.color = c ∧ e.style = s := by
  obtain ⟨e, he, h1, h2, h3, h4, h5⟩ := h
  cases hidx : Graph.edgeIndex x.name x.tail x.head l with
  | none =>
    refine ⟨e, ?_, h1, h2, h3, h4, h5⟩
    simp [upsertEdge, hidx, he]
  | some i =>
    have hup : upsertEdge x l = modifyAt (paintAs x) l i := by simp [upsertEdge, hidx]
    rw [hup]
    rcases mem_modifyAt_of_edgeIndex x.name x.tail x.head (paintAs x) l i hidx e he with
      hm | ⟨hkey, hm⟩
    · exact ⟨e, hm, h1, h2, h3, h4, h5⟩
    · have hxk : x.name = name ∧ x.tail = n ∧ x.head = m :=
        ⟨hkey.1 ▸ h1, hkey.2.1 ▸ h2, hkey.2.2 ▸ h3⟩
      exact ⟨paintAs x e, hm, h1, h2, h3, (hx hxk).1, (hx hxk).2⟩

/-- After the link loop every link that was drawn has its edge, in the
colour and the style of its network. -/
theorem foldl_upsertEdge_has (networks : GoMap Network) (ls : List Link) :
    ∀ (base : List Edge) (name n m : GoString) (c s : Option GoString),
      (∀ l ∈ ls, (linkEdge networks l).name = name ∧ (linkEdge networks l).tail = n ∧
        (linkEdge networks l).head = m →
          (linkEdge networks l).color = c ∧ (linkEdge networks l).style = s) →
      (∃ e ∈ base, e.name = name ∧ e.tail = n ∧ e.head = m ∧ e.color = c ∧ e.style = s) →
      ∃ e ∈ ls.foldl (fun es l => upsertEdge (linkEdge networks l) es) base,
        e.name = name ∧ e.tail = n ∧ e.head = m ∧ e.color = c ∧ e.style = s := by
  induction ls with
  | nil => intro base name n m c s _ h; exact h
  | cons l rest ih =>
    intro base name n m c s hls h
    exact ih _ name n m c s (fun x hx => hls x (List.mem_cons_of_mem _ hx))
      (upsertEdge_keeps _ base name n m c s (hls l (List.mem_cons_self _ _)) h)

theorem foldl_upsertEdge_mem (networks : GoMap Network) (ls : List Link) :
    ∀ (base : List Edge), ∀ l ∈ ls,
      ∃ e ∈ ls.foldl (fun es l => upsertEdge (linkEdge networks l) es) base,
        e.name = [] ∧ e.tail = l.ContainerID ∧ e.head = l.NetworkName ∧
        e.color = (linkEdge networks l).color ∧ e.style = (linkEdge networks l).style := by
  induction ls with
  | nil => intro base l hl; simp at hl
  | cons x rest ih =>
    intro base l hl
    rcases List.mem_cons.mp hl with h | h
    · subst h
      refine foldl_upsertEdge_has networks rest _ [] l.ContainerID l.NetworkName _ _ ?_ ?_
      · intro y _ hkey
        have hnet : y.NetworkName = l.NetworkName := hkey.2.2
        simp only [linkEdge, hnet, and_self]
      · obtain ⟨e, he, h1, h2, h3, h4, h5, _⟩ := upsertEdge_mem (linkEdge networks l) base
        exact ⟨e, he, h1, h2, h3, h4, h5⟩
    · exact ih _ l h

theorem foldl_upsertEdge_origin (networks : GoMap Network) (ls : List Link) :
    ∀ (base : List Edge),
      ∀ e ∈ ls.foldl (fun es l => upsertEdge (linkEdge networks l) es) base,
        (∃ y ∈ base, e.name = y.name ∧ e.tail = y.tail ∧ e.head = y.head) ∨
        (∃ l ∈ ls, e.name = [] ∧ e.tail = l.ContainerID ∧ e.head = l.NetworkName) := by
  induction ls with
  | nil => intro base e he; exact Or.inl ⟨e, he, rfl, rfl, rfl⟩
  | cons x rest ih =>
    intro base e he
    rcases ih _ e he with ⟨y, hy, hk⟩ | ⟨l, hl, hk⟩
    · rcases mem_upsertEdge _ _ _ hy with h1 | ⟨z, hz, hzk⟩
      · refine Or.inr ⟨x, List.mem_cons_self _ _, ?_⟩
        rw [h1] at hk
        exact hk
      · exact Or.inl ⟨z, hz, hk.1.trans hzk.1, hk.2.1.trans hzk.2.1, hk.2.2.trans hzk.2.2⟩
    · exact Or.inr ⟨l, List.mem_cons_of_mem _ hl, hk⟩

theorem length_foldl_upsertEdge_le (networks : GoMap Network) (ls : List Link) :
    ∀ (base : List Edge),
      (ls.foldl (fun es l => upsertEdge (linkEdge networks l) es) base).length ≤
        base.length + ls.length := by
  induction ls with
  | nil => intro base; simp
  | cons x rest ih =>
    intro base
    have h1 := ih (upsertEdge (linkEdge networks x) base)
    have h2 := length_upsertEdge_le (linkEdge networks x) base
    simp only [List.foldl_cons, List.length_cons]
    omega

/-- The links `getContainers` builds from a listing without repeated container
ID, each container inspected with attachments of different network names,
join pairwise different containers and networks. -/
theorem linksOf_pairwise (insp : GoString → ContainerJSON) (contList : List ContainerSummary)
    (hids : contList.Pairwise (fun a b => a.ID ≠ b.ID))
    (hkeys : ∀ c ∈ contList,
      (insp c.ID).NetworkSettings.Networks.Pairwise (fun a b => a.1 ≠ b.1)) :
    (contList.flatMap (fun c => linksOf c (insp c.ID).NetworkSettings.Networks)).Pairwise
      (fun a b => ¬ (a.ContainerID = b.ContainerID ∧ a.NetworkName = b.NetworkName)) := by
  rw [List.pairwise_flatMap]
  constructor
  · intro c hc
    unfold linksOf
    rw [List.pairwise_map]
    exact (hkeys c hc).imp (fun hne hk => hne hk.2)
  · refine hids.imp ?_
    intro a b hne x hx y hy hk
    unfold linksOf at hx hy
    obtain ⟨_, _, rfl⟩ := List.mem_map.mp hx
    obtain ⟨_, _, rfl⟩ := List.mem_map.mp hy
    exact hne hk.1

/-- C9 fails for two links of one container to the same network: on
`exampleGraph`, which has the nodes of both, the link loop over `twinLinks`
leaves one edge from the container to `bridge`, not two, because the second
call of `drawLink` finds the edge of the first. -/
theorem drawLinksLoop_counterexample :
    (∀ l ∈ twinLinks, l.NetworkName ≠ str "none" →
      exampleGraph.hasNode l.ContainerID = true ∧ exampleGraph.hasNode l.NetworkName = true) ∧
    (twinLinks.filter (fun l => decide (l.NetworkName ≠ str "none"))).length = 2 ∧
    drawLinksLoop nilEdgeFails exampleNetworkMap twinLinks exampleGraph =
      .ok ⟨exampleGraph.nodes, [⟨[], str "0123456789abcdef", str "bridge", none,
        some (str "#1f78b4"), some (str "solid")⟩]⟩ ∧
    ¬ (∃ es, drawLinksLoop nilEdgeFails exampleNetworkMap twinLinks exampleGraph =
        .ok ⟨exampleGraph.nodes, exampleGraph.edges ++ es⟩ ∧
      es.map (fun e => (e.tail, e.head)) =
        (twinLinks.filter (fun l => decide (l.NetworkName ≠ str "none"))).map
          (fun l => (l.ContainerID, l.NetworkName)) ∧
      es.length = (twinLinks.filter (fun l => decide (l.NetworkName ≠ str "none"))).length ∧
      (∀ e ∈ es, e.head ≠ str "none")) := by
  refine ⟨by decide, by decide, rfl, ?_⟩
  rintro ⟨es, hes, _, hlen, _⟩
  have h1 : drawLinksLoop nilEdgeFails exampleNetworkMap twinLinks exampleGraph =
      .ok ⟨exampleGraph.nodes, [⟨[], str "0123456789abcdef", str "bridge", none,
        some (str "#1f78b4"), some (str "solid")⟩]⟩ := rfl
  rw [h1] at hes
  injection hes with hes
  injection hes with _ hedges
  have hes2 : es = [⟨[], str "0123456789abcdef", str "bridge", none,
      some (str "#1f78b4"), some (str "solid")⟩] := by
    have : exampleGraph.edges = [] := rfl
    rw [this] at hedges
    simpa using hedges.symm
  rw [hes2] at hlen
  revert hlen
  decide

/-- C9, amended: on a graph that has the nodes of every link other than those
to `none`, the link loop of `generateGraph` succeeds and leaves the nodes as
they are; its edges are those of the graph after the edge without name from
the container to the network of each link whose `NetworkName` is not `none`
was created, or found, in the order of the list, and painted; at most one
edge per such link is added, each such link has its edge in the colour and
the style of its network, and every edge has the end nodes of an edge the
graph had or of such a link, so none is created for a link to `none`.  When
the graph has no edge without name between the end nodes of a link, and no
two links other than those to `none` join the same container and the same
network, exactly one edge per such link is added, in the order of the list,
and the number of edges added is the number of such links. -/
theorem drawLinksLoop_skips_none (lib : NilEdge) (networks : GoMap Network) (links : List Link)
    (graph : Graph)
    (hnodes : ∀ l ∈ links, l.NetworkName ≠ str "none" →
      graph.hasNode l.ContainerID = true ∧ graph.hasNode l.NetworkName = true) :
    ∃ g, drawLinksLoop lib networks links graph = .ok g ∧ g.nodes = graph.nodes ∧
      g.edges = (links.filter (fun l => decide (l.NetworkName ≠ str "none"))).foldl
        (fun es l => upsertEdge (linkEdge networks l) es) graph.edges ∧
      g.edges.length ≤ graph.edges.length +
        (links.filter (fun l => decide (l.NetworkName ≠ str "none"))).length ∧
      (∀ l ∈ links, l.NetworkName ≠ str "none" →
        ∃ e ∈ g.edges, e.name = [] ∧ e.tail = l.ContainerID ∧ e.head = l.NetworkName ∧
          e.color = some (networks.get l.NetworkName).Color ∧
          e.style = some (if (networks.get l.NetworkName).Isolated = true then str "dashed"
            else if (networks.get l.NetworkName).Name = str "host" then str "bold"
            else str "solid")) ∧
      (∀ e ∈ g.edges,
        (∃ y ∈ graph.edges, e.name = y.name ∧ e.tail = y.tail ∧ e.head = y.head) ∨
        (∃ l ∈ links, l.NetworkName ≠ str "none" ∧
          e.name = [] ∧ e.tail = l.ContainerID ∧ e.head = l.NetworkName)) ∧
      ((∀ e ∈ graph.edges, ∀ l ∈ links,
          ¬ (e.name = [] ∧ e.tail = l.ContainerID ∧ e.head = l.NetworkName)) →
        (links.filter (fun l => decide (l.NetworkName ≠ str "none"))).Pairwise
          (fun a b => ¬ (a.ContainerID = b.ContainerID ∧ a.NetworkName = b.NetworkName)) →
        ∃ es, g.edges = graph.edges ++ es ∧
          es.map (fun e => (e.tail, e.head)) =
            (links.filter (fun l => decide (l.NetworkName ≠ str "none"))).map
              (fun l => (l.ContainerID, l.NetworkName)) ∧
          es.length = (links.filter (fun l => decide (l.NetworkName ≠ str "none"))).length ∧
          (∀ e ∈ es, e.head ≠ str "none")) := by
  refine ⟨_, drawLinksLoop_eq lib networks links graph hnodes, rfl, rfl,
    length_foldl_upsertEdge_le networks _ graph.edges, ?_, ?_, ?_⟩
  · intro l hl hne
    exact foldl_upsertEdge_mem networks _ graph.edges l
      (List.mem_filter.mpr ⟨hl, decide_eq_true hne⟩)
  · intro e he
    rcases foldl_upsertEdge_origin networks _ graph.edges e he with h | ⟨l, hl, hk⟩
    · exact Or.inl h
    · exact Or.inr ⟨l, (List.mem_filter.mp hl).1, of_decide_eq_true (List.mem_filter.mp hl).2, hk⟩
  · intro hfresh hpair
    refine ⟨(links.filter (fun l => decide (l.NetworkName ≠ str "none"))).map
      (linkEdge networks), ?_, ?_, ?_, ?_⟩
    · exact foldl_upsertEdge_fresh networks _ graph.edges
        (fun e he l hl => hfresh e he l (List.mem_filter.mp hl).1) hpair
    · simp [linkEdge, Function.comp_def]
    · simp
    · intro e he
      obtain ⟨l, hl, rfl⟩ := List.mem_map.mp he
      exact of_decide_eq_true (List.mem_filter.mp hl).2

/-- The amended C9 at `exampleLinks`, two of whose six links lead to `none`:
four edges are added to `exampleGraph`. -/
theorem drawLinksLoop_skips_none_witness :
    (exampleLinks.filter (fun l => decide (l.NetworkName ≠ str "none"))).length = 4 ∧
    (exampleLinks.filter (fun l => decide (l.NetworkName ≠ str "none"))).Pairwise
      (fun a b => ¬ (a.ContainerID = b.ContainerID ∧ a.NetworkName = b.NetworkName)) ∧
    drawLinksLoop nilEdgeFails exampleNetworkMap exampleLinks exampleGraph =
      .ok ⟨exampleGraph.nodes,
        [⟨[], str "0123456789abcdef", str "bridge", none, some (str "#1f78b4"),
            some (str "solid")⟩,
          ⟨[], str "0123456789abcdef", str "host", none, some (str "#808080"),
            some (str "bold")⟩,
          ⟨[], str "0123456789abcdef", str "backend", none, some (str "#e31a1c"),
            some (str "dashed")⟩,
          ⟨[], str "0123456789abcdef", str "other", none, some (str "#33a02c"),
            some (str "dashed")⟩]⟩ ∧
    ∃ g, drawLinksLoop nilEdgeFails exampleNetworkMap exampleLinks exampleGraph = .ok g ∧
      g.nodes = exampleGraph.nodes ∧
      g.edges = (exampleLinks.filter (fun l => decide (l.NetworkName ≠ str "none"))).foldl
        (fun es l => upsertEdge (linkEdge exampleNetworkMap l) es) exampleGraph.edges ∧
      g.edges.length ≤ exampleGraph.edges.length +
        (exampleLinks.filter (fun l => decide (l.NetworkName ≠ str "none"))).length ∧
      (∀ l ∈ exampleLinks, l.NetworkName ≠ str "none" →
        ∃ e ∈ g.edges, e.name = [] ∧ e.tail = l.ContainerID ∧ e.head = l.NetworkName ∧
          e.color = some (exampleNetworkMap.get l.NetworkName).Color ∧
          e.style = some (if (exampleNetworkMap.get l.NetworkName).Isolated = true
            then str "dashed"
            else if (exampleNetworkMap.get l.NetworkName).Name = str "host" then str "bold"
            else str "solid")) ∧
      (∀ e ∈ g.edges,
        (∃ y ∈ exampleGraph.edges, e.name = y.name ∧ e.tail = y.tail ∧ e.head = y.head) ∨
        (∃ l ∈ exampleLinks, l.NetworkName ≠ str "none" ∧
          e.name = [] ∧ e.tail = l.ContainerID ∧ e.head = l.NetworkName)) ∧
      ((∀ e ∈ exampleGraph.edges, ∀ l ∈ exampleLinks,
          ¬ (e.name = [] ∧ e.tail = l.ContainerID ∧ e.head = l.NetworkName)) →
        (exampleLinks.filter (fun l => decide (l.NetworkName ≠ str "none"))).Pairwise
          (fun a b => ¬ (a.ContainerID = b.ContainerID ∧ a.NetworkName = b.NetworkName)) →
        ∃ es, g.edges = exampleGraph.edges ++ es ∧
          es.map (fun e => (e.tail, e.head)) =
            (exampleLinks.filter (fun l => decide (l.NetworkName ≠ str "none"))).map
              (fun l => (l.ContainerID, l.NetworkName)) ∧
          es.length =
            (exampleLinks.filter (fun l => decide (l.NetworkName ≠ str "none"))).length ∧
          (∀ e ∈ es, e.head ≠ str "none")) :=
  ⟨by decide, by decide, rfl,
    drawLinksLoop_skips_none nilEdgeFails exampleNetworkMap exampleLinks exampleGraph
      (by decide)⟩

end DockerNetworkGraph
